import Mathlib

/-!
# RFP management system: inbound-email ingestion and RFP matching

A shallow embedding of `backend/services/email-monitor.service.js` together with
the Mongoose models it reads and writes (`models/RFP.js`, `models/Vendor.js`,
`models/Conversation.js`).

Modelling conventions

* A JavaScript string is a `List Char` (`Str`).  Lengths count code points, which
  agrees with JavaScript's UTF-16 length on the Basic Multilingual Plane.
  `toLowerCase` lowers the ASCII letters.
* An `ObjectId` is the number its 24 hexadecimal digits denote.
* A JavaScript number holding money or a quantity is a rational (`ℚ`); dates are
  milliseconds (`Nat`).
* The database is an explicit `Store`; `find` returns documents in store order.
* Everything the code awaits from outside (attachment text extraction, the AI
  call, the clock, fresh ids, and whether a database call rejects) is read from
  an `Env`.
-/

namespace RFPSystem

/-! ## Strings -/

abbrev Str := List Char

abbrev ObjectId := Nat

/-- The regular-expression line terminators: the characters `.` does not match. -/
def isLineTerminator (c : Char) : Bool :=
  c.toNat = 0x0A || c.toNat = 0x0D || c.toNat = 0x2028 || c.toNat = 0x2029

/-- The characters of the class `\s`, which are also the ones `trim` removes. -/
def isWhiteSpace (c : Char) : Bool :=
  isLineTerminator c || c.toNat = 0x09 || c.toNat = 0x0B || c.toNat = 0x0C ||
  c.toNat = 0x20 || c.toNat = 0xA0 || c.toNat = 0x1680 ||
  (0x2000 ≤ c.toNat && c.toNat ≤ 0x200A) ||
  c.toNat = 0x202F || c.toNat = 0x205F || c.toNat = 0x3000 || c.toNat = 0xFEFF

/-- The method `String.prototype.toLowerCase`, on the ASCII letters. -/
def toLowerCase (s : Str) : Str := s.map Char.toLower

/-- The method `String.prototype.includes`. -/
def includes : Str → Str → Bool
  | [], sub => sub.isEmpty
  | c :: cs, sub => sub.isPrefixOf (c :: cs) || includes cs sub

/-- The method `String.prototype.endsWith`. -/
def endsWith (s suffix : Str) : Bool := suffix.reverse.isPrefixOf s.reverse

/-- The method `String.prototype.split` with a one-character separator. -/
def split (sep : Char) : Str → List Str
  | [] => [[]]
  | c :: cs =>
    if c = sep then [] :: split sep cs
    else
      match split sep cs with
      | [] => [[c]]
      | w :: ws => (c :: w) :: ws

/-- The method `String.prototype.trim`. -/
def trim (s : Str) : Str :=
  ((s.dropWhile isWhiteSpace).reverse.dropWhile isWhiteSpace).reverse

/-- The JavaScript `a || b` on strings that may be absent: an absent or empty
string is falsy. -/
def orStr (a : Option Str) (b : Str) : Str :=
  match a with
  | some (c :: cs) => c :: cs
  | _ => b

/-! ## The regular expressions of `processEmail` -/

/-- The tail of `.+?>` after its first character: the shortest run of characters
other than line terminators that is followed by `>`. -/
def restUntilGt : Str → Option Str
  | [] => none
  | d :: ds =>
    if d = '>' then some []
    else if isLineTerminator d then none
    else (restUntilGt ds).map (d :: ·)

/-- The pattern `<(.+?)>` anchored at the head of the text; the result is group 1. -/
def angleAt : Str → Option Str
  | a :: c :: cs =>
    if a = '<' && !isLineTerminator c then (restUntilGt cs).map (c :: ·) else none
  | _ => none

/-- The leftmost match of `/<(.+?)>/`, group 1. -/
def matchAngle : Str → Option Str
  | [] => none
  | c :: cs =>
    match angleAt (c :: cs) with
    | some g => some g
    | none => matchAngle cs

/-- The maximal runs of non-whitespace characters, in order. -/
def wsTokens : Str → List Str
  | [] => []
  | c :: cs =>
    if isWhiteSpace c then wsTokens cs
    else
      match cs, wsTokens cs with
      | [], _ => [[c]]
      | d :: _, ts =>
        if isWhiteSpace d then [c] :: ts
        else
          match ts with
          | [] => [[c]]
          | t :: ts' => (c :: t) :: ts'

/-- A run of non-whitespace matches `[^\s]+@[^\s]+` from its first character when
an `@` stands strictly inside it. -/
def hasInnerAt : Str → Bool
  | [] => false
  | _ :: rest => rest.dropLast.contains '@'

/-- The leftmost match of `/([^\s]+@[^\s]+)/`.  Both classes are greedy and
exclude whitespace, so a match is always a whole run of non-whitespace, and the
leftmost one is the first run with an inner `@`. -/
def matchAddr (s : Str) : Option Str := (wsTokens s).find? hasInnerAt

/-- Lines 230-231: the sender's address taken from the `From` text. -/
def extractVendorEmail (fromText : Str) : Str :=
  match matchAngle fromText with
  | some g => g
  | none =>
    match matchAddr fromText with
    | some a => a
    | none => fromText

/-- The class `[a-f0-9]` under the `i` flag. -/
def isHexDigit (c : Char) : Bool :=
  (48 ≤ c.toNat && c.toNat ≤ 57) || (97 ≤ c.toNat && c.toNat ≤ 102) ||
  (65 ≤ c.toNat && c.toNat ≤ 70)

/-- The pattern `\[ID:\s*([a-f0-9]{24})\]` under the `i` flag, anchored at the
head of the text; the result is group 1. -/
def idTagAt : Str → Option Str
  | b :: i :: d :: c :: rest =>
    if b = '[' && (i = 'I' || i = 'i') && (d = 'D' || d = 'd') && c = ':' then
      let r := rest.dropWhile isWhiteSpace
      let hex := r.take 24
      if hex.length = 24 && hex.all isHexDigit && (r.drop 24).head? = some ']' then
        some hex
      else none
    else none
  | _ => none

/-- Line 270: the leftmost match of the ID tag in the subject, group 1. -/
def rfpIdMatch : Str → Option Str
  | [] => none
  | c :: cs =>
    match idTagAt (c :: cs) with
    | some hex => some hex
    | none => rfpIdMatch cs

/-- The value of one hexadecimal digit. -/
def hexDigitValue (c : Char) : Nat :=
  if 48 ≤ c.toNat && c.toNat ≤ 57 then c.toNat - 48
  else if 97 ≤ c.toNat && c.toNat ≤ 102 then c.toNat - 87
  else c.toNat - 55

/-- The cast of a hexadecimal string to an `ObjectId`, as `findById` performs it. -/
def castObjectId (hex : Str) : ObjectId :=
  hex.foldl (fun acc c => 16 * acc + hexDigitValue c) 0

/-! ## Documents (`models/*.js`) -/

/-- The `status` enum of `rfpSchema`. -/
inductive RFPStatus where
  | draft
  | sent
  | responses_received
  | evaluated
  | completed
  deriving DecidableEq, Repr

/-- The `status` enum of `conversationSchema`. -/
inductive ConversationStatus where
  | pending_review
  | accepted
  | rejected
  deriving DecidableEq, Repr

/-- A Vendor document. -/
structure Vendor where
  _id : ObjectId
  name : Str
  email : Str
  deriving DecidableEq, Repr

/-- An RFP document; `sentTo` holds Vendor references. -/
structure RFP where
  _id : ObjectId
  title : Str
  status : RFPStatus
  sentTo : List ObjectId
  createdAt : Nat
  updatedAt : Nat
  deriving DecidableEq, Repr

/-- An element of `parsedData.items` of a Conversation. -/
structure ConversationItem where
  description : Str
  quantity : ℚ
  unitPrice : ℚ
  totalPrice : ℚ
  deriving DecidableEq

/-- The `parsedData` of a Conversation. -/
structure ConversationParsedData where
  items : List ConversationItem
  totalAmount : ℚ
  deliveryTime : Str
  paymentTerms : Str
  warranty : Str
  additionalNotes : Str
  deriving DecidableEq

/-- A Conversation document, without the `createdAt` and `updatedAt` that the
`timestamps` option maintains. -/
structure Conversation where
  _id : ObjectId
  rfpId : ObjectId
  vendorId : ObjectId
  emailSubject : Str
  emailContent : Str
  parsedData : ConversationParsedData
  status : ConversationStatus
  receivedAt : Nat
  parsedAt : Option Nat
  reviewedAt : Option Nat
  reviewedBy : Option Str
  rejectionReason : Option Str
  deriving DecidableEq

/-- The three collections the ingestion pipeline touches.  MongoDB keeps the
`_id` of the documents of a collection distinct. -/
structure Store where
  rfps : List RFP
  vendors : List Vendor
  conversations : List Conversation
  deriving DecidableEq

/-! ## Messages and the outside world -/

/-- An attachment of a parsed mail; `content` is the byte buffer. -/
structure Attachment where
  filename : Option Str
  contentType : Option Str
  content : Option (List Nat)
  deriving DecidableEq

/-- The normalized message `simpleParser` hands to `processEmail`; `fromText` is
`from.text`, absent when the mail has no `From`. -/
structure EmailData where
  subject : Option Str
  fromText : Option Str
  text : Option Str
  html : Option Str
  date : Option Nat
  attachments : Option (List Attachment)
  deriving DecidableEq

/-- An item of the value `parseVendorResponse` returns. -/
structure QuoteItem where
  description : Str
  quantity : ℚ
  unitPrice : ℚ
  totalPrice : ℚ
  specifications : Str
  deriving DecidableEq

/-- The value `parseVendorResponse` returns. -/
structure ParsedQuote where
  items : List QuoteItem
  totalCost : ℚ
  deliveryTimeline : Str
  paymentTerms : Str
  warranty : Str
  additionalInfo : Str
  deriving DecidableEq

/-- The database calls of `processEmail`, in source order. -/
inductive DbCall where
  | allowListFind
  | findById
  | subjectFind
  | recentFind
  | vendorFindOne
  | conversationFindOne
  | conversationSave
  | rfpSave
  deriving DecidableEq, Repr

/-- What one run of `processEmail` awaits from outside.  An extractor returns
`none` for the `null` of its `catch`; `parseVendorResponse` returns `none` when
it throws; `dbRejects c` tells whether database call `c` rejects. -/
structure Env where
  extractTextFromPDF : List Nat → Option Str
  extractTextFromWord : List Nat → Option Str
  extractTextFromExcel : List Nat → Option Str
  extractTextFromImage : List Nat → Option Str
  parseVendorResponse : Str → Option ParsedQuote
  now : Nat
  newObjectId : ObjectId
  dbRejects : DbCall → Bool

/-! ## `processAttachments` (lines 141-211) -/

/-- Lines 152-207: the text one attachment adds to `extractedText`. -/
def attachmentBlock (env : Env) (attachment : Attachment) : Str :=
  let filename := orStr attachment.filename "unknown".toList
  let contentType := orStr attachment.contentType []
  let filenameLower := toLowerCase filename
  match attachment.content with
  | none => []
  | some [] => []
  | some (b :: bs) =>
    let content := b :: bs
    let extractedContent : Option Str :=
      if includes contentType "pdf".toList || endsWith filenameLower ".pdf".toList then
        env.extractTextFromPDF content
      else if includes contentType "wordprocessingml".toList ||
          includes contentType "msword".toList ||
          endsWith filenameLower ".docx".toList ||
          endsWith filenameLower ".doc".toList then
        env.extractTextFromWord content
      else if includes contentType "spreadsheetml".toList ||
          includes contentType "ms-excel".toList ||
          endsWith filenameLower ".xlsx".toList ||
          endsWith filenameLower ".xls".toList then
        env.extractTextFromExcel content
      else if includes contentType "image/".toList ||
          endsWith filenameLower ".jpg".toList ||
          endsWith filenameLower ".jpeg".toList ||
          endsWith filenameLower ".png".toList ||
          endsWith filenameLower ".gif".toList ||
          endsWith filenameLower ".bmp".toList then
        env.extractTextFromImage content
      else none
    match extractedContent with
    | some (c :: cs) =>
      "\n\n=== Content from ".toList ++ filename ++ " ===\n".toList ++ (c :: cs) ++ "\n".toList
    | _ => []

/-- The text extracted from the attachments, `none` for `null`. -/
def processAttachments (env : Env) (attachments : Option (List Attachment)) : Option Str :=
  match attachments with
  | none => none
  | some [] => none
  | some (a :: as) =>
    let extractedText := ((a :: as).map (attachmentBlock env)).flatten
    match trim extractedText with
    | [] => none
    | c :: cs => some (c :: cs)

/-! ## Queries -/

/-- The `populate('sentTo')` of an RFP: the Vendor documents its references
resolve to (a reference to a deleted Vendor resolves to nothing). -/
def populate (s : Store) (rfp : RFP) : List Vendor :=
  rfp.sentTo.filterMap (fun id => s.vendors.find? (fun v => v._id = id))

/-- The `rfp.sentTo.map(v => v.email.toLowerCase())` of a populated RFP. -/
def sentToEmails (s : Store) (rfp : RFP) : List Str :=
  (populate s rfp).map (fun v => toLowerCase v.email)

/-- The filter `status: { $in: ['sent', 'responses_received', 'evaluated'] }`. -/
def statusInFilter (st : RFPStatus) : Bool :=
  st = RFPStatus.sent || st = RFPStatus.responses_received || st = RFPStatus.evaluated

/-- The `RFP.find({ status: { $in: [...] } })` of lines 56, 297 and 325. -/
def findOpenRFPs (s : Store) : List RFP :=
  s.rfps.filter (fun rfp => statusInFilter rfp.status)

/-- The method `Set.prototype.add` on a set kept in insertion order. -/
def setAdd (set : List Str) (e : Str) : List Str :=
  if set.contains e then set else set ++ [e]

/-- Lines 54-69: the allow-list. -/
def getVendorEmails (s : Store) : List Str :=
  (findOpenRFPs s).foldl (fun vendorEmails rfp => (sentToEmails s rfp).foldl setAdd vendorEmails) []

/-- The query `RFP.findById`. -/
def findById (s : Store) (id : ObjectId) : Option RFP :=
  s.rfps.find? (fun rfp => rfp._id = id)

/-- The query `Vendor.findOne` by `email`.  Mongoose casts the filter value through the
setters `vendorSchema` declares for `email` (`trim`, `lowercase`). -/
def findVendorByEmail (s : Store) (email : Str) : Option Vendor :=
  s.vendors.find? (fun v => v.email = toLowerCase (trim email))

/-- The query `Conversation.findOne` by `rfpId` and `vendorId`. -/
def findConversation (s : Store) (rfpId vendorId : ObjectId) : Option Conversation :=
  s.conversations.find? (fun c => c.rfpId = rfpId && c.vendorId = vendorId)

/-! ## RFP matching (lines 269-334) -/

/-- Lines 270-292: the match by the ID tag of the subject. -/
def matchById (s : Store) (subject vendorEmailLower : Str) : Option RFP :=
  match rfpIdMatch subject with
  | none => none
  | some rfpId =>
    match findById s (castObjectId rfpId) with
    | none => none
    | some rfp => if (sentToEmails s rfp).contains vendorEmailLower then some rfp else none

/-- Line 305: the significant words of a title. -/
def titleWords (rfp : RFP) : List Str :=
  (split ' ' (toLowerCase rfp.title)).filter (fun w => w.length > 3)

/-- Line 306. -/
def matchScore (subjectLower : Str) (rfp : RFP) : Nat :=
  ((titleWords rfp).filter (fun word => includes subjectLower word)).length

/-- A quotient of two naturals, kept as numerator and denominator; `den` is
positive wherever one is built.  In the code the quotient `matchScore /
titleWords.length` is a double; two such quotients compare as doubles the way
they compare as rationals while the product of the word counts stays below
`2 ^ 52`, which the size limit of a document guarantees. -/
structure Ratio where
  num : Nat
  den : Nat
  deriving DecidableEq, Repr

/-- The order `a < b` of the quotients, by cross-multiplication. -/
def Ratio.lt (a b : Ratio) : Bool := a.num * b.den < b.num * a.den

/-- Line 307. -/
def matchPercentage (subjectLower : Str) (rfp : RFP) : Ratio :=
  if (titleWords rfp).length > 0 then ⟨matchScore subjectLower rfp, (titleWords rfp).length⟩
  else ⟨0, 1⟩

/-- The variables the loop of lines 302-315 updates. -/
structure SubjectMatch where
  matchedRFP : Option RFP
  bestMatchScore : Nat
  bestMatchPercentage : Ratio
  deriving DecidableEq

/-- Lines 303-314: one iteration of the loop. -/
def subjectStep (s : Store) (subjectLower vendorEmailLower : Str)
    (st : SubjectMatch) (rfp : RFP) : SubjectMatch :=
  if (sentToEmails s rfp).contains vendorEmailLower then
    if matchScore subjectLower rfp ≥ 2 &&
        Ratio.lt st.bestMatchPercentage (matchPercentage subjectLower rfp) then
      ⟨some rfp, matchScore subjectLower rfp, matchPercentage subjectLower rfp⟩
    else st
  else st

/-- Lines 295-320: the match by the words of the subject. -/
def matchBySubject (s : Store) (subject vendorEmailLower : Str) : Option RFP :=
  ((findOpenRFPs s).foldl (subjectStep s (toLowerCase subject) vendorEmailLower)
    ⟨none, 0, ⟨0, 1⟩⟩).matchedRFP

/-- Lines 323-334: the most recent RFP sent to the vendor; `sort` is stable. -/
def matchMostRecent (s : Store) (vendorEmailLower : Str) : Option RFP :=
  ((findOpenRFPs s).insertionSort (fun a b => b.createdAt ≤ a.createdAt)).find?
    (fun rfp => (sentToEmails s rfp).contains vendorEmailLower)

/-- Lines 269-334: the three tiers in order. -/
def matchRFP (s : Store) (subject vendorEmailLower : Str) : Option RFP :=
  match matchById s subject vendorEmailLower with
  | some rfp => some rfp
  | none =>
    match matchBySubject s subject vendorEmailLower with
    | some rfp => some rfp
    | none => matchMostRecent s vendorEmailLower

/-- Whether a database read that the matching performs rejects: `findById` runs
when the subject has an ID tag, the second `find` when tier 1 gave nothing, the
third when tier 2 gave nothing either. -/
def matchingRejects (env : Env) (s : Store) (subject vendorEmailLower : Str) : Bool :=
  ((rfpIdMatch subject).isSome && env.dbRejects DbCall.findById) ||
  ((matchById s subject vendorEmailLower).isNone &&
    (env.dbRejects DbCall.subjectFind ||
      ((matchBySubject s subject vendorEmailLower).isNone && env.dbRejects DbCall.recentFind)))

/-! ## `processEmail` (lines 216-421) -/

/-- The JavaScript `a || b` on numbers: zero is falsy. -/
def orNum (a b : ℚ) : ℚ := if a = 0 then b else a

/-- Line 364. -/
def itemTotal (item : QuoteItem) : ℚ :=
  orNum (orNum item.totalPrice (item.quantity * item.unitPrice)) 0

/-- Lines 359-368. -/
def totalAmount (parsedData : ParsedQuote) : ℚ :=
  let totalAmount := orNum parsedData.totalCost 0
  if totalAmount = 0 && parsedData.items.length > 0 then
    parsedData.items.foldl (fun sum item => sum + itemTotal item) 0
  else totalAmount

/-- The object `conversationData` of lines 370-385. -/
structure ConversationData where
  emailSubject : Str
  emailContent : Str
  parsedData : ConversationParsedData
  status : ConversationStatus
  receivedAt : Nat
  parsedAt : Option Nat
  rejectionReason : Option Str
  deriving DecidableEq

/-- Lines 370-385; the item subdocuments keep the fields `conversationSchema`
declares. -/
def conversationData (env : Env) (subject emailContent : Str) (date : Option Nat)
    (parsedData : ParsedQuote) : ConversationData where
  emailSubject := subject
  emailContent := emailContent
  parsedData :=
    { items := parsedData.items.map
        (fun item => ⟨item.description, item.quantity, item.unitPrice, item.totalPrice⟩)
      totalAmount := totalAmount parsedData
      deliveryTime := orStr (some parsedData.deliveryTimeline) "Not specified".toList
      paymentTerms := orStr (some parsedData.paymentTerms) "Not specified".toList
      warranty := orStr (some parsedData.warranty) "Not specified".toList
      additionalNotes := orStr (some parsedData.additionalInfo) [] }
  status := ConversationStatus.pending_review
  receivedAt := date.getD env.now
  parsedAt := some env.now
  rejectionReason := none

/-- Line 390: `Object.assign(existingConversation, conversationData)`. -/
def assignData (c : Conversation) (d : ConversationData) : Conversation :=
  { c with
    emailSubject := d.emailSubject
    emailContent := d.emailContent
    parsedData := d.parsedData
    status := d.status
    receivedAt := d.receivedAt
    parsedAt := d.parsedAt
    rejectionReason := d.rejectionReason }

/-- Lines 395-399: `new Conversation({ rfpId, vendorId, ...conversationData })`. -/
def newConversation (id rfpId vendorId : ObjectId) (d : ConversationData) : Conversation where
  _id := id
  rfpId := rfpId
  vendorId := vendorId
  emailSubject := d.emailSubject
  emailContent := d.emailContent
  parsedData := d.parsedData
  status := d.status
  receivedAt := d.receivedAt
  parsedAt := d.parsedAt
  reviewedAt := none
  reviewedBy := none
  rejectionReason := d.rejectionReason

/-- Why a run of `processEmail` returns `false` before it writes: the five
`return false` of lines 240, 248, 264, 338 and 345, and the `catch` of line 416. -/
inductive Skip where
  | unknownVendor
  | notRfpReply
  | emptyContent
  | noMatchingRFP
  | vendorNotFound
  | exception
  deriving DecidableEq, Repr

/-- What lines 216-385 have established when the first write is reached. -/
structure Plan where
  matchedRFP : RFP
  vendor : Vendor
  existingConversation : Option Conversation
  data : ConversationData
  deriving DecidableEq

/-- Line 246: the reply-to-RFP test on the subject. -/
def isRfpReply (subject : Option Str) : Bool :=
  match subject with
  | none => false
  | some subject =>
    !subject.isEmpty && includes (toLowerCase subject) "re:".toList &&
      includes (toLowerCase subject) "rfp".toList

/-- Lines 252-260: the body, then the attachment text. -/
def buildEmailContent (env : Env) (emailData : EmailData) : Str :=
  let emailContent := orStr emailData.text (orStr emailData.html [])
  match processAttachments env emailData.attachments with
  | some attachmentText => emailContent ++ "\n\n".toList ++ attachmentText
  | none => emailContent

/-- Lines 218-385: everything `processEmail` does before its first write. -/
def prepare (env : Env) (s : Store) (emailData : EmailData) : Except Skip Plan :=
  match emailData.fromText with
  | none => Except.error Skip.exception
  | some fromText =>
    let vendorEmail := extractVendorEmail fromText
    let vendorEmailLower := toLowerCase vendorEmail
    if env.dbRejects DbCall.allowListFind then Except.error Skip.exception
    else if !(getVendorEmails s).contains vendorEmailLower then Except.error Skip.unknownVendor
    else if !isRfpReply emailData.subject then Except.error Skip.notRfpReply
    else
      let subject := emailData.subject.getD []
      let emailContent := buildEmailContent env emailData
      if emailContent.isEmpty then Except.error Skip.emptyContent
      else if matchingRejects env s subject vendorEmailLower then Except.error Skip.exception
      else
        match matchRFP s subject vendorEmailLower with
        | none => Except.error Skip.noMatchingRFP
        | some matchedRFP =>
          if env.dbRejects DbCall.vendorFindOne then Except.error Skip.exception
          else
            match findVendorByEmail s vendorEmail with
            | none => Except.error Skip.vendorNotFound
            | some vendor =>
              if env.dbRejects DbCall.conversationFindOne then Except.error Skip.exception
              else
                match env.parseVendorResponse emailContent with
                | none => Except.error Skip.exception
                | some parsedData =>
                  Except.ok
                    { matchedRFP := matchedRFP
                      vendor := vendor
                      existingConversation := findConversation s matchedRFP._id vendor._id
                      data := conversationData env subject emailContent emailData.date parsedData }

/-- Lines 387-402: the Conversation collection after the save. -/
def saveConversation (env : Env) (s : Store) (p : Plan) : List Conversation :=
  match p.existingConversation with
  | some existingConversation =>
    s.conversations.map
      (fun c => if c._id = existingConversation._id then assignData c p.data else c)
  | none =>
    s.conversations ++ [newConversation env.newObjectId p.matchedRFP._id p.vendor._id p.data]

/-- Lines 408-411 with the `pre('save')` hook of `rfpSchema`: the RFP collection
after `matchedRFP.save()`. -/
def saveRFPStatus (env : Env) (s : Store) (matchedRFP : RFP) : List RFP :=
  s.rfps.map (fun rfp =>
    if rfp._id = matchedRFP._id then
      { rfp with status := RFPStatus.responses_received, updatedAt := env.now }
    else rfp)

/-- Lines 387-414: the writes, and the value returned. -/
def commit (env : Env) (s : Store) (p : Plan) : Store × Bool :=
  if env.dbRejects DbCall.conversationSave then (s, false)
  else
    let s1 : Store := { s with conversations := saveConversation env s p }
    if p.matchedRFP.status = RFPStatus.sent then
      if env.dbRejects DbCall.rfpSave then (s1, false)
      else ({ s1 with rfps := saveRFPStatus env s1 p.matchedRFP }, true)
    else (s1, true)

/-- The store after `processEmail(emailData)` and the boolean it resolves to. -/
def processEmail (env : Env) (s : Store) (emailData : EmailData) : Store × Bool :=
  match prepare env s emailData with
  | Except.error _ => (s, false)
  | Except.ok p => commit env s p

/-! ## The message handler of `fetchUnreadEmails` (lines 482-520) -/

/-- Lines 485-497: one fetched message; `none` is a mail `simpleParser` could not
parse.  The boolean is the value passed to `resolveMsg`. -/
def handleMessage (env : Env) (s : Store) (parsed : Option EmailData) : Store × Bool :=
  match parsed with
  | none => (s, false)
  | some emailData => ((processEmail env s emailData).1, true)

/-- The fetched messages handled one after the other, each with what it awaits
from outside; the list is the `results` of line 511. -/
def handleMessages (s : Store) : List (Env × Option EmailData) → Store × List Bool
  | [] => (s, [])
  | (env, parsed) :: rest =>
    let r := handleMessage env s parsed
    let rs := handleMessages r.1 rest
    (rs.1, r.2 :: rs.2)

/-- Lines 511-518: the count `fetchUnreadEmails` resolves with. -/
def processedCount (s : Store) (fetched : List (Env × Option EmailData)) : Nat :=
  ((handleMessages s fetched).2.filter (fun r => r = true)).length

/-! ## The post-processing of `parseVendorResponse` (`ai.service.js`, lines 163-206) -/

/-- An item as the AI returns it; any field may be absent. -/
structure RawItem where
  description : Option Str
  name : Option Str
  quantity : Option ℚ
  unitPrice : Option ℚ
  totalPrice : Option ℚ
  specifications : Option Str
  deriving DecidableEq

/-- The object `JSON.parse` yields from the AI's answer; any field may be absent. -/
structure RawQuote where
  items : Option (List RawItem)
  totalCost : Option ℚ
  deliveryTimeline : Option Str
  paymentTerms : Option Str
  warranty : Option Str
  additionalInfo : Option Str
  deriving DecidableEq

/-- The class `\d`. -/
def isDigit (c : Char) : Bool := 48 ≤ c.toNat && c.toNat ≤ 57

/-- The class `[,\d]`. -/
def isDigitOrComma (c : Char) : Bool := isDigit c || c = ','

/-- The class `[\s:]`. -/
def isSpaceOrColon (c : Char) : Bool := isWhiteSpace c || c = ':'

/-- The class `[$₹€£]`. -/
def isCurrency (c : Char) : Bool :=
  c.toNat = 0x24 || c.toNat = 0x20B9 || c.toNat = 0x20AC || c.toNat = 0xA3

/-- The pattern `\d+[,\d]*(?:\.\d+)?` anchored at the head of the text: the text
matched and what follows it. -/
def amountAt (s : Str) : Option (Str × Str) :=
  match s with
  | [] => none
  | c :: _ =>
    if isDigit c then
      let run := s.takeWhile isDigitOrComma
      match s.dropWhile isDigitOrComma with
      | p :: d :: ds =>
        if p = '.' && isDigit d then
          some (run ++ p :: (d :: ds).takeWhile isDigit, (d :: ds).dropWhile isDigit)
        else some (run, p :: d :: ds)
      | rest => some (run, rest)
    else none

/-- A literal of the pattern under the `i` flag, anchored at the head of the
text: what follows it. -/
def stripLiteral (literal s : Str) : Option Str :=
  if toLowerCase (s.take literal.length) = literal then some (s.drop literal.length) else none

/-- Two literals with `\s*` between them, anchored at the head of the text. -/
def stripTwoLiterals (first second s : Str) : Option Str :=
  match stripLiteral first s with
  | some rest => stripLiteral second (rest.dropWhile isWhiteSpace)
  | none => none

/-- The part `[\s:]*[$₹€£]?\s*(\d+[,\d]*(?:\.\d+)?)` of the total pattern,
anchored at the head of the text: group 1 and what follows the match. -/
def totalTailAt (s : Str) : Option (Str × Str) :=
  match s.dropWhile isSpaceOrColon with
  | [] => none
  | c :: cs =>
    if isCurrency c then amountAt (cs.dropWhile isWhiteSpace) else amountAt (c :: cs)

/-- The alternatives `total|grand\s*total|total\s*amount|total\s*cost|sum`, in the
order the pattern tries them, each anchored at the head of the text. -/
def keywordAlternatives (s : Str) : List (Option Str) :=
  [stripLiteral "total".toList s,
   stripTwoLiterals "grand".toList "total".toList s,
   stripTwoLiterals "total".toList "amount".toList s,
   stripTwoLiterals "total".toList "cost".toList s,
   stripLiteral "sum".toList s]

/-- The first alternative after which the rest of the pattern matches. -/
def firstTotalMatch : List (Option Str) → Option (Str × Str)
  | [] => none
  | none :: alternatives => firstTotalMatch alternatives
  | some rest :: alternatives =>
    match totalTailAt rest with
    | some m => some m
    | none => firstTotalMatch alternatives

/-- The `totalRegex` of line 173 anchored at the head of the text: the text
matched and group 1. -/
def totalMatchAt (s : Str) : Option (Str × Str) :=
  match firstTotalMatch (keywordAlternatives s) with
  | some (group, rest) => some (s.take (s.length - rest.length), group)
  | none => none

/-- Line 174, `emailContent.match(totalRegex)` under the `g` flag: the successive
matches, each with its group 1; `skip` characters of a match just found are
still to be passed over. -/
def totalMatches : Str → Nat → List (Str × Str)
  | [], _ => []
  | _ :: cs, skip + 1 => totalMatches cs skip
  | c :: cs, 0 =>
    match totalMatchAt (c :: cs) with
    | some (text, group) => (text, group) :: totalMatches cs (text.length - 1)
    | none => totalMatches cs 0

/-- Line 178, `lastMatch.match(/(\d+[,\d]*(?:\.\d+)?)/)`: the leftmost match, group 1. -/
def amountMatch : Str → Option Str
  | [] => none
  | c :: cs =>
    match amountAt (c :: cs) with
    | some (group, _) => some group
    | none => amountMatch cs

/-- The number a string of decimal digits denotes. -/
def digitsValue (digits : Str) : Nat :=
  digits.foldl (fun acc c => 10 * acc + (c.toNat - 48)) 0

/-- The digits `parseFloat` reads from a string of digits with an optional
fraction: the number its digits denote with the point left out, and the number
of digits after the point. -/
def parseFloatParts (s : Str) : Nat × Nat :=
  match s.dropWhile isDigit with
  | p :: fs =>
    if p = '.' then
      (digitsValue (s.takeWhile isDigit ++ fs.takeWhile isDigit), (fs.takeWhile isDigit).length)
    else (digitsValue (s.takeWhile isDigit), 0)
  | [] => (digitsValue (s.takeWhile isDigit), 0)

/-- The function `parseFloat` on a string of digits with an optional fraction. -/
def parseFloat (s : Str) : ℚ :=
  ((parseFloatParts s).1 : ℚ) / ((10 ^ (parseFloatParts s).2 : ℕ) : ℚ)

/-- Line 180: `parseFloat(amountMatch[1].replace(/,/g, ''))`. -/
def amountValue (group : Str) : ℚ := parseFloat (group.filter (fun c => c ≠ ','))

/-- Lines 174-178: group 1 of the amount pattern in the last match of the total
pattern, `none` when the total pattern has no match. -/
def regexTotalGroup (emailContent : Str) : Option Str :=
  match (totalMatches emailContent 0).getLast? with
  | none => none
  | some (lastMatch, _) => amountMatch lastMatch

/-- Lines 173-183: the total the regular expression recovers from the text,
`none` when the pattern has no match. -/
def regexTotal (emailContent : Str) : Option ℚ :=
  (regexTotalGroup emailContent).map amountValue

/-- The product `item.quantity * item.unitPrice`; it is `NaN`, which is falsy,
when a factor is absent. -/
def rawProduct (item : RawItem) : ℚ :=
  match item.quantity, item.unitPrice with
  | some quantity, some unitPrice => quantity * unitPrice
  | _, _ => 0

/-- Lines 189 and 202: `item.totalPrice || (item.quantity * item.unitPrice) || 0`. -/
def rawItemTotal (item : RawItem) : ℚ :=
  orNum (orNum (item.totalPrice.getD 0) (rawProduct item)) 0

/-- Lines 198-204: one item with all its fields. -/
def normalizeItem (item : RawItem) : QuoteItem where
  description := orStr item.description (orStr item.name "Unknown Item".toList)
  quantity := orNum (item.quantity.getD 0) 0
  unitPrice := orNum (item.unitPrice.getD 0) 0
  totalPrice := rawItemTotal item
  specifications := orStr item.specifications []

/-- Lines 171-184: the total after the first fallback. -/
def afterRegexFallback (emailContent : Str) (totalCost : ℚ) : ℚ :=
  if totalCost = 0 then
    match regexTotal emailContent with
    | some total => total
    | none => totalCost
  else totalCost

/-- Lines 186-195: the total after the second fallback. -/
def afterItemsFallback (items : List RawItem) (totalCost : ℚ) : ℚ :=
  if totalCost = 0 && items.length > 0 then
    items.foldl (fun sum item => sum + rawItemTotal item) 0
  else totalCost

/-- Lines 163-206: the value `parseVendorResponse` returns for the object parsed
from the AI's answer. -/
def postProcess (emailContent : Str) (parsedData : RawQuote) : ParsedQuote :=
  let items := parsedData.items.getD []
  let totalCost := orNum (parsedData.totalCost.getD 0) 0
  { items := items.map normalizeItem
    totalCost := afterItemsFallback items (afterRegexFallback emailContent totalCost)
    deliveryTimeline := orStr parsedData.deliveryTimeline "Not specified".toList
    paymentTerms := orStr parsedData.paymentTerms "Not specified".toList
    warranty := orStr parsedData.warranty "Not specified".toList
    additionalInfo := orStr parsedData.additionalInfo [] }

/-- A value `parseVendorResponse` returned, read again as the object the
post-processing starts from: every field is present. -/
def ParsedQuote.toRaw (q : ParsedQuote) : RawQuote where
  items := some (q.items.map (fun item =>
    ⟨some item.description, none, some item.quantity, some item.unitPrice,
      some item.totalPrice, some item.specifications⟩))
  totalCost := some q.totalCost
  deliveryTimeline := some q.deliveryTimeline
  paymentTerms := some q.paymentTerms
  warranty := some q.warranty
  additionalInfo := some q.additionalInfo

/-! ## Proposals and the HTTP routes (`models/Proposal.js`, `routes/*.js`)

The database calls of the routes are taken to resolve; the AI calls may throw.
A route returns the database it leaves and the status code of its response. -/

/-- The `status` enum of `proposalSchema`. -/
inductive ProposalStatus where
  | sent
  | received
  | parsed
  | evaluated
  deriving DecidableEq, Repr

/-- An element of `parsedData.items` of a Proposal. -/
structure ProposalItem where
  description : Option Str
  name : Option Str
  quantity : ℚ
  unitPrice : ℚ
  totalPrice : ℚ
  specifications : Option Str
  deriving DecidableEq

/-- The `parsedData` of a Proposal. -/
structure ProposalParsedData where
  items : List ProposalItem
  totalAmount : Option ℚ
  deliveryTime : Option Str
  paymentTerms : Option Str
  warranty : Option Str
  additionalNotes : Option Str
  deriving DecidableEq

/-- The `aiEvaluation` of a Proposal. -/
structure AIEvaluation where
  score : ℚ
  strengths : List Str
  weaknesses : List Str
  recommendation : Str
  deriving DecidableEq

/-- A Proposal document; `parsedData` and `aiEvaluation` are `none` while
nothing has been set under them. -/
structure Proposal where
  _id : ObjectId
  rfpId : ObjectId
  vendorId : ObjectId
  status : ProposalStatus
  emailContent : Option Str
  parsedData : Option ProposalParsedData
  aiEvaluation : Option AIEvaluation
  receivedAt : Option Nat
  parsedAt : Option Nat
  createdAt : Nat
  deriving DecidableEq

/-- The collections of the application: those of the ingestion pipeline and the
Proposals. -/
structure Database extends Store where
  proposals : List Proposal
  deriving DecidableEq

/-- The value `evaluateProposals` returns. -/
structure Evaluation where
  evaluations : List AIEvaluation
  overallRecommendation : Option Str
  deriving DecidableEq

/-- What a route awaits from outside: the clock, the ids of the documents it
creates, and the two AI calls, `none` when they throw. -/
structure RouteEnv where
  now : Nat
  newObjectId : Nat → ObjectId
  parseVendorResponse : Str → Option ParsedQuote
  evaluateProposals : List Proposal → Option Evaluation

/-- The query `Proposal.findOne` by `rfpId` and `vendorId`. -/
def findProposal (db : Database) (rfpId vendorId : ObjectId) : Option Proposal :=
  db.proposals.find? (fun p => p.rfpId = rfpId && p.vendorId = vendorId)

/-- The `save` of a loaded Proposal: the stored document with its `_id` takes the
values of the loaded one. -/
def saveProposal (proposals : List Proposal) (proposal : Proposal) : List Proposal :=
  proposals.map (fun q => if q._id = proposal._id then proposal else q)

/-- The `save` of a loaded RFP whose `status` was assigned, with the
`pre('save')` hook. -/
def saveStatus (now : Nat) (rfps : List RFP) (id : ObjectId) (status : RFPStatus) : List RFP :=
  rfps.map (fun rfp => if rfp._id = id then { rfp with status := status, updatedAt := now }
    else rfp)

/-- A string as an operand of `||`: the empty string is falsy. -/
def truthy (s : Str) : Option Str :=
  match s with
  | [] => none
  | c :: cs => some (c :: cs)

/-! ### `POST /api/conversations/:conversationId/accept` (lines 30-102) -/

/-- Lines 51-58 of `conversation.routes.js`: the parsed data handed to the
Proposal; a Conversation item has no `name`. -/
def acceptParsedData (parsedData : ConversationParsedData) : ProposalParsedData where
  items := parsedData.items.map (fun item =>
    { description := truthy item.description
      name := truthy item.description
      quantity := item.quantity
      unitPrice := item.unitPrice
      totalPrice := item.totalPrice
      specifications := none })
  totalAmount := some parsedData.totalAmount
  deliveryTime := some parsedData.deliveryTime
  paymentTerms := some parsedData.paymentTerms
  warranty := some parsedData.warranty
  additionalNotes := some parsedData.additionalNotes

/-- An assignment to a property of a loaded Proposal.  The last two name
properties that are not paths of `proposalSchema`. -/
inductive ProposalAssignment where
  | status (v : ProposalStatus)
  | emailContent (v : Str)
  | parsedData (v : ProposalParsedData)
  | receivedAt (v : Nat)
  | parsedAt (v : Option Nat)
  | evaluation
  | aiScore
  deriving DecidableEq

/-- The effect of an assignment on what `save` writes: a property outside the
schema is set on the JavaScript object only and no path changes. -/
def assignProposal (proposal : Proposal) : ProposalAssignment → Proposal
  | ProposalAssignment.status v => { proposal with status := v }
  | ProposalAssignment.emailContent v => { proposal with emailContent := some v }
  | ProposalAssignment.parsedData v => { proposal with parsedData := some v }
  | ProposalAssignment.receivedAt v => { proposal with receivedAt := some v }
  | ProposalAssignment.parsedAt v => { proposal with parsedAt := v }
  | ProposalAssignment.evaluation => proposal
  | ProposalAssignment.aiScore => proposal

/-- Lines 63-70: the assignments to an existing Proposal, in order. -/
def acceptAssignments (conversation : Conversation) : List ProposalAssignment :=
  [ProposalAssignment.status ProposalStatus.parsed,
   ProposalAssignment.emailContent conversation.emailContent,
   ProposalAssignment.parsedData (acceptParsedData conversation.parsedData),
   ProposalAssignment.receivedAt conversation.receivedAt,
   ProposalAssignment.parsedAt conversation.parsedAt,
   ProposalAssignment.evaluation,
   ProposalAssignment.aiScore]

/-- Lines 74-82: the Proposal created when the pair has none. -/
def newProposal (env : RouteEnv) (conversation : Conversation) : Proposal where
  _id := env.newObjectId 0
  rfpId := conversation.rfpId
  vendorId := conversation.vendorId
  status := ProposalStatus.parsed
  emailContent := some conversation.emailContent
  parsedData := some (acceptParsedData conversation.parsedData)
  aiEvaluation := none
  receivedAt := some conversation.receivedAt
  parsedAt := conversation.parsedAt
  createdAt := env.now

/-- Lines 45-85: the Proposal collection after `proposal.save()`. -/
def acceptProposals (env : RouteEnv) (db : Database) (conversation : Conversation) :
    List Proposal :=
  match findProposal db conversation.rfpId conversation.vendorId with
  | some proposal =>
    saveProposal db.proposals ((acceptAssignments conversation).foldl assignProposal proposal)
  | none => db.proposals ++ [newProposal env conversation]

/-- The route `POST /:conversationId/accept`. -/
def acceptConversation (env : RouteEnv) (db : Database) (conversationId : ObjectId) :
    Database × Nat :=
  match db.conversations.find? (fun c => c._id = conversationId) with
  | none => (db, 404)
  | some conversation =>
    if conversation.status = ConversationStatus.accepted then (db, 400)
    else
      ({ db with
          proposals := acceptProposals env db conversation
          conversations := db.conversations.map (fun c =>
            if c._id = conversation._id then
              { c with status := ConversationStatus.accepted, reviewedAt := some env.now }
            else c) }, 200)

/-! ### `POST /api/proposals/evaluate/:rfpId` (lines 152-218) -/

/-- The filter `status: { $in: ['parsed', 'evaluated'] }`. -/
def isResponded (status : ProposalStatus) : Bool :=
  status = ProposalStatus.parsed || status = ProposalStatus.evaluated

/-- The Proposals of an RFP with status parsed or evaluated (lines 165-168 and
195-198). -/
def respondedProposals (proposals : List Proposal) (rfpId : ObjectId) : List Proposal :=
  proposals.filter (fun p => p.rfpId = rfpId && isResponded p.status)

/-- The validation of `aiEvaluation.score` (`min: 0`, `max: 100`). -/
def validScore (e : AIEvaluation) : Bool := decide (0 ≤ e.score) && decide (e.score ≤ 100)

/-- Lines 178-191: the Proposal collection after the saves; the proposal at
`index` takes `evaluation.evaluations[index]`; the callback throws at the first
proposal without one, and a save with an invalid score writes nothing. -/
def applyEvaluations : List Proposal → List Proposal → List AIEvaluation → List Proposal
  | stored, proposal :: proposals, evalData :: evaluations =>
    applyEvaluations
      (if validScore evalData then
        saveProposal stored
          { proposal with aiEvaluation := some evalData, status := ProposalStatus.evaluated }
      else stored)
      proposals evaluations
  | stored, _, _ => stored

/-- The route `POST /evaluate/:rfpId`.  The RFP model has no
`overallRecommendation`, which the same save writes. -/
def evaluateRFP (env : RouteEnv) (db : Database) (rfpId : ObjectId) : Database × Nat :=
  match findById db.toStore rfpId with
  | none => (db, 404)
  | some rfp =>
    let proposals := respondedProposals db.proposals rfpId
    if proposals.isEmpty then (db, 400)
    else
      match env.evaluateProposals proposals with
      | none => (db, 500)
      | some evaluation =>
        let stored := applyEvaluations db.proposals proposals evaluation.evaluations
        if evaluation.evaluations.length < proposals.length ||
            !(evaluation.evaluations.take proposals.length).all validScore then
          ({ db with proposals := stored }, 500)
        else
          let totalVendors := rfp.sentTo.length
          let parsedProposals := (respondedProposals stored rfpId).length
          let status :=
            if parsedProposals ≥ totalVendors then RFPStatus.evaluated else rfp.status
          ({ db with
              proposals := stored
              rfps := saveStatus env.now db.rfps rfp._id status }, 200)

/-! ### `POST /api/rfps/:id/send` (lines 118-176 of `rfp.routes.js`) -/

/-- Lines 152-159: the placeholder Proposal of a vendor. -/
def placeholderProposal (env : RouteEnv) (rfp : RFP) (k : Nat) (vendor : Vendor) : Proposal where
  _id := env.newObjectId k
  rfpId := rfp._id
  vendorId := vendor._id
  status := ProposalStatus.sent
  emailContent := none
  parsedData := none
  aiEvaluation := none
  receivedAt := none
  parsedAt := none
  createdAt := env.now

/-- The route `POST /:id/send`; `vendorIds` is the array of the request body.
The unique index rejects the placeholder of a pair that has a Proposal, and the
response is then 500, after the RFP has been saved. -/
def sendRFP (env : RouteEnv) (db : Database) (id : ObjectId)
    (vendorIds : Option (List ObjectId)) : Database × Nat :=
  match vendorIds with
  | none => (db, 400)
  | some [] => (db, 400)
  | some (v :: vs) =>
    match findById db.toStore id with
    | none => (db, 404)
    | some rfp =>
      let vendors := db.vendors.filter (fun x => (v :: vs).contains x._id)
      if vendors.isEmpty then (db, 404)
      else
        let rfps := db.rfps.map (fun r =>
          if r._id = rfp._id then
            { r with status := RFPStatus.sent, sentTo := v :: vs, updatedAt := env.now }
          else r)
        let fresh := vendors.filter (fun x => (findProposal db rfp._id x._id).isNone)
        let created := fresh.enum.map (fun kx => placeholderProposal env rfp kx.1 kx.2)
        ({ db with rfps := rfps, proposals := db.proposals ++ created },
          if fresh.length = vendors.length then 200 else 500)

/-! ### `POST /api/proposals/webhook/inbound` and `/simulate-response` -/

/-- The fields of the request body that `parseInboundEmail` reads. -/
structure InboundEmail where
  sender : Str
  subject : Option Str
  text : Option Str
  html : Option Str
  deriving DecidableEq

/-- The value of `proposal.parsedData = parsedData` for a value
`parseVendorResponse` returned: the paths of `proposalSchema` it has
(`totalCost`, `deliveryTimeline` and `additionalInfo` are not among them). -/
def proposalParsedData (parsedData : ParsedQuote) : ProposalParsedData where
  items := parsedData.items.map (fun item =>
    { description := some item.description
      name := none
      quantity := item.quantity
      unitPrice := item.unitPrice
      totalPrice := item.totalPrice
      specifications := some item.specifications })
  totalAmount := none
  deliveryTime := none
  paymentTerms := some parsedData.paymentTerms
  warranty := some parsedData.warranty
  additionalNotes := none

/-- Lines 68-80 and 121-133 of `proposal.routes.js`: the Proposal is updated and
saved, and the RFP advances from sent to responses_received. -/
def recordResponse (env : RouteEnv) (db : Database) (proposal : Proposal) (rfp : RFP)
    (content : Str) (parsedData : ParsedQuote) : Database :=
  { db with
    proposals := saveProposal db.proposals
      { proposal with
        emailContent := some content
        parsedData := some (proposalParsedData parsedData)
        status := ProposalStatus.parsed
        receivedAt := some env.now
        parsedAt := some env.now }
    rfps :=
      if rfp.status = RFPStatus.sent then
        saveStatus env.now db.rfps rfp._id RFPStatus.responses_received
      else db.rfps }

/-- Lines 50-53: the most recent Proposal of the vendor with status sent. -/
def pendingProposal (db : Database) (vendorId : ObjectId) : Option Proposal :=
  ((db.proposals.filter (fun p => p.vendorId = vendorId && p.status = ProposalStatus.sent)
    ).insertionSort (fun a b => b.createdAt ≤ a.createdAt)).head?

/-- The route `POST /webhook/inbound`. -/
def inboundWebhook (env : RouteEnv) (db : Database) (body : InboundEmail) : Database × Nat :=
  let content := orStr body.text (orStr body.html [])
  match findVendorByEmail db.toStore body.sender with
  | none => (db, 200)
  | some vendor =>
    match pendingProposal db vendor._id with
    | none => (db, 200)
    | some proposal =>
      match findById db.toStore proposal.rfpId with
      | none => (db, 500)
      | some rfp =>
        match env.parseVendorResponse content with
        | none => (db, 500)
        | some parsedData => (recordResponse env db proposal rfp content parsedData, 200)

/-- The route `POST /simulate-response`. -/
def simulateResponse (env : RouteEnv) (db : Database) (proposalId : Option ObjectId)
    (emailContent : Option Str) : Database × Nat :=
  match proposalId, emailContent with
  | some proposalId, some (c :: cs) =>
    match db.proposals.find? (fun p => p._id = proposalId) with
    | none => (db, 404)
    | some proposal =>
      match findById db.toStore proposal.rfpId with
      | none => (db, 500)
      | some rfp =>
        match env.parseVendorResponse (c :: cs) with
        | none => (db, 500)
        | some parsedData => (recordResponse env db proposal rfp (c :: cs) parsedData, 200)
  | _, _ => (db, 400)

/-- The application of `processEmail` to the database. -/
def ingestEmail (env : Env) (db : Database) (emailData : EmailData) : Database × Bool :=
  ({ db with toStore := (processEmail env db.toStore emailData).1 },
    (processEmail env db.toStore emailData).2)

/-! ## The scheduled polling run (lines 577-610) -/

/-- An error `fetchUnreadEmails` rejects with; `code` and `message` may be absent. -/
structure PollError where
  code : Option Str
  message : Option Str
  deriving DecidableEq

/-- How one call of `fetchUnreadEmails` ends. -/
inductive PollOutcome where
  | resolved (count : Nat)
  | rejected (error : PollError)
  deriving DecidableEq

/-- What a scheduled run does that can be observed: the calls of
`fetchUnreadEmails`, the waits, and the lines it logs. -/
inductive RunEvent where
  | logRetry (attempt : Nat)
  | fetch (attempt : Nat)
  | logNetworkIssue (attempt : Nat)
  | wait (ms : Nat)
  | logAllFailed
  | logError
  deriving DecidableEq, Repr

/-- Lines 593-596. -/
def isNetworkError (error : PollError) : Bool :=
  error.code = some "ENOTFOUND".toList || error.code = some "ETIMEDOUT".toList ||
  error.code = some "ECONNREFUSED".toList ||
  (match error.message with
    | some message => includes message "timeout".toList
    | none => false)

/-- Lines 585-609: the `for` loop from `attempt` on, with `remaining` iterations
left; `fetchUnreadEmails attempt` is how the call of that attempt ends. -/
def retryLoop (fetchUnreadEmails : Nat → PollOutcome) (retries : Nat) :
    Nat → Nat → Nat → List RunEvent
  | 0, _, _ => []
  | remaining + 1, attempt, delay =>
    (if attempt > 1 then [RunEvent.logRetry attempt] else []) ++
    RunEvent.fetch attempt ::
      match fetchUnreadEmails attempt with
      | PollOutcome.resolved _ => []
      | PollOutcome.rejected error =>
        if isNetworkError error && attempt < retries then
          RunEvent.logNetworkIssue attempt :: RunEvent.wait delay ::
            retryLoop fetchUnreadEmails retries remaining (attempt + 1) (delay * 2)
        else if isNetworkError error && attempt = retries then
          RunEvent.logAllFailed ::
            retryLoop fetchUnreadEmails retries remaining (attempt + 1) delay
        else
          RunEvent.logError ::
            retryLoop fetchUnreadEmails retries remaining (attempt + 1) delay

/-- Lines 578-610: one scheduled run, `retries = 3` and `delay = 5000`. -/
def scheduledRun (fetchUnreadEmails : Nat → PollOutcome) : List RunEvent :=
  retryLoop fetchUnreadEmails 3 3 1 5000

/-- The number of calls of `fetchUnreadEmails` in a run. -/
def fetchCalls (events : List RunEvent) : Nat :=
  (events.filter (fun e => match e with
    | RunEvent.fetch _ => true
    | _ => false)).length

/-! ## Sets the specification names -/

/-- The lower-cased emails of the recipients of all RFPs of the store, whatever
their status. -/
def allRecipientEmails (s : Store) : List Str :=
  (s.rfps.map (sentToEmails s)).flatten

/-- The quotient a `Ratio` stands for. -/
def Ratio.toRat (a : Ratio) : ℚ := (a.num : ℚ) / (a.den : ℚ)

/-- The ratio of an RFP for a subject: its score divided by the number of its
significant words. -/
def matchRatio (subjectLower : Str) (rfp : RFP) : ℚ :=
  (matchScore subjectLower rfp : ℚ) / ((titleWords rfp).length : ℚ)

/-- The RFPs eligible for tiers 2 and 3, in iteration order: status sent,
responses_received or evaluated, and the sender among the recipients. -/
def eligibleRFPs (s : Store) (vendorEmailLower : Str) : List RFP :=
  (findOpenRFPs s).filter (fun rfp => (sentToEmails s rfp).contains vendorEmailLower)

/-- The Conversations of a (RFP, vendor) pair. -/
def conversationsFor (s : Store) (rfpId vendorId : ObjectId) : List Conversation :=
  s.conversations.filter (fun c => c.rfpId = rfpId && c.vendorId = vendorId)

/-- A change `f` of the RFP documents of `s` that the matcher cannot observe: it
keeps `_id`, `title`, `sentTo` and `createdAt`, and keeps every RFP of `s` on the
same side of the status filter. -/
def MatchInvariant (s : Store) (f : RFP → RFP) : Prop :=
  (∀ r, (f r)._id = r._id ∧ (f r).title = r.title ∧ (f r).sentTo = r.sentTo ∧
    (f r).createdAt = r.createdAt) ∧
  ∀ r ∈ s.rfps, statusInFilter (f r).status = statusInFilter r.status

/-- What the RFP status save of a run that matched `matchedRFP` makes of the RFP
document `rfp`: the save happens when `matchedRFP` had status sent, and touches
the document with its `_id`. -/
def savedRFP (env : Env) (matchedRFP rfp : RFP) : RFP :=
  if matchedRFP.status = RFPStatus.sent ∧ rfp._id = matchedRFP._id then
    { rfp with status := RFPStatus.responses_received, updatedAt := env.now }
  else rfp

/-- The Proposals of a (RFP, vendor) pair. -/
def proposalsFor (proposals : List Proposal) (rfpId vendorId : ObjectId) : List Proposal :=
  proposals.filter (fun p => p.rfpId = rfpId && p.vendorId = vendorId)

/-- The order `draft < sent < responses_received < evaluated` of the states; the
legacy `completed` stands with `evaluated`, whose alias it is. -/
def statusRank : RFPStatus → Nat
  | RFPStatus.draft => 0
  | RFPStatus.sent => 1
  | RFPStatus.responses_received => 2
  | RFPStatus.evaluated => 3
  | RFPStatus.completed => 3

/-- No RFP has moved to an earlier state: the two collections hold the same
documents, in order, by `_id`, and no status has a smaller rank than before. -/
def statusForward (before after : List RFP) : Bool :=
  before.length = after.length &&
  (before.zip after).all (fun ab =>
    ab.1._id = ab.2._id && statusRank ab.1.status ≤ statusRank ab.2.status)

/-! ## `fetchUnreadEmails` (lines 426-549) -/

/-- Lines 428-432: what `fetchUnreadEmails` throws when `dnsLookup` rejects with
`dnsError`: a new `Error`, which carries a message and no `code`. -/
def dnsLookupFailed (dnsError : PollError) : PollError where
  code := none
  message := some ("DNS lookup failed for imap.gmail.com: ".toList ++
    dnsError.message.getD "undefined".toList)

/-- Lines 426-434: the lookup of the mail host, then the IMAP session.
`dnsLookup` is `none` when the lookup resolves and the error it rejects with
otherwise; `session` is how the promise of lines 434-548 settles. -/
def fetchUnreadEmails (dnsLookup : Option PollError) (session : PollOutcome) : PollOutcome :=
  match dnsLookup with
  | some dnsError => PollOutcome.rejected (dnsLookupFailed dnsError)
  | none => session

/-- The method `Array.prototype.slice` with one argument; a negative `start`
counts from the end. -/
def slice {α : Type} (xs : List α) (start : Int) : List α :=
  let len : Int := xs.length
  let k : Int := if start < 0 then max (len + start) 0 else min start len
  xs.drop k.toNat

/-- Lines 463-479: the ids handed to `imap.fetch` with `markSeen: true`, for the
`results` of the search for unseen messages; `none` is a missing result. -/
def emailsToProcess (results : Option (List Nat)) : List Nat :=
  match results with
  | none => []
  | some [] => []
  | some (r :: rs) => slice (r :: rs) (-10)

/-! ## The branches of `processAttachments` (lines 151-207) -/

/-- The four extraction functions. -/
inductive Extractor where
  | pdf
  | word
  | excel
  | image
  deriving DecidableEq, Repr

/-- Lines 167-200: the branch taken for a content type and a lower-cased
filename; `none` is the `else` of an unsupported type. -/
def selectExtractor (contentType filenameLower : Str) : Option Extractor :=
  if includes contentType "pdf".toList || endsWith filenameLower ".pdf".toList then
    some Extractor.pdf
  else if includes contentType "wordprocessingml".toList ||
      includes contentType "msword".toList ||
      endsWith filenameLower ".docx".toList ||
      endsWith filenameLower ".doc".toList then
    some Extractor.word
  else if includes contentType "spreadsheetml".toList ||
      includes contentType "ms-excel".toList ||
      endsWith filenameLower ".xlsx".toList ||
      endsWith filenameLower ".xls".toList then
    some Extractor.excel
  else if includes contentType "image/".toList ||
      endsWith filenameLower ".jpg".toList ||
      endsWith filenameLower ".jpeg".toList ||
      endsWith filenameLower ".png".toList ||
      endsWith filenameLower ".gif".toList ||
      endsWith filenameLower ".bmp".toList then
    some Extractor.image
  else none

/-- The extraction function of a branch. -/
def runExtractor (env : Env) : Extractor → List Nat → Option Str
  | Extractor.pdf => env.extractTextFromPDF
  | Extractor.word => env.extractTextFromWord
  | Extractor.excel => env.extractTextFromExcel
  | Extractor.image => env.extractTextFromImage

/-- The branch `processAttachments` takes for an attachment. -/
def attachmentExtractor (attachment : Attachment) : Option Extractor :=
  selectExtractor (orStr attachment.contentType [])
    (toLowerCase (orStr attachment.filename "unknown".toList))

/-- Lines 152-200: the `extractedContent` of an attachment when line 202 is
reached, `none` when the attachment was skipped or the extraction gave `null`. -/
def extractedContent (env : Env) (attachment : Attachment) : Option Str :=
  match attachment.content with
  | none => none
  | some [] => none
  | some (b :: bs) =>
    match attachmentExtractor attachment with
    | some extractor => runExtractor env extractor (b :: bs)
    | none => none

/-- Lines 202-204: the block appended for an attachment and its extracted text. -/
def contentBlock (attachment : Attachment) (extractedContent : Str) : Str :=
  "\n\n=== Content from ".toList ++ orStr attachment.filename "unknown".toList ++
    " ===\n".toList ++ extractedContent ++ "\n".toList

/-! ## The subject of an RFP mail (`email.service.js`, line 103) -/

/-- The subject `sendRFPToVendor` gives the mail; `id` is the text of `rfp._id`. -/
def rfpSubject (title id : Str) : Str :=
  "RFP: ".toList ++ title ++ " [ID: ".toList ++ id ++ "]".toList

/-- The subject of a reply, as a mail client writes it. -/
def replySubject (subject : Str) : Str := "Re: ".toList ++ subject

/-! ## The manual trigger and the scheduler (lines 554-637) -/

/-- The object `checkEmailsNow` resolves with. -/
structure CheckResult where
  success : Bool
  count : Option Nat
  error : Option Str
  deriving DecidableEq

/-- Lines 628-637: the calls and log lines of `checkEmailsNow`, and its result. -/
def checkEmailsNow (fetchUnreadEmails : Nat → PollOutcome) : List RunEvent × CheckResult :=
  match fetchUnreadEmails 1 with
  | PollOutcome.resolved count => ([RunEvent.fetch 1], ⟨true, some count, none⟩)
  | PollOutcome.rejected error =>
    ([RunEvent.fetch 1, RunEvent.logError], ⟨false, none, error.message⟩)

/-- The two module variables of lines 24-25 and the interval timers of the
runtime that are active; `nextTimer` is the timer `setInterval` returns next. -/
structure Monitor where
  emailMonitorInterval : Option Nat
  isMonitoring : Bool
  timers : List Nat
  nextTimer : Nat
  deriving DecidableEq

/-- The module when it is loaded. -/
def Monitor.initial : Monitor := ⟨none, false, [], 0⟩

/-- Lines 554-611; `credentials` tells whether `EMAIL_USER` and `EMAIL_PASSWORD`
are both set. -/
def startEmailMonitoring (credentials : Bool) (m : Monitor) : Monitor :=
  if m.isMonitoring then m
  else if !credentials then m
  else
    { emailMonitorInterval := some m.nextTimer
      isMonitoring := true
      timers := m.nextTimer :: m.timers
      nextTimer := m.nextTimer + 1 }

/-- Lines 616-623. -/
def stopEmailMonitoring (m : Monitor) : Monitor :=
  match m.emailMonitorInterval with
  | some timer =>
    { m with
      timers := m.timers.filter (fun t => t ≠ timer)
      emailMonitorInterval := none
      isMonitoring := false }
  | none => m

/-- A call of one of the three exported functions. -/
inductive MonitorCall where
  | start (credentials : Bool)
  | stop
  | checkNow
  deriving DecidableEq, Repr

/-- The module after a call; `checkEmailsNow` and the `fetchUnreadEmails` it
calls assign neither variable and touch no timer. -/
def MonitorCall.apply (m : Monitor) : MonitorCall → Monitor
  | MonitorCall.start credentials => startEmailMonitoring credentials m
  | MonitorCall.stop => stopEmailMonitoring m
  | MonitorCall.checkNow => m

/-- The module after a sequence of calls. -/
def runCalls (m : Monitor) (calls : List MonitorCall) : Monitor :=
  calls.foldl MonitorCall.apply m

/-! ## `POST /api/conversations/:conversationId/reject` (lines 108-134) -/

/-- The route `POST /:conversationId/reject`; `reason` is `req.body.reason`. -/
def rejectConversation (env : RouteEnv) (db : Database) (conversationId : ObjectId)
    (reason : Option Str) : Database × Nat :=
  match db.conversations.find? (fun c => c._id = conversationId) with
  | none => (db, 404)
  | some conversation =>
    ({ db with
        conversations := db.conversations.map (fun c =>
          if c._id = conversation._id then
            { c with
              status := ConversationStatus.rejected
              rejectionReason := some (orStr reason "Not a valid proposal".toList)
              reviewedAt := some env.now }
          else c) }, 200)

/-! ## Vocabulary of the statements about attachments -/

/-- An attachment that adds text: it has a content buffer and a supported type,
and its extraction gives a non-empty text. -/
def contributes (env : Env) (attachment : Attachment) : Bool :=
  match extractedContent env attachment with
  | some (_ :: _) => true
  | _ => false

/-- A text as `processAttachments` returns it: `null` for the empty one. -/
def nonEmptyText (text : Str) : Option Str :=
  match text with
  | [] => none
  | c :: cs => some (c :: cs)

/-! ## Example data -/

/-- A vendor. -/
def exVendor : Vendor := ⟨1, "Acme".toList, "v@x.com".toList⟩

/-- RFP A of the spec's scenario. -/
def exRfpA : RFP :=
  ⟨10, "Office Furniture Bulk Order".toList, RFPStatus.sent, [1], 100, 100⟩

/-- RFP B of the spec's scenario, created after A. -/
def exRfpB : RFP := ⟨11, "IT Equipment".toList, RFPStatus.sent, [1], 200, 200⟩

/-- A store with the vendor, both RFPs sent to it, and no Conversation yet. -/
def exStore : Store := ⟨[exRfpA, exRfpB], [exVendor], []⟩

/-- A quote as the AI step returns it. -/
def exQuote : ParsedQuote :=
  ⟨[], 29250, "21 days".toList, "Net 45".toList, "1 year".toList, []⟩

/-- An environment in which no attachment yields text, the AI step returns
`exQuote`, and database call `c` rejects when `rejects c`. -/
def exEnvWith (rejects : DbCall → Bool) : Env :=
  ⟨fun _ => none, fun _ => none, fun _ => none, fun _ => none, fun _ => some exQuote,
    5, 100, rejects⟩

/-- The environment in which no database call rejects. -/
def exEnv : Env := exEnvWith (fun _ => false)

/-- A message from the vendor with the given subject. -/
def exMail (subject : String) : EmailData :=
  ⟨some subject.toList, some "Acme <v@x.com>".toList, some "Total: 29250".toList, none,
    some 3, none⟩

/-- A store whose only RFP carries the legacy status completed. -/
def exLegacyStore : Store :=
  ⟨[⟨12, "IT Equipment".toList, RFPStatus.completed, [1], 50, 50⟩], [exVendor], []⟩

/-- A Conversation of the pair (B, vendor) that a reviewer rejected. -/
def exConversation : Conversation :=
  { _id := 50, rfpId := 11, vendorId := 1
    emailSubject := "Re: RFP: IT Equipment".toList
    emailContent := "Total: 31000".toList
    parsedData := ⟨[], 31000, "30 days".toList, "Net 30".toList, "1 year".toList, []⟩
    status := ConversationStatus.rejected
    receivedAt := 1, parsedAt := some 2, reviewedAt := some 4, reviewedBy := none
    rejectionReason := some "Too expensive".toList }

/-- The store after that first reply: B has received a response. -/
def exStoreReplied : Store :=
  ⟨[exRfpA, { exRfpB with status := RFPStatus.responses_received }], [exVendor],
    [exConversation]⟩

/-- What `processEmail` has established for the revised reply on `exStoreReplied`. -/
def exPlan : Plan :=
  { matchedRFP := { exRfpB with status := RFPStatus.responses_received }
    vendor := exVendor
    existingConversation := some exConversation
    data := conversationData exEnv "Re: RFP: IT Equipment".toList "Total: 29250".toList
      (some 3) exQuote }

/-- A mailbox that refuses the credentials at every attempt. -/
def exAuthFailure (_attempt : Nat) : PollOutcome :=
  PollOutcome.rejected ⟨some "AUTHENTICATIONFAILED".toList, some "Invalid credentials".toList⟩

/-- The Proposal of the pair (B, vendor), evaluated after the first reply. -/
def exProposal : Proposal :=
  { _id := 70, rfpId := 11, vendorId := 1
    status := ProposalStatus.evaluated
    emailContent := some "Total: 31000".toList
    parsedData := none
    aiEvaluation := some ⟨85, ["Low price".toList], ["Slow delivery".toList], "Accept".toList⟩
    receivedAt := some 1, parsedAt := some 2, createdAt := 0 }

/-- The database with the rejected Conversation of the revised reply and the
evaluated Proposal of the same pair. -/
def exDatabase : Database := { toStore := exStoreReplied, proposals := [exProposal] }

/-- A route environment: the AI calls return `exQuote` and one evaluation. -/
def exRouteEnv : RouteEnv :=
  ⟨9, fun k => 200 + k, fun _ => some exQuote,
    fun _ => some ⟨[⟨90, [], [], "Accept".toList⟩], none⟩⟩

/-- A second vendor, to whom no RFP has been sent. -/
def exVendor2 : Vendor := ⟨2, "Bolt".toList, "w@y.com".toList⟩

/-- The database `exDatabase` with the second vendor. -/
def exDatabase2 : Database :=
  { toStore := { exStoreReplied with vendors := [exVendor, exVendor2] }
    proposals := [exProposal] }

/-- The error `dns.lookup` rejects with when the mail host does not resolve. -/
def exDnsError : PollError :=
  ⟨some "ENOTFOUND".toList, some "getaddrinfo ENOTFOUND imap.gmail.com".toList⟩

/-- A mailbox whose connection times out at every attempt. -/
def exNetworkDown (_attempt : Nat) : PollOutcome :=
  PollOutcome.rejected ⟨some "ETIMEDOUT".toList, some "connect ETIMEDOUT".toList⟩

/-- An environment in which the PDF extraction fails and the Word extraction
gives a quote. -/
def exExtractEnv : Env :=
  { exEnv with
    extractTextFromPDF := fun _ => none
    extractTextFromWord := fun _ => some "Total: 100".toList }

/-- A PDF attachment whose buffer the extraction cannot read. -/
def exCorruptPdf : Attachment :=
  ⟨some "specs.pdf".toList, some "application/pdf".toList, some [37, 80]⟩

/-- A Word attachment. -/
def exWordQuote : Attachment :=
  ⟨some "quote.docx".toList, some "application/msword".toList, some [80, 75]⟩

/-- A title that quotes the ID tag of another RFP. -/
def exTaggedTitle : Str := "Laptops [ID: aaaaaaaaaaaaaaaaaaaaaaaa]".toList

/-- The database before the reviewer rejected the Conversation of `exDatabase`. -/
def exPendingDatabase : Database :=
  { exDatabase with
    conversations :=
      [{ exConversation with
          status := ConversationStatus.pending_review
          reviewedAt := none
          rejectionReason := none }] }

/-- An older Conversation of the pair (B, vendor), rejected as well. -/
def exConversationOld : Conversation :=
  { exConversation with
    _id := 51
    emailContent := "Total: 33000".toList
    receivedAt := 0
    rejectionReason := some "Over budget".toList }

/-- The store `exStoreReplied` with both Conversations of the pair. -/
def exStoreTwice : Store :=
  { exStoreReplied with conversations := [exConversation, exConversationOld] }

/-- A subject with the ID tag of RFP A before the ID tag of RFP B. -/
def exTwoTags : Str :=
  "Re: RFP: Laptops [ID: 00000000000000000000000a] [ID: 00000000000000000000000b]".toList

/-! # Theorems -/

/-! ## What a run that reaches the writes has established -/

theorem prepare_eq_ok_iff (env : Env) (s : Store) (m : EmailData) (p : Plan) :
    prepare env s m = Except.ok p ↔
      ∃ fromText subject parsedData,
        m.fromText = some fromText ∧ m.subject = some subject ∧
        env.dbRejects DbCall.allowListFind = false ∧
        toLowerCase (extractVendorEmail fromText) ∈ getVendorEmails s ∧
        isRfpReply m.subject = true ∧
        (buildEmailContent env m).isEmpty = false ∧
        matchingRejects env s subject (toLowerCase (extractVendorEmail fromText)) = false ∧
        matchRFP s subject (toLowerCase (extractVendorEmail fromText)) = some p.matchedRFP ∧
        env.dbRejects DbCall.vendorFindOne = false ∧
        findVendorByEmail s (extractVendorEmail fromText) = some p.vendor ∧
        env.dbRejects DbCall.conversationFindOne = false ∧
        env.parseVendorResponse (buildEmailContent env m) = some parsedData ∧
        p.existingConversation = findConversation s p.matchedRFP._id p.vendor._id ∧
        p.data = conversationData env subject (buildEmailContent env m) m.date parsedData := by
  constructor
  · intro h
    unfold prepare at h
    cases hf : m.fromText with
    | none => simp [hf] at h
    | some fromText =>
      cases hs : m.subject with
      | none =>
        by_cases h1 : env.dbRejects DbCall.allowListFind = true
        · simp [hf, h1] at h
        · by_cases h2 : toLowerCase (extractVendorEmail fromText) ∈ getVendorEmails s
          · simp [hf, hs, h1, h2, isRfpReply] at h
          · simp [hf, h1, h2] at h
      | some subject =>
        simp only [hf, hs, Option.getD_some] at h
        by_cases h1 : env.dbRejects DbCall.allowListFind = true
        · simp [h1] at h
        by_cases h2 : toLowerCase (extractVendorEmail fromText) ∈ getVendorEmails s
        swap
        · simp [h1, h2] at h
        by_cases h3 : isRfpReply (some subject) = true
        swap
        · simp [h1, h2, h3] at h
        by_cases h4 : (buildEmailContent env m).isEmpty = true
        · simp [h1, h2, h3, h4] at h
        by_cases h5 : matchingRejects env s subject (toLowerCase (extractVendorEmail fromText)) = true
        · simp [h1, h2, h3, h4, h5] at h
        cases hm : matchRFP s subject (toLowerCase (extractVendorEmail fromText)) with
        | none => simp [h1, h2, h3, h4, h5, hm] at h
        | some matchedRFP =>
          by_cases h6 : env.dbRejects DbCall.vendorFindOne = true
          · simp [h1, h2, h3, h4, h5, hm, h6] at h
          cases hv : findVendorByEmail s (extractVendorEmail fromText) with
          | none => simp [h1, h2, h3, h4, h5, hm, h6, hv] at h
          | some vendor =>
            by_cases h7 : env.dbRejects DbCall.conversationFindOne = true
            · simp [h1, h2, h3, h4, h5, hm, h6, hv, h7] at h
            cases hp : env.parseVendorResponse (buildEmailContent env m) with
            | none => simp [h1, h2, h3, h4, h5, hm, h6, hv, h7, hp] at h
            | some parsedData =>
              simp [h1, h2, h3, h4, h5, hm, h6, hv, h7, hp] at h
              subst h
              exact ⟨fromText, subject, parsedData, rfl, rfl, by simpa using h1, h2, h3,
                by simpa using h4, by simpa using h5, hm, by simpa using h6, hv,
                by simpa using h7, rfl, rfl, rfl⟩
  · rintro ⟨fromText, subject, parsedData, hf, hs, h1, h2, h3, h4, h5, hm, h6, hv, h7, hp, he, hd⟩
    unfold prepare
    rw [hs] at h3
    simp only [hf, hs, Option.getD_some, h1, h2, h3, h4, h5, hm, h6, hv, h7, hp]
    cases p
    simp_all

/-! ## Atomicity of one run (C9) -/

theorem processEmail_of_prepare_error (env : Env) (s : Store) (m : EmailData) (e : Skip)
    (h : prepare env s m = Except.error e) : processEmail env s m = (s, false) := by
  simp [processEmail, h]

theorem processEmail_of_prepare_ok (env : Env) (s : Store) (m : EmailData) (p : Plan)
    (h : prepare env s m = Except.ok p) : processEmail env s m = commit env s p := by
  simp [processEmail, h]

/-- C9, counterexample.  The store holds an RFP in status sent and no Conversation;
the save of the RFP status rejects.  The run returns false although it has
created a Conversation. -/
theorem c9_counterexample :
    (processEmail (exEnvWith (fun c => decide (c = DbCall.rfpSave))) exStore
        (exMail "Re: RFP: IT Equipment")).2 = false ∧
      exStore.conversations.length = 0 ∧
      (processEmail (exEnvWith (fun c => decide (c = DbCall.rfpSave))) exStore
        (exMail "Re: RFP: IT Equipment")).1.conversations.length = 1 := by
  decide

/-- C9, amended.  When `processEmail` returns false, no RFP and no Vendor has
changed, and no Conversation has been created or modified unless the exception
is the rejection of the RFP status save of line 410, which comes after the
Conversation save: then the Conversation written for the matched pair stays.
When that save does not reject, a run that returns false leaves the whole store
as it was. -/
theorem processEmail_false_atomic (env : Env) (s : Store) (m : EmailData)
    (h : (processEmail env s m).2 = false) :
    (processEmail env s m).1.rfps = s.rfps ∧
    (processEmail env s m).1.vendors = s.vendors ∧
    ((processEmail env s m).1.conversations = s.conversations ∨
      (env.dbRejects DbCall.rfpSave = true ∧ env.dbRejects DbCall.conversationSave = false ∧
        ∃ p, prepare env s m = Except.ok p ∧ p.matchedRFP.status = RFPStatus.sent ∧
          (processEmail env s m).1.conversations = saveConversation env s p)) ∧
    (env.dbRejects DbCall.rfpSave = false → (processEmail env s m).1 = s) := by
  cases hp : prepare env s m with
  | error e => simp [processEmail_of_prepare_error env s m e hp]
  | ok p =>
    rw [processEmail_of_prepare_ok env s m p hp] at h ⊢
    unfold commit at h ⊢
    by_cases h1 : env.dbRejects DbCall.conversationSave = true
    · simp [h1]
    · by_cases h2 : p.matchedRFP.status = RFPStatus.sent
      · by_cases h3 : env.dbRejects DbCall.rfpSave = true
        · simp [h1, h2, h3]
        · simp [h1, h2, h3] at h
      · simp [h1, h2] at h

/-- C9, witness: the run whose RFP status save rejects leaves the RFPs as they
were. -/
theorem processEmail_false_atomic_witness :
    (processEmail (exEnvWith (fun c => decide (c = DbCall.rfpSave))) exStore
      (exMail "Re: RFP: IT Equipment")).1.rfps = exStore.rfps :=
  (processEmail_false_atomic (exEnvWith (fun c => decide (c = DbCall.rfpSave))) exStore
    (exMail "Re: RFP: IT Equipment") (by decide)).1

/-! ## The allow-list (C8) -/

theorem mem_foldl_setAdd (l acc : List Str) (e : Str) :
    e ∈ l.foldl setAdd acc ↔ e ∈ acc ∨ e ∈ l := by
  induction l generalizing acc with
  | nil => simp
  | cons a l ih =>
    rw [List.foldl_cons, ih]
    unfold setAdd
    by_cases ha : acc.contains a = true
    · have : a ∈ acc := by simpa using ha
      simp only [ha, if_true, List.mem_cons]
      constructor
      · rintro (h | h)
        · exact Or.inl h
        · exact Or.inr (Or.inr h)
      · rintro (h | h | h)
        · exact Or.inl h
        · exact Or.inl (h ▸ this)
        · exact Or.inr h
    · simp only [ha, List.mem_append, List.mem_singleton, List.mem_cons]
      simp only [Bool.false_eq_true, if_false, List.mem_append, List.mem_singleton]
      tauto

theorem mem_foldl_sets (f : RFP → List Str) (rfps : List RFP) (acc : List Str) (e : Str) :
    e ∈ rfps.foldl (fun vendorEmails rfp => (f rfp).foldl setAdd vendorEmails) acc ↔
      e ∈ acc ∨ ∃ rfp ∈ rfps, e ∈ f rfp := by
  induction rfps generalizing acc with
  | nil => simp
  | cons r rfps ih =>
    rw [List.foldl_cons, ih, mem_foldl_setAdd]
    simp only [List.mem_cons, exists_eq_or_imp]
    tauto

theorem mem_getVendorEmails (s : Store) (e : Str) :
    e ∈ getVendorEmails s ↔
      ∃ rfp ∈ s.rfps, statusInFilter rfp.status = true ∧ e ∈ sentToEmails s rfp := by
  unfold getVendorEmails
  rw [mem_foldl_sets]
  simp [findOpenRFPs, and_assoc]

/-- C8, counterexample.  The only RFP of the store has the legacy status
completed; its recipient is among the recipients of all RFPs of the store, yet
is not on the allow-list, and the message is rejected as from an unknown vendor. -/
theorem c8_counterexample :
    "v@x.com".toList ∈ allRecipientEmails exLegacyStore ∧
      "v@x.com".toList ∉ getVendorEmails exLegacyStore ∧
      prepare exEnv exLegacyStore (exMail "Re: RFP: IT Equipment") =
        Except.error Skip.unknownVendor ∧
      processEmail exEnv exLegacyStore (exMail "Re: RFP: IT Equipment") =
        (exLegacyStore, false) :=
  ⟨by decide, by decide, by rfl, by decide⟩

/-- C8, amended.  The allow-list `getVendorEmails` computes is the set of the
lower-cased emails of the recipients of the RFPs whose status is sent,
responses_received or evaluated.  For a message with a `From` text, when the
database read of the allow-list does not reject, `processEmail` rejects the
message at the first filter if and only if the sender's lower-cased address is
not in that set, and it then returns false and writes nothing. -/
theorem allow_list_filter (env : Env) (s : Store) (m : EmailData) (fromText : Str)
    (hf : m.fromText = some fromText)
    (hdb : env.dbRejects DbCall.allowListFind = false) :
    (∀ e, e ∈ getVendorEmails s ↔
      ∃ rfp ∈ s.rfps, statusInFilter rfp.status = true ∧
        ∃ v ∈ populate s rfp, toLowerCase v.email = e) ∧
    (prepare env s m = Except.error Skip.unknownVendor ↔
      toLowerCase (extractVendorEmail fromText) ∉ getVendorEmails s) ∧
    (toLowerCase (extractVendorEmail fromText) ∉ getVendorEmails s →
      processEmail env s m = (s, false)) := by
  have key : toLowerCase (extractVendorEmail fromText) ∉ getVendorEmails s →
      prepare env s m = Except.error Skip.unknownVendor := by
    intro hn
    simp [prepare, hf, hdb, hn]
  refine ⟨?_, ⟨?_, key⟩, ?_⟩
  · intro e
    rw [mem_getVendorEmails]
    simp [sentToEmails]
  · intro h hin
    unfold prepare at h
    simp only [hf, hdb, Bool.false_eq_true, if_false] at h
    by_cases h3 : isRfpReply m.subject = true
    swap
    · simp [hin, h3] at h
    by_cases h4 : (buildEmailContent env m).isEmpty = true
    · simp [hin, h3, h4] at h
    by_cases h5 : matchingRejects env s (m.subject.getD [])
        (toLowerCase (extractVendorEmail fromText)) = true
    · simp [hin, h3, h4, h5] at h
    cases hm : matchRFP s (m.subject.getD []) (toLowerCase (extractVendorEmail fromText)) with
    | none => simp [hin, h3, h4, h5, hm] at h
    | some matchedRFP =>
      by_cases h6 : env.dbRejects DbCall.vendorFindOne = true
      · simp [hin, h3, h4, h5, hm, h6] at h
      cases hv : findVendorByEmail s (extractVendorEmail fromText) with
      | none => simp [hin, h3, h4, h5, hm, h6, hv] at h
      | some vendor =>
        by_cases h7 : env.dbRejects DbCall.conversationFindOne = true
        · simp [hin, h3, h4, h5, hm, h6, hv, h7] at h
        cases hp : env.parseVendorResponse (buildEmailContent env m) with
        | none => simp [hin, h3, h4, h5, hm, h6, hv, h7, hp] at h
        | some parsedData => simp [hin, h3, h4, h5, hm, h6, hv, h7, hp] at h
  · intro hn
    exact processEmail_of_prepare_error env s m _ (key hn)

/-- C8, witness: a sender no RFP was sent to. -/
theorem allow_list_filter_witness :
    processEmail exEnv exLegacyStore (exMail "Re: RFP: IT Equipment") =
      (exLegacyStore, false) :=
  (allow_list_filter exEnv exLegacyStore (exMail "Re: RFP: IT Equipment")
    "Acme <v@x.com>".toList rfl rfl).2.2 (by decide)

/-! ## The three tiers of RFP matching (C3, C4, C5, C6, C7) -/

theorem Ratio.lt_iff (a b : Ratio) (ha : 0 < a.den) (hb : 0 < b.den) :
    Ratio.lt a b = true ↔ a.toRat < b.toRat := by
  unfold Ratio.lt Ratio.toRat
  have ha' : (0 : ℚ) < (a.den : ℚ) := by exact_mod_cast ha
  have hb' : (0 : ℚ) < (b.den : ℚ) := by exact_mod_cast hb
  rw [div_lt_div_iff₀ ha' hb', decide_eq_true_iff]
  constructor
  · intro h
    exact_mod_cast h
  · intro h
    exact_mod_cast h

theorem matchScore_le (sl : Str) (rfp : RFP) : matchScore sl rfp ≤ (titleWords rfp).length := by
  unfold matchScore
  exact List.length_filter_le _ _

theorem matchPercentage_den_pos (sl : Str) (rfp : RFP) : 0 < (matchPercentage sl rfp).den := by
  unfold matchPercentage
  split
  · assumption
  · decide

theorem matchPercentage_toRat (sl : Str) (rfp : RFP) :
    (matchPercentage sl rfp).toRat = matchRatio sl rfp := by
  unfold matchPercentage matchRatio Ratio.toRat
  split
  · rfl
  · rename_i h
    have h0 : (titleWords rfp).length = 0 := by omega
    have h1 : matchScore sl rfp = 0 := by
      have := matchScore_le sl rfp
      omega
    simp [h0, h1]

theorem matchRatio_pos (sl : Str) (rfp : RFP) (h : 2 ≤ matchScore sl rfp) :
    0 < matchRatio sl rfp := by
  unfold matchRatio
  have h1 := matchScore_le sl rfp
  have h2 : (0 : ℚ) < (matchScore sl rfp : ℚ) := by
    have : 0 < matchScore sl rfp := by omega
    exact_mod_cast this
  have h3 : (0 : ℚ) < ((titleWords rfp).length : ℚ) := by
    have : 0 < (titleWords rfp).length := by omega
    exact_mod_cast this
  exact div_pos h2 h3

theorem foldl_subjectStep_filter (s : Store) (sl v : Str) (l : List RFP) (st : SubjectMatch) :
    l.foldl (subjectStep s sl v) st =
      (l.filter (fun rfp => (sentToEmails s rfp).contains v)).foldl (subjectStep s sl v) st := by
  induction l generalizing st with
  | nil => rfl
  | cons a l ih =>
    by_cases h : (sentToEmails s a).contains v = true
    · simp only [List.filter_cons, h, if_true, List.foldl_cons]
      exact ih _
    · simp only [List.filter_cons, h, Bool.false_eq_true, if_false, List.foldl_cons]
      rw [← ih]
      congr 1
      simp only [subjectStep, h, Bool.false_eq_true, if_false]

theorem matchBySubject_eq (s : Store) (subject v : Str) :
    matchBySubject s subject v =
      ((eligibleRFPs s v).foldl (subjectStep s (toLowerCase subject) v)
        ⟨none, 0, ⟨0, 1⟩⟩).matchedRFP := by
  unfold matchBySubject eligibleRFPs
  rw [foldl_subjectStep_filter]

theorem foldl_subjectStep_spec (s : Store) (sl v : Str) (el : List RFP)
    (hel : ∀ x ∈ el, (sentToEmails s x).contains v = true) :
    ((el.foldl (subjectStep s sl v) ⟨none, 0, ⟨0, 1⟩⟩).matchedRFP = none →
      (el.foldl (subjectStep s sl v) ⟨none, 0, ⟨0, 1⟩⟩).bestMatchPercentage = ⟨0, 1⟩ ∧
        ∀ x ∈ el, matchScore sl x < 2) ∧
    (∀ r, (el.foldl (subjectStep s sl v) ⟨none, 0, ⟨0, 1⟩⟩).matchedRFP = some r →
      (el.foldl (subjectStep s sl v) ⟨none, 0, ⟨0, 1⟩⟩).bestMatchPercentage =
          matchPercentage sl r ∧
        2 ≤ matchScore sl r ∧
        ∃ pre post, el = pre ++ r :: post ∧
          (∀ x ∈ pre, 2 ≤ matchScore sl x → matchRatio sl x < matchRatio sl r) ∧
          (∀ x ∈ post, 2 ≤ matchScore sl x → matchRatio sl x ≤ matchRatio sl r)) := by
  induction el using List.reverseRecOn with
  | nil => simp
  | append_singleton l a ih =>
    have hl : ∀ x ∈ l, (sentToEmails s x).contains v = true :=
      fun x hx => hel x (List.mem_append_left _ hx)
    have ha : (sentToEmails s a).contains v = true := hel a (by simp)
    obtain ⟨ihn, ihs⟩ := ih hl
    rw [List.foldl_append, List.foldl_cons, List.foldl_nil]
    generalize l.foldl (subjectStep s sl v) ⟨none, 0, ⟨0, 1⟩⟩ = st at ihn ihs
    have hlt : ∀ x, Ratio.lt (matchPercentage sl x) (matchPercentage sl a) = true ↔
        matchRatio sl x < matchRatio sl a := by
      intro x
      rw [Ratio.lt_iff _ _ (matchPercentage_den_pos sl x) (matchPercentage_den_pos sl a),
        matchPercentage_toRat, matchPercentage_toRat]
    by_cases hc : 2 ≤ matchScore sl a ∧
        Ratio.lt st.bestMatchPercentage (matchPercentage sl a) = true
    · -- the new element becomes the match
      have hstep : subjectStep s sl v st a =
          ⟨some a, matchScore sl a, matchPercentage sl a⟩ := by
        unfold subjectStep
        rw [if_pos ha]
        simp [hc.1, hc.2]
      rw [hstep]
      refine ⟨by simp, ?_⟩
      intro r hr
      simp only [Option.some.injEq] at hr
      subst hr
      refine ⟨rfl, hc.1, l, [], rfl, ?_, by simp⟩
      intro x hx hx2
      cases hm : st.matchedRFP with
      | none =>
        have := (ihn hm).2 x hx
        omega
      | some r =>
        obtain ⟨hb, _, pre, post, hl', hpre, hpost⟩ := ihs r hm
        have hra : matchRatio sl r < matchRatio sl a := by
          rw [← hlt, ← hb]
          exact hc.2
        rw [hl'] at hx
        simp only [List.mem_append, List.mem_cons] at hx
        rcases hx with hx | hx | hx
        · exact lt_trans (hpre x hx hx2) hra
        · rw [hx]
          exact hra
        · exact lt_of_le_of_lt (hpost x hx hx2) hra
    · -- the state is kept
      have hstep : subjectStep s sl v st a = st := by
        unfold subjectStep
        rw [if_pos ha]
        have : (decide (matchScore sl a ≥ 2) && Ratio.lt st.bestMatchPercentage
            (matchPercentage sl a)) = false := by
          by_cases h2 : 2 ≤ matchScore sl a
          · have : Ratio.lt st.bestMatchPercentage (matchPercentage sl a) = false := by
              cases hh : Ratio.lt st.bestMatchPercentage (matchPercentage sl a) with
              | true => exact absurd ⟨h2, hh⟩ hc
              | false => rfl
            simp [this]
          · simp [h2]
        simp [this]
      rw [hstep]
      constructor
      · intro hm
        obtain ⟨hb, hall⟩ := ihn hm
        refine ⟨hb, ?_⟩
        intro x hx
        simp only [List.mem_append, List.mem_singleton] at hx
        rcases hx with hx | hx
        · exact hall x hx
        · subst hx
          by_contra h2
          have h2' : 2 ≤ matchScore sl x := by omega
          apply hc
          refine ⟨h2', ?_⟩
          rw [hb, Ratio.lt_iff _ _ (by decide) (matchPercentage_den_pos sl x),
            matchPercentage_toRat]
          have := matchRatio_pos sl x h2'
          simpa [Ratio.toRat] using this
      · intro r hm
        obtain ⟨hb, h2, pre, post, hl', hpre, hpost⟩ := ihs r hm
        refine ⟨hb, h2, pre, post ++ [a], by simp [hl'], hpre, ?_⟩
        intro x hx hx2
        simp only [List.mem_append, List.mem_singleton] at hx
        rcases hx with hx | hx
        · exact hpost x hx hx2
        · subst hx
          by_contra hlt'
          apply hc
          refine ⟨hx2, ?_⟩
          rw [hb, hlt]
          exact lt_of_not_le hlt'

theorem matchById_eq_some (s : Store) (subject v : Str) (r : RFP) :
    matchById s subject v = some r ↔
      ∃ hex, rfpIdMatch subject = some hex ∧ findById s (castObjectId hex) = some r ∧
        v ∈ sentToEmails s r := by
  unfold matchById
  cases h1 : rfpIdMatch subject with
  | none => simp
  | some hex =>
    cases h2 : findById s (castObjectId hex) with
    | none => simp [h2]
    | some r' =>
      simp only [h2]
      by_cases h3 : (sentToEmails s r').contains v = true
      · rw [if_pos h3]
        constructor
        · intro h
          injection h with h
          subst h
          exact ⟨hex, rfl, h2, by simpa using h3⟩
        · rintro ⟨hex', he, hf, _⟩
          injection he with he
          subst he
          rw [h2] at hf
          exact hf
      · rw [if_neg h3]
        constructor
        · intro h
          cases h
        · rintro ⟨hex', he, hf, hr⟩
          injection he with he
          subst he
          rw [h2] at hf
          injection hf with hf
          subst hf
          exact absurd (by simpa using hr) h3

theorem mem_eligibleRFPs (s : Store) (v : Str) (r : RFP) :
    r ∈ eligibleRFPs s v ↔
      r ∈ s.rfps ∧ statusInFilter r.status = true ∧ v ∈ sentToEmails s r := by
  unfold eligibleRFPs findOpenRFPs
  rw [List.mem_filter, List.mem_filter, List.contains_eq_any_beq, List.any_eq_true, and_assoc]
  constructor
  · rintro ⟨h1, h2, y, hy, hyv⟩
    have : v = y := by simpa using hyv
    exact ⟨h1, h2, this ▸ hy⟩
  · rintro ⟨h1, h2, h3⟩
    exact ⟨h1, h2, v, h3, by simp⟩

theorem eligibleRFPs_contains (s : Store) (v : Str) :
    ∀ x ∈ eligibleRFPs s v, (sentToEmails s x).contains v = true := by
  intro x hx
  have := ((mem_eligibleRFPs s v x).1 hx).2.2
  simpa using this

theorem matchBySubject_mem (s : Store) (subject v : Str) (r : RFP)
    (h : matchBySubject s subject v = some r) : r ∈ eligibleRFPs s v := by
  rw [matchBySubject_eq] at h
  obtain ⟨_, _, pre, post, hl, _, _⟩ :=
    (foldl_subjectStep_spec s (toLowerCase subject) v (eligibleRFPs s v)
      (eligibleRFPs_contains s v)).2 r h
  rw [hl]
  simp

theorem createdAt_sorted (l : List RFP) :
    (l.insertionSort (fun a b => b.createdAt ≤ a.createdAt)).Pairwise
      (fun a b => b.createdAt ≤ a.createdAt) := by
  have ht : IsTotal RFP (fun a b => b.createdAt ≤ a.createdAt) :=
    ⟨fun a b => Nat.le_total b.createdAt a.createdAt⟩
  have htr : IsTrans RFP (fun a b => b.createdAt ≤ a.createdAt) :=
    ⟨fun a b c hab hbc => Nat.le_trans hbc hab⟩
  exact List.sorted_insertionSort (fun a b => b.createdAt ≤ a.createdAt) l

theorem matchMostRecent_eq_some (s : Store) (v : Str) (r : RFP)
    (h : matchMostRecent s v = some r) :
    r ∈ eligibleRFPs s v ∧ ∀ x ∈ eligibleRFPs s v, x.createdAt ≤ r.createdAt := by
  unfold matchMostRecent at h
  obtain ⟨hp, pre, post, hl, hpre⟩ := List.find?_eq_some.1 h
  have hmem : r ∈ findOpenRFPs s := by
    rw [← List.mem_insertionSort (fun a b => b.createdAt ≤ a.createdAt), hl]
    simp
  have hsorted := createdAt_sorted (findOpenRFPs s)
  rw [hl] at hsorted
  have hpost : ∀ x ∈ post, x.createdAt ≤ r.createdAt := by
    have h2 := (List.pairwise_append.1 hsorted).2.1
    exact (List.pairwise_cons.1 h2).1
  refine ⟨?_, ?_⟩
  · unfold eligibleRFPs
    rw [List.mem_filter]
    exact ⟨hmem, hp⟩
  · intro x hx
    unfold eligibleRFPs at hx
    rw [List.mem_filter] at hx
    have hx' : x ∈ pre ++ r :: post := by
      rw [← hl, List.mem_insertionSort]
      exact hx.1
    simp only [List.mem_append, List.mem_cons] at hx'
    rcases hx' with hx' | hx' | hx'
    · have := hpre x hx'
      rw [hx.2] at this
      simp at this
    · rw [hx']
    · exact hpost x hx'

theorem matchMostRecent_eq_none (s : Store) (v : Str) :
    matchMostRecent s v = none ↔ eligibleRFPs s v = [] := by
  unfold matchMostRecent eligibleRFPs
  rw [List.find?_eq_none, List.filter_eq_nil_iff]
  constructor
  · intro h x hx
    exact h x ((List.mem_insertionSort _).2 hx)
  · intro h x hx
    exact h x ((List.mem_insertionSort _).1 hx)

theorem matchRFP_mem (s : Store) (subject v : Str) (r : RFP)
    (h : matchRFP s subject v = some r) :
    r ∈ s.rfps ∧ v ∈ sentToEmails s r := by
  unfold matchRFP at h
  cases h1 : matchById s subject v with
  | some r1 =>
    simp only [h1, Option.some.injEq] at h
    subst h
    obtain ⟨hex, _, hfind, hrec⟩ := (matchById_eq_some s subject v r1).1 h1
    exact ⟨List.mem_of_find?_eq_some hfind, hrec⟩
  | none =>
    cases h2 : matchBySubject s subject v with
    | some r2 =>
      simp only [h1, h2, Option.some.injEq] at h
      subst h
      have := (mem_eligibleRFPs s v r2).1 (matchBySubject_mem s subject v r2 h2)
      exact ⟨this.1, this.2.2⟩
    | none =>
      simp only [h1, h2] at h
      have := (mem_eligibleRFPs s v r).1 (matchMostRecent_eq_some s v r h).1
      exact ⟨this.1, this.2.2⟩

theorem prepare_ok_matchRFP (env : Env) (s : Store) (m : EmailData) (p : Plan)
    (subject fromText : Str) (hs : m.subject = some subject)
    (hf : m.fromText = some fromText) (h : prepare env s m = Except.ok p) :
    matchRFP s subject (toLowerCase (extractVendorEmail fromText)) = some p.matchedRFP := by
  obtain ⟨f', s', _, hf', hs', _, _, _, _, _, hm, _⟩ := (prepare_eq_ok_iff env s m p).1 h
  rw [hf] at hf'
  rw [hs] at hs'
  injection hf' with hf'
  injection hs' with hs'
  subst hf' hs'
  exact hm

theorem processEmail_no_match (env : Env) (s : Store) (m : EmailData)
    (subject fromText : Str) (hs : m.subject = some subject)
    (hf : m.fromText = some fromText)
    (h : matchRFP s subject (toLowerCase (extractVendorEmail fromText)) = none) :
    processEmail env s m = (s, false) := by
  cases hp : prepare env s m with
  | error e => exact processEmail_of_prepare_error env s m e hp
  | ok p =>
    have := prepare_ok_matchRFP env s m p subject fromText hs hf hp
    rw [h] at this
    cases this

/-- C3, the claim at a subject with two ID tags.  The subject contains a tag
naming RFP B, which exists and was sent to the sender; the tag before it names
RFP A, sent to the sender too.  The pattern of line 270 takes the first tag, and
the matcher yields A and not B. -/
theorem c3_counterexample :
    exTwoTags =
        "Re: RFP: Laptops [ID: 00000000000000000000000a] ".toList ++
          "[ID: 00000000000000000000000b]".toList ∧
      findById exStore (castObjectId "00000000000000000000000b".toList) = some exRfpB ∧
      toLowerCase (extractVendorEmail "Acme <v@x.com>".toList) ∈ sentToEmails exStore exRfpB ∧
      rfpIdMatch exTwoTags = some "00000000000000000000000a".toList ∧
      matchRFP exStore exTwoTags (toLowerCase (extractVendorEmail "Acme <v@x.com>".toList)) =
        some exRfpA ∧
      exRfpA ≠ exRfpB := by
  decide

/-- C3, amended.  When the first ID tag of the subject (the token the pattern of
line 270 extracts, its leftmost match) names an existing RFP `B` whose
recipients include the sender's lower-cased email, the matcher yields `B`,
whatever the titles, statuses and creation dates of the other RFPs of the store
are; and every run of `processEmail` on such a message that reaches the writes
has matched `B`. -/
theorem tier1_id_tag_match (s : Store) (subject fromText hex : Str) (B : RFP)
    (htag : rfpIdMatch subject = some hex)
    (hB : findById s (castObjectId hex) = some B)
    (hrec : toLowerCase (extractVendorEmail fromText) ∈ sentToEmails s B) :
    matchById s subject (toLowerCase (extractVendorEmail fromText)) = some B ∧
    matchRFP s subject (toLowerCase (extractVendorEmail fromText)) = some B ∧
    ∀ env m p, m.subject = some subject → m.fromText = some fromText →
      prepare env s m = Except.ok p → p.matchedRFP = B := by
  have h1 : matchById s subject (toLowerCase (extractVendorEmail fromText)) = some B :=
    (matchById_eq_some s subject _ B).2 ⟨hex, htag, hB, hrec⟩
  have h2 : matchRFP s subject (toLowerCase (extractVendorEmail fromText)) = some B := by
    simp [matchRFP, h1]
  refine ⟨h1, h2, ?_⟩
  intro env m p hs hf hp
  have := prepare_ok_matchRFP env s m p subject fromText hs hf hp
  rw [h2] at this
  injection this with this
  exact this.symm

/-- C3, witness: the scenario of the spec, the tag naming "IT Equipment" while
"Office Furniture Bulk Order" is eligible too. -/
theorem tier1_id_tag_match_witness :
    matchRFP exStore "Re: RFP: IT Equipment Quote [ID: 00000000000000000000000b]".toList
      (toLowerCase (extractVendorEmail "Acme <v@x.com>".toList)) = some exRfpB :=
  (tier1_id_tag_match exStore
    "Re: RFP: IT Equipment Quote [ID: 00000000000000000000000b]".toList
    "Acme <v@x.com>".toList "00000000000000000000000b".toList exRfpB
    (by decide) (by decide) (by decide)).2.1

/-- C4.  Whenever the matching yields an RFP, by whichever tier, the sender's
lower-cased email is among the lower-cased emails of that RFP's recipients; an
RFP yielded after tier 1 gave nothing has status sent, responses_received or
evaluated; and an ID tag naming an RFP that was not sent to the sender is not
accepted by tier 1. -/
theorem recipient_guarantee (s : Store) (subject v : Str) (r : RFP)
    (h : matchRFP s subject v = some r) :
    v ∈ (populate s r).map (fun x => toLowerCase x.email) ∧
    (matchById s subject v = none →
      r.status = RFPStatus.sent ∨ r.status = RFPStatus.responses_received ∨
        r.status = RFPStatus.evaluated) ∧
    (∀ hex B, rfpIdMatch subject = some hex → findById s (castObjectId hex) = some B →
      v ∉ sentToEmails s B → matchById s subject v = none) := by
  refine ⟨(matchRFP_mem s subject v r h).2, ?_, ?_⟩
  · intro h1
    have hel : r ∈ eligibleRFPs s v := by
      unfold matchRFP at h
      cases h2 : matchBySubject s subject v with
      | some r2 =>
        simp only [h1, h2, Option.some.injEq] at h
        subst h
        exact matchBySubject_mem s subject v r2 h2
      | none =>
        simp only [h1, h2] at h
        exact (matchMostRecent_eq_some s v r h).1
    have hst := ((mem_eligibleRFPs s v r).1 hel).2.1
    unfold statusInFilter at hst
    simpa [or_assoc] using hst
  · intro hex B htag hB hn
    cases h1 : matchById s subject v with
    | none => rfl
    | some r1 =>
      obtain ⟨hex', htag', hB', hrec⟩ := (matchById_eq_some s subject v r1).1 h1
      rw [htag] at htag'
      injection htag' with htag'
      subst htag'
      rw [hB] at hB'
      injection hB' with hB'
      subst hB'
      exact absurd hrec hn

/-- C4, witness: the fallback match of a reply without tag or title words. -/
theorem recipient_guarantee_witness :
    "v@x.com".toList ∈ (populate exStore exRfpB).map (fun x => toLowerCase x.email) :=
  (recipient_guarantee exStore "Re: RFP reply".toList "v@x.com".toList exRfpB
    (by decide)).1

theorem matchBySubject_eq_none_of_scores (s : Store) (subject v : Str)
    (hall : ∀ x ∈ eligibleRFPs s v, matchScore (toLowerCase subject) x < 2) :
    matchBySubject s subject v = none := by
  have spec := foldl_subjectStep_spec s (toLowerCase subject) v (eligibleRFPs s v)
    (eligibleRFPs_contains s v)
  rw [← matchBySubject_eq] at spec
  cases h2 : matchBySubject s subject v with
  | none => rfl
  | some r =>
    obtain ⟨_, hr2, _⟩ := spec.2 r h2
    have := hall r (matchBySubject_mem s subject v r h2)
    omega

/-- C5.  When tier 1 yields nothing: if some eligible RFP has score at least 2,
the matcher yields the first RFP, in iteration order, that attains the greatest
ratio among the eligible RFPs with score at least 2 (every such RFP before it
has a smaller ratio, every such RFP after it has no greater one); if no eligible
RFP has score at least 2, tier 2 yields nothing. -/
theorem tier2_subject_match (s : Store) (subject v : Str)
    (h1 : matchById s subject v = none) :
    ((∃ x ∈ eligibleRFPs s v, 2 ≤ matchScore (toLowerCase subject) x) →
      ∃ r pre post, matchBySubject s subject v = some r ∧ matchRFP s subject v = some r ∧
        eligibleRFPs s v = pre ++ r :: post ∧ 2 ≤ matchScore (toLowerCase subject) r ∧
        (∀ x ∈ pre, 2 ≤ matchScore (toLowerCase subject) x →
          matchRatio (toLowerCase subject) x < matchRatio (toLowerCase subject) r) ∧
        (∀ x ∈ post, 2 ≤ matchScore (toLowerCase subject) x →
          matchRatio (toLowerCase subject) x ≤ matchRatio (toLowerCase subject) r)) ∧
    ((∀ x ∈ eligibleRFPs s v, matchScore (toLowerCase subject) x < 2) →
      matchBySubject s subject v = none) := by
  have spec := foldl_subjectStep_spec s (toLowerCase subject) v (eligibleRFPs s v)
    (eligibleRFPs_contains s v)
  rw [← matchBySubject_eq] at spec
  obtain ⟨hn, hsome⟩ := spec
  constructor
  · rintro ⟨x, hx, hx2⟩
    cases h2 : matchBySubject s subject v with
    | none =>
      have := (hn h2).2 x hx
      omega
    | some r =>
      obtain ⟨_, hr2, pre, post, hl, hpre, hpost⟩ := hsome r h2
      refine ⟨r, pre, post, rfl, ?_, hl, hr2, hpre, hpost⟩
      simp [matchRFP, h1, h2]
  · exact matchBySubject_eq_none_of_scores s subject v

/-- C5, witness: two of the four significant words of "Office Furniture Bulk
Order" occur in the subject. -/
theorem tier2_subject_match_witness :
    ∃ r pre post, matchBySubject exStore "Re: RFP: Office Furniture".toList "v@x.com".toList
        = some r ∧
      matchRFP exStore "Re: RFP: Office Furniture".toList "v@x.com".toList = some r ∧
      eligibleRFPs exStore "v@x.com".toList = pre ++ r :: post ∧
      2 ≤ matchScore (toLowerCase "Re: RFP: Office Furniture".toList) r ∧
      (∀ x ∈ pre, 2 ≤ matchScore (toLowerCase "Re: RFP: Office Furniture".toList) x →
        matchRatio (toLowerCase "Re: RFP: Office Furniture".toList) x <
          matchRatio (toLowerCase "Re: RFP: Office Furniture".toList) r) ∧
      (∀ x ∈ post, 2 ≤ matchScore (toLowerCase "Re: RFP: Office Furniture".toList) x →
        matchRatio (toLowerCase "Re: RFP: Office Furniture".toList) x ≤
          matchRatio (toLowerCase "Re: RFP: Office Furniture".toList) r) :=
  (tier2_subject_match exStore "Re: RFP: Office Furniture".toList "v@x.com".toList
    (by decide)).1 ⟨exRfpA, by decide, by decide⟩

/-- C6, counterexample.  The vendor is a recipient of A and B, both eligible; the
message with subject "Re: Quote for IT Equipment" is not attached to B: the run
returns false and writes no Conversation, and the fuzzy tier of the matcher
yields nothing for that subject. -/
theorem c6_counterexample :
    processEmail exEnv exStore (exMail "Re: Quote for IT Equipment") = (exStore, false) ∧
      exStore.conversations = [] ∧
      matchBySubject exStore "Re: Quote for IT Equipment".toList "v@x.com".toList = none := by
  decide

/-- C6, amended.  A message with subject "Re: Quote for IT Equipment" is
rejected by the reply filter, because the subject does not contain "rfp": the
run returns false and writes nothing, whatever the store.  In the matcher, the
title "IT Equipment" has one significant word and the title "Office Furniture
Bulk Order" shares none with that subject, so when the vendor's eligible RFPs
carry these two titles the fuzzy tier yields nothing and the matcher yields what
the most-recent fallback yields. -/
theorem it_equipment_reply (s : Store) :
    (∀ env m, m.subject = some "Re: Quote for IT Equipment".toList →
      processEmail env s m = (s, false)) ∧
    (∀ v, (∀ r ∈ eligibleRFPs s v, r.title = "Office Furniture Bulk Order".toList ∨
        r.title = "IT Equipment".toList) →
      matchBySubject s "Re: Quote for IT Equipment".toList v = none ∧
      matchRFP s "Re: Quote for IT Equipment".toList v = matchMostRecent s v) := by
  constructor
  · intro env m hs
    cases hp : prepare env s m with
    | error e => exact processEmail_of_prepare_error env s m e hp
    | ok p =>
      obtain ⟨_, _, _, _, _, _, _, hr, _⟩ := (prepare_eq_ok_iff env s m p).1 hp
      rw [hs] at hr
      exact absurd hr (by decide)
  · intro v htitles
    have hid : matchById s "Re: Quote for IT Equipment".toList v = none := by
      unfold matchById
      have : rfpIdMatch "Re: Quote for IT Equipment".toList = none := by decide
      rw [this]
    have hsub : matchBySubject s "Re: Quote for IT Equipment".toList v = none := by
      apply matchBySubject_eq_none_of_scores
      intro x hx
      unfold matchScore titleWords
      rcases htitles x hx with ht | ht
      · rw [ht]
        decide
      · rw [ht]
        decide
    refine ⟨hsub, ?_⟩
    unfold matchRFP
    rw [hid, hsub]

/-- C6, witness: with A and B the eligible RFPs of the vendor, the matcher
yields for that subject what the most-recent fallback yields. -/
theorem it_equipment_reply_witness :
    matchBySubject exStore "Re: Quote for IT Equipment".toList "v@x.com".toList = none ∧
      matchRFP exStore "Re: Quote for IT Equipment".toList "v@x.com".toList =
        matchMostRecent exStore "v@x.com".toList :=
  (it_equipment_reply exStore).2 "v@x.com".toList (by decide)

/-- C7.  When tiers 1 and 2 yield nothing: if the sender has an eligible RFP
(status sent, responses_received or evaluated, sender among the recipients), the
matcher yields an eligible RFP whose `createdAt` is the greatest among the
eligible ones; if there is none, matching fails, and `processEmail` returns
false and leaves the store, so also the Conversations, as it was. -/
theorem tier3_most_recent (s : Store) (subject fromText : Str)
    (h1 : matchById s subject (toLowerCase (extractVendorEmail fromText)) = none)
    (h2 : matchBySubject s subject (toLowerCase (extractVendorEmail fromText)) = none) :
    (eligibleRFPs s (toLowerCase (extractVendorEmail fromText)) ≠ [] →
      ∃ r, matchRFP s subject (toLowerCase (extractVendorEmail fromText)) = some r ∧
        r ∈ s.rfps ∧
        (r.status = RFPStatus.sent ∨ r.status = RFPStatus.responses_received ∨
          r.status = RFPStatus.evaluated) ∧
        toLowerCase (extractVendorEmail fromText) ∈ sentToEmails s r ∧
        ∀ x ∈ eligibleRFPs s (toLowerCase (extractVendorEmail fromText)),
          x.createdAt ≤ r.createdAt) ∧
    (eligibleRFPs s (toLowerCase (extractVendorEmail fromText)) = [] →
      matchRFP s subject (toLowerCase (extractVendorEmail fromText)) = none ∧
      ∀ env m, m.subject = some subject → m.fromText = some fromText →
        processEmail env s m = (s, false)) := by
  have hm : matchRFP s subject (toLowerCase (extractVendorEmail fromText)) =
      matchMostRecent s (toLowerCase (extractVendorEmail fromText)) := by
    simp [matchRFP, h1, h2]
  constructor
  · intro hne
    cases h3 : matchMostRecent s (toLowerCase (extractVendorEmail fromText)) with
    | none => exact absurd ((matchMostRecent_eq_none s _).1 h3) hne
    | some r =>
      obtain ⟨hel, hmax⟩ := matchMostRecent_eq_some s _ r h3
      obtain ⟨hmem, hst, hrec⟩ := (mem_eligibleRFPs s _ r).1 hel
      refine ⟨r, by rw [hm, h3], hmem, ?_, hrec, hmax⟩
      unfold statusInFilter at hst
      simpa [or_assoc] using hst
  · intro hnil
    have hnone : matchRFP s subject (toLowerCase (extractVendorEmail fromText)) = none := by
      rw [hm]
      exact (matchMostRecent_eq_none s _).2 hnil
    refine ⟨hnone, ?_⟩
    intro env m hs hf
    exact processEmail_no_match env s m subject fromText hs hf hnone

/-- C7, witness: no tag and no title word in the subject; the later RFP is taken. -/
theorem tier3_most_recent_witness :
    ∃ r, matchRFP exStore "Re: RFP reply".toList
        (toLowerCase (extractVendorEmail "Acme <v@x.com>".toList)) = some r ∧
      r ∈ exStore.rfps ∧
      (r.status = RFPStatus.sent ∨ r.status = RFPStatus.responses_received ∨
        r.status = RFPStatus.evaluated) ∧
      toLowerCase (extractVendorEmail "Acme <v@x.com>".toList) ∈ sentToEmails exStore r ∧
      ∀ x ∈ eligibleRFPs exStore (toLowerCase (extractVendorEmail "Acme <v@x.com>".toList)),
        x.createdAt ≤ r.createdAt :=
  (tier3_most_recent exStore "Re: RFP reply".toList "Acme <v@x.com>".toList
    (by decide) (by decide)).1 (by decide)

/-! ## The count of processed messages (C10) -/

theorem handleMessages_results (s : Store) (fetched : List (Env × Option EmailData)) :
    (handleMessages s fetched).2 = fetched.map (fun x => x.2.isSome) := by
  induction fetched generalizing s with
  | nil => rfl
  | cons x rest ih =>
    obtain ⟨env, parsed⟩ := x
    simp only [handleMessages, List.map_cons, ih]
    cases parsed <;> rfl

theorem processedCount_eq (s : Store) (fetched : List (Env × Option EmailData)) :
    processedCount s fetched = (fetched.filter (fun x => x.2.isSome)).length := by
  unfold processedCount
  rw [handleMessages_results]
  induction fetched with
  | nil => rfl
  | cons x rest ih =>
    cases h : x.2.isSome <;> simp [List.filter_cons, h] at ih ⊢ <;> exact ih

/-- C10, the code at the failing input.  One message is fetched, from a sender
no RFP was sent to; `processEmail` returns false for it and writes nothing, and
the count `fetchUnreadEmails` resolves with is 1. -/
theorem fetch_counts_skipped_message :
    processEmail exEnv ⟨[], [], []⟩ (exMail "Re: RFP: IT Equipment") = (⟨[], [], []⟩, false) ∧
      processedCount ⟨[], [], []⟩ [(exEnv, some (exMail "Re: RFP: IT Equipment"))] = 1 := by
  decide

/-! ## The upsert of the Conversation (C1, C2) -/

theorem commit_true (env : Env) (s : Store) (p : Plan) (h : (commit env s p).2 = true) :
    env.dbRejects DbCall.conversationSave = false ∧
    (commit env s p).1.conversations = saveConversation env s p ∧
    (commit env s p).1.vendors = s.vendors ∧
    (commit env s p).1.rfps =
      (if p.matchedRFP.status = RFPStatus.sent then saveRFPStatus env s p.matchedRFP
        else s.rfps) := by
  unfold commit at h ⊢
  by_cases h1 : env.dbRejects DbCall.conversationSave = true
  · simp [h1] at h
  · by_cases h2 : p.matchedRFP.status = RFPStatus.sent
    · by_cases h3 : env.dbRejects DbCall.rfpSave = true
      · simp [h1, h2, h3] at h
      · simp [h1, h2, h3, saveRFPStatus]
    · simp [h1, h2]

theorem findConversation_eq_head (s : Store) (r v : ObjectId) :
    findConversation s r v = (conversationsFor s r v).head? := by
  unfold findConversation conversationsFor
  rw [List.filter_head?]

theorem findConversation_of_unique (s : Store) (c : Conversation) (hc : c ∈ s.conversations)
    (huniq : (conversationsFor s c.rfpId c.vendorId).length ≤ 1) :
    findConversation s c.rfpId c.vendorId = some c := by
  rw [findConversation_eq_head]
  have hmem : c ∈ conversationsFor s c.rfpId c.vendorId := by
    unfold conversationsFor
    rw [List.mem_filter]
    exact ⟨hc, by simp⟩
  cases hl : conversationsFor s c.rfpId c.vendorId with
  | nil => rw [hl] at hmem; cases hmem
  | cons a l =>
    rw [hl] at hmem huniq
    have : l = [] := by
      cases l with
      | nil => rfl
      | cons b l' => simp at huniq
    subst this
    simp only [List.mem_singleton] at hmem
    simp [hmem]

theorem filter_pair_map (l : List Conversation) (g : Conversation → Conversation)
    (hg : ∀ c, (g c).rfpId = c.rfpId ∧ (g c).vendorId = c.vendorId) (r v : ObjectId) :
    (l.map g).filter (fun c => c.rfpId = r && c.vendorId = v) =
      (l.filter (fun c => c.rfpId = r && c.vendorId = v)).map g := by
  rw [List.filter_map]
  congr 1
  apply List.filter_congr
  intro x _
  simp [(hg x).1, (hg x).2]

theorem assign_keeps_pair (id : ObjectId) (d : ConversationData) (c : Conversation) :
    ((if c._id = id then assignData c d else c).rfpId = c.rfpId) ∧
      ((if c._id = id then assignData c d else c).vendorId = c.vendorId) := by
  split <;> simp [assignData]

theorem conversationsFor_after_update (s : Store) (id : ObjectId) (d : ConversationData)
    (r v : ObjectId) :
    (s.conversations.map (fun c => if c._id = id then assignData c d else c)).filter
        (fun c => c.rfpId = r && c.vendorId = v) =
      (conversationsFor s r v).map (fun c => if c._id = id then assignData c d else c) := by
  unfold conversationsFor
  exact filter_pair_map s.conversations _ (assign_keeps_pair id d) r v

/-- C2, the claim at a pair with two Conversations (the index on `rfpId`,
`vendorId` and `receivedAt` is not unique).  The revised reply is processed
successfully and overwrites the Conversation the lookup returns; the other
Conversation of the pair is still there as it was, rejected and with its old
content. -/
theorem c2_counterexample :
    (processEmail exEnv exStoreTwice (exMail "Re: RFP: IT Equipment")).2 = true ∧
      conversationsFor exStoreTwice 11 1 = [exConversation, exConversationOld] ∧
      conversationsFor (processEmail exEnv exStoreTwice (exMail "Re: RFP: IT Equipment")).1
          11 1 =
        [assignData exConversation exPlan.data, exConversationOld] ∧
      exConversationOld.status = ConversationStatus.rejected ∧
      exConversationOld.emailContent ≠
        buildEmailContent exEnv (exMail "Re: RFP: IT Equipment") ∧
      exConversationOld.rejectionReason ≠ none := by
  decide

/-- C2, amended.  Let a run of `processEmail` that returns true find the
existing Conversation `c` for its pair: the one `Conversation.findOne` returns,
which is the first stored Conversation of the pair and its only one when the
pair has a single Conversation; the status of `c` may be any.  The Conversation
collection afterwards is the old one with `c` replaced in place: `emailSubject`,
`emailContent` and `parsedData` are those of the new message, `status` is
pending_review and `rejectionReason` is null.  Every Conversation with another
`_id` is kept as it was, and the number of Conversations of the pair is what it
was. -/
theorem overwrite_on_revised_reply (env : Env) (s : Store) (m : EmailData) (p : Plan)
    (c : Conversation)
    (hp : prepare env s m = Except.ok p)
    (hex : p.existingConversation = some c)
    (ht : (processEmail env s m).2 = true) :
    c ∈ s.conversations ∧ c.rfpId = p.matchedRFP._id ∧ c.vendorId = p.vendor._id ∧
    (conversationsFor s p.matchedRFP._id p.vendor._id).head? = some c ∧
    (∀ d ∈ s.conversations, d.rfpId = p.matchedRFP._id → d.vendorId = p.vendor._id →
      (conversationsFor s p.matchedRFP._id p.vendor._id).length ≤ 1 → d = c) ∧
    ∃ subject parsedData,
      m.subject = some subject ∧
      env.parseVendorResponse (buildEmailContent env m) = some parsedData ∧
      (processEmail env s m).1.conversations =
        s.conversations.map (fun d => if d._id = c._id then assignData d p.data else d) ∧
      assignData c p.data ∈ (processEmail env s m).1.conversations ∧
      (assignData c p.data).emailSubject = subject ∧
      (assignData c p.data).emailContent = buildEmailContent env m ∧
      (assignData c p.data).parsedData =
        { items := parsedData.items.map
            (fun item => ⟨item.description, item.quantity, item.unitPrice, item.totalPrice⟩)
          totalAmount := totalAmount parsedData
          deliveryTime := orStr (some parsedData.deliveryTimeline) "Not specified".toList
          paymentTerms := orStr (some parsedData.paymentTerms) "Not specified".toList
          warranty := orStr (some parsedData.warranty) "Not specified".toList
          additionalNotes := orStr (some parsedData.additionalInfo) [] } ∧
      (assignData c p.data).status = ConversationStatus.pending_review ∧
      (assignData c p.data).rejectionReason = none ∧
      (assignData c p.data)._id = c._id ∧
      (assignData c p.data).rfpId = c.rfpId ∧
      (assignData c p.data).vendorId = c.vendorId ∧
      (∀ d ∈ s.conversations, d._id ≠ c._id → d ∈ (processEmail env s m).1.conversations) ∧
      (conversationsFor (processEmail env s m).1 p.matchedRFP._id p.vendor._id).length =
        (conversationsFor s p.matchedRFP._id p.vendor._id).length := by
  obtain ⟨fromText, subject, parsedData, _, hs, _, _, _, _, _, _, _, _, _, hparse, hfind, hdata⟩ :=
    (prepare_eq_ok_iff env s m p).1 hp
  rw [hex] at hfind
  have hhead : (conversationsFor s p.matchedRFP._id p.vendor._id).head? = some c := by
    rw [← findConversation_eq_head]
    exact hfind.symm
  have hc : c ∈ s.conversations := by
    unfold findConversation at hfind
    exact List.mem_of_find?_eq_some hfind.symm
  have hpair : c.rfpId = p.matchedRFP._id ∧ c.vendorId = p.vendor._id := by
    unfold findConversation at hfind
    have := List.find?_some hfind.symm
    simpa using this
  rw [processEmail_of_prepare_ok env s m p hp] at ht ⊢
  obtain ⟨_, hconv, _, _⟩ := commit_true env s p ht
  have hsave : saveConversation env s p =
      s.conversations.map (fun d => if d._id = c._id then assignData d p.data else d) := by
    unfold saveConversation
    rw [hex]
  rw [hsave] at hconv
  refine ⟨hc, hpair.1, hpair.2, hhead, ?_, subject, parsedData, hs, hparse, hconv, ?_, ?_, ?_,
    ?_, ?_, ?_, rfl, rfl, rfl, ?_, ?_⟩
  · intro d hd hr hv hlen
    have hmem : d ∈ conversationsFor s p.matchedRFP._id p.vendor._id := by
      unfold conversationsFor
      rw [List.mem_filter]
      exact ⟨hd, by simp [hr, hv]⟩
    cases hl : conversationsFor s p.matchedRFP._id p.vendor._id with
    | nil => rw [hl] at hmem; cases hmem
    | cons a l =>
      rw [hl] at hmem hlen hhead
      have hnil : l = [] := by
        cases l with
        | nil => rfl
        | cons b l2 => simp at hlen
      subst hnil
      simp only [List.mem_singleton] at hmem
      simp only [List.head?_cons, Option.some.injEq] at hhead
      rw [hmem, hhead]
  · rw [hconv, List.mem_map]
    exact ⟨c, hc, by simp⟩
  · simp [assignData, hdata, conversationData]
  · simp [assignData, hdata, conversationData]
  · simp [assignData, hdata, conversationData]
  · simp [assignData, hdata, conversationData]
  · simp [assignData, hdata, conversationData]
  · intro d hd hne
    rw [hconv, List.mem_map]
    exact ⟨d, hd, by rw [if_neg hne]⟩
  · have : conversationsFor (commit env s p).1 p.matchedRFP._id p.vendor._id =
        (conversationsFor s p.matchedRFP._id p.vendor._id).map
          (fun d => if d._id = c._id then assignData d p.data else d) := by
      rw [← conversationsFor_after_update]
      unfold conversationsFor
      rw [hconv]
    rw [this, List.length_map]

/-- C2, witness: a revised reply for a pair whose Conversation was rejected. -/
theorem overwrite_on_revised_reply_witness :
    assignData exConversation exPlan.data ∈
        (processEmail exEnv exStoreReplied (exMail "Re: RFP: IT Equipment")).1.conversations ∧
      (assignData exConversation exPlan.data).status = ConversationStatus.pending_review ∧
      (assignData exConversation exPlan.data).rejectionReason = none ∧
      (conversationsFor (processEmail exEnv exStoreReplied
          (exMail "Re: RFP: IT Equipment")).1 exPlan.matchedRFP._id exPlan.vendor._id).length =
        (conversationsFor exStoreReplied exPlan.matchedRFP._id exPlan.vendor._id).length := by
  obtain ⟨_, _, _, _, _, _, _, _, _, _, h1, _, _, _, h2, h3, _, _, _, _, h4⟩ :=
    overwrite_on_revised_reply exEnv exStoreReplied (exMail "Re: RFP: IT Equipment") exPlan
      exConversation rfl rfl (by decide)
  exact ⟨h1, h2, h3, h4⟩

/-! ## The matcher does not observe the writes of a run -/

section Invariance

variable {s s' : Store} {f : RFP → RFP}

theorem sentToEmails_inv (hv : s'.vendors = s.vendors) (hf : MatchInvariant s f) (r : RFP) :
    sentToEmails s' (f r) = sentToEmails s r := by
  unfold sentToEmails populate
  rw [hv, (hf.1 r).2.2.1]

theorem findOpenRFPs_inv (hr : s'.rfps = s.rfps.map f) (hf : MatchInvariant s f) :
    findOpenRFPs s' = (findOpenRFPs s).map f := by
  unfold findOpenRFPs
  rw [hr, List.filter_map]
  congr 1
  apply List.filter_congr
  intro x hx
  exact hf.2 x hx

theorem getVendorEmails_inv (hv : s'.vendors = s.vendors) (hr : s'.rfps = s.rfps.map f)
    (hf : MatchInvariant s f) : getVendorEmails s' = getVendorEmails s := by
  unfold getVendorEmails
  rw [findOpenRFPs_inv hr hf, List.foldl_map]
  congr 1
  funext acc r
  rw [sentToEmails_inv hv hf]

theorem findById_inv (hr : s'.rfps = s.rfps.map f) (hf : MatchInvariant s f) (id : ObjectId) :
    findById s' id = (findById s id).map f := by
  unfold findById
  rw [hr, List.find?_map]
  congr 2
  funext r
  simp [(hf.1 r).1]

theorem matchById_inv (hv : s'.vendors = s.vendors) (hr : s'.rfps = s.rfps.map f)
    (hf : MatchInvariant s f) (subject v : Str) :
    matchById s' subject v = (matchById s subject v).map f := by
  unfold matchById
  cases rfpIdMatch subject with
  | none => rfl
  | some hex =>
    simp only [findById_inv hr hf]
    cases findById s (castObjectId hex) with
    | none => rfl
    | some r =>
      simp only [Option.map_some', sentToEmails_inv hv hf]
      split <;> rfl

theorem titleWords_inv (hf : MatchInvariant s f) (r : RFP) : titleWords (f r) = titleWords r := by
  unfold titleWords
  rw [(hf.1 r).2.1]

theorem subjectStep_inv (hv : s'.vendors = s.vendors) (hf : MatchInvariant s f)
    (sl v : Str) (st : SubjectMatch) (r : RFP) :
    subjectStep s' sl v ⟨st.matchedRFP.map f, st.bestMatchScore, st.bestMatchPercentage⟩ (f r) =
      ⟨(subjectStep s sl v st r).matchedRFP.map f, (subjectStep s sl v st r).bestMatchScore,
        (subjectStep s sl v st r).bestMatchPercentage⟩ := by
  have h1 : matchScore sl (f r) = matchScore sl r := by
    unfold matchScore
    rw [titleWords_inv hf]
  have h2 : matchPercentage sl (f r) = matchPercentage sl r := by
    unfold matchPercentage
    rw [titleWords_inv hf, h1]
  unfold subjectStep
  rw [sentToEmails_inv hv hf, h1, h2]
  split
  · split <;> rfl
  · rfl

theorem foldl_subjectStep_inv (hv : s'.vendors = s.vendors) (hf : MatchInvariant s f)
    (sl v : Str) (l : List RFP) (st : SubjectMatch) :
    (l.map f).foldl (subjectStep s' sl v)
        ⟨st.matchedRFP.map f, st.bestMatchScore, st.bestMatchPercentage⟩ =
      ⟨(l.foldl (subjectStep s sl v) st).matchedRFP.map f,
        (l.foldl (subjectStep s sl v) st).bestMatchScore,
        (l.foldl (subjectStep s sl v) st).bestMatchPercentage⟩ := by
  induction l generalizing st with
  | nil => rfl
  | cons a l ih =>
    rw [List.map_cons, List.foldl_cons, List.foldl_cons, subjectStep_inv hv hf, ih]

theorem matchBySubject_inv (hv : s'.vendors = s.vendors) (hr : s'.rfps = s.rfps.map f)
    (hf : MatchInvariant s f) (subject v : Str) :
    matchBySubject s' subject v = (matchBySubject s subject v).map f := by
  unfold matchBySubject
  rw [findOpenRFPs_inv hr hf]
  have := foldl_subjectStep_inv hv hf (toLowerCase subject) v (findOpenRFPs s)
    ⟨none, 0, ⟨0, 1⟩⟩
  simp only [Option.map_none'] at this
  rw [this]

theorem matchMostRecent_inv (hv : s'.vendors = s.vendors) (hr : s'.rfps = s.rfps.map f)
    (hf : MatchInvariant s f) (v : Str) :
    matchMostRecent s' v = (matchMostRecent s v).map f := by
  unfold matchMostRecent
  rw [findOpenRFPs_inv hr hf,
    ← List.map_insertionSort (fun a b => b.createdAt ≤ a.createdAt)
      (fun a b => b.createdAt ≤ a.createdAt) f,
    List.find?_map]
  · congr 2
    funext r
    simp [sentToEmails_inv hv hf]
  · intro a _ b _
    rw [(hf.1 a).2.2.2, (hf.1 b).2.2.2]

theorem matchRFP_inv (hv : s'.vendors = s.vendors) (hr : s'.rfps = s.rfps.map f)
    (hf : MatchInvariant s f) (subject v : Str) :
    matchRFP s' subject v = (matchRFP s subject v).map f := by
  unfold matchRFP
  rw [matchById_inv hv hr hf, matchBySubject_inv hv hr hf, matchMostRecent_inv hv hr hf]
  cases matchById s subject v with
  | some r => rfl
  | none =>
    cases matchBySubject s subject v with
    | some r => rfl
    | none => rfl

theorem matchingRejects_inv (env : Env) (hv : s'.vendors = s.vendors)
    (hr : s'.rfps = s.rfps.map f) (hf : MatchInvariant s f) (subject v : Str) :
    matchingRejects env s' subject v = matchingRejects env s subject v := by
  unfold matchingRejects
  rw [matchById_inv hv hr hf, matchBySubject_inv hv hr hf]
  simp

theorem findVendorByEmail_inv (hv : s'.vendors = s.vendors) (email : Str) :
    findVendorByEmail s' email = findVendorByEmail s email := by
  unfold findVendorByEmail
  rw [hv]

end Invariance

/-! ## Idempotence of ingestion (C1) -/

theorem rfp_eq_of_id (s : Store) (hids : (s.rfps.map (fun r => r._id)).Nodup)
    (r r' : RFP) (hr : r ∈ s.rfps) (hr' : r' ∈ s.rfps) (h : r._id = r'._id) : r = r' :=
  List.inj_on_of_nodup_map hids hr hr' h

theorem commit_rfps (env : Env) (s : Store) (p : Plan) (h : (commit env s p).2 = true) :
    (commit env s p).1.rfps = s.rfps.map (savedRFP env p.matchedRFP) := by
  rw [(commit_true env s p h).2.2.2]
  by_cases hs : p.matchedRFP.status = RFPStatus.sent
  · rw [if_pos hs]
    unfold saveRFPStatus
    apply List.map_congr_left
    intro r _
    simp [savedRFP, hs]
  · rw [if_neg hs]
    have : savedRFP env p.matchedRFP = id := by
      funext r
      simp [savedRFP, hs]
    rw [this, List.map_id]

theorem savedRFP_matchInvariant (env : Env) (s : Store)
    (hids : (s.rfps.map (fun r => r._id)).Nodup) (matched : RFP) (hm : matched ∈ s.rfps) :
    MatchInvariant s (savedRFP env matched) := by
  constructor
  · intro r
    unfold savedRFP
    split <;> simp
  · intro r hr
    unfold savedRFP
    split
    · rename_i hc
      have : r = matched := rfp_eq_of_id s hids r matched hr hm hc.2
      subst this
      simp only [hc.1]
      rfl
    · rfl

theorem savedRFP_status_ne_sent (env : Env) (matched : RFP) :
    (savedRFP env matched matched).status ≠ RFPStatus.sent := by
  unfold savedRFP
  by_cases hs : matched.status = RFPStatus.sent
  · simp [hs]
  · simp [hs]

theorem savedRFP_id (env : Env) (matched r : RFP) : (savedRFP env matched r)._id = r._id := by
  unfold savedRFP
  split <;> rfl

theorem commit_conversations (env : Env) (s : Store) (p : Plan) :
    (commit env s p).1.conversations = s.conversations ∨
      (commit env s p).1.conversations = saveConversation env s p := by
  unfold commit
  by_cases h1 : env.dbRejects DbCall.conversationSave = true
  · simp [h1]
  · by_cases h2 : p.matchedRFP.status = RFPStatus.sent
    · by_cases h3 : env.dbRejects DbCall.rfpSave = true
      · simp [h1, h2, h3]
      · simp [h1, h2, h3]
    · simp [h1, h2]

theorem conversationsFor_congr (s s' : Store) (h : s'.conversations = s.conversations)
    (r v : ObjectId) : conversationsFor s' r v = conversationsFor s r v := by
  unfold conversationsFor
  rw [h]

theorem conversationsFor_saved_existing (env : Env) (s s' : Store) (p : Plan)
    (c : Conversation) (hex : p.existingConversation = some c)
    (h : s'.conversations = saveConversation env s p) (r v : ObjectId) :
    conversationsFor s' r v =
      (conversationsFor s r v).map (fun d => if d._id = c._id then assignData d p.data else d) := by
  rw [← conversationsFor_after_update]
  unfold conversationsFor
  rw [h]
  unfold saveConversation
  rw [hex]

theorem length_conversationsFor_commit_existing (env : Env) (s : Store) (p : Plan)
    (c : Conversation) (hex : p.existingConversation = some c) (r v : ObjectId) :
    (conversationsFor (commit env s p).1 r v).length = (conversationsFor s r v).length := by
  rcases commit_conversations env s p with h | h
  · rw [conversationsFor_congr _ _ h]
  · rw [conversationsFor_saved_existing env s _ p c hex h, List.length_map]

theorem conversationsFor_saved_new (env : Env) (s s' : Store) (p : Plan)
    (hex : p.existingConversation = none)
    (h : s'.conversations = saveConversation env s p) (r v : ObjectId) :
    conversationsFor s' r v =
      conversationsFor s r v ++
        (if p.matchedRFP._id = r ∧ p.vendor._id = v then
          [newConversation env.newObjectId p.matchedRFP._id p.vendor._id p.data]
        else []) := by
  unfold conversationsFor
  rw [h]
  unfold saveConversation
  rw [hex]
  simp only [List.filter_append, List.filter_cons, List.filter_nil]
  congr 1
  by_cases hc : p.matchedRFP._id = r ∧ p.vendor._id = v
  · simp [hc, newConversation]
  · rw [if_neg hc]
    have : ((newConversation env.newObjectId p.matchedRFP._id p.vendor._id p.data).rfpId = r
        && (newConversation env.newObjectId p.matchedRFP._id p.vendor._id p.data).vendorId = v)
        = false := by
      simp only [newConversation]
      by_cases h1 : p.matchedRFP._id = r
      · have h2 : ¬ p.vendor._id = v := fun h2 => hc ⟨h1, h2⟩
        simp [h1, h2]
      · simp [h1]
    simp [this]

theorem first_run_counts (env : Env) (s : Store) (m : EmailData) (p : Plan)
    (huniq : ∀ r v, (conversationsFor s r v).length ≤ 1)
    (hp : prepare env s m = Except.ok p) (ht : (commit env s p).2 = true) :
    (conversationsFor (commit env s p).1 p.matchedRFP._id p.vendor._id).length = 1 ∧
    ∀ r v, (conversationsFor (commit env s p).1 r v).length ≤ 1 := by
  obtain ⟨_, _, _, _, _, _, _, _, _, _, _, _, _, _, _, hex, _⟩ :=
    (prepare_eq_ok_iff env s m p).1 hp
  rw [findConversation_eq_head] at hex
  cases he : p.existingConversation with
  | some c =>
    constructor
    · rw [length_conversationsFor_commit_existing env s p c he]
      have h1 := huniq p.matchedRFP._id p.vendor._id
      rw [he] at hex
      cases hl : conversationsFor s p.matchedRFP._id p.vendor._id with
      | nil => rw [hl] at hex; cases hex
      | cons a l =>
        rw [hl] at h1
        simp only [List.length_cons] at h1 ⊢
        omega
    · intro r v
      rw [length_conversationsFor_commit_existing env s p c he]
      exact huniq r v
  | none =>
    have hconv := (commit_true env s p ht).2.1
    rw [he] at hex
    have hnil : conversationsFor s p.matchedRFP._id p.vendor._id = [] := by
      cases hl : conversationsFor s p.matchedRFP._id p.vendor._id with
      | nil => rfl
      | cons a l => rw [hl] at hex; cases hex
    constructor
    · rw [conversationsFor_saved_new env s _ p he hconv, hnil]
      simp
    · intro r v
      rw [conversationsFor_saved_new env s _ p he hconv]
      by_cases hc : p.matchedRFP._id = r ∧ p.vendor._id = v
      · rw [if_pos hc, ← hc.1, ← hc.2, hnil]
        simp
      · rw [if_neg hc, List.append_nil]
        exact huniq r v

theorem second_plan (env₁ env₂ : Env) (s s₁ : Store) (m : EmailData) (f : RFP → RFP)
    (p₁ p₂ : Plan) (hv : s₁.vendors = s.vendors) (hr : s₁.rfps = s.rfps.map f)
    (hf : MatchInvariant s f) (h₁ : prepare env₁ s m = Except.ok p₁)
    (h₂ : prepare env₂ s₁ m = Except.ok p₂) :
    p₂.matchedRFP = f p₁.matchedRFP ∧ p₂.vendor = p₁.vendor ∧
      p₂.existingConversation = findConversation s₁ (f p₁.matchedRFP)._id p₁.vendor._id := by
  obtain ⟨ft, sj, _, hft, hsj, _, _, _, _, _, hm, _, hven, _, _, _, _⟩ :=
    (prepare_eq_ok_iff env₁ s m p₁).1 h₁
  obtain ⟨ft', sj', _, hft', hsj', _, _, _, _, _, hm', _, hven', _, _, hex', _⟩ :=
    (prepare_eq_ok_iff env₂ s₁ m p₂).1 h₂
  rw [hft] at hft'
  rw [hsj] at hsj'
  injection hft' with hft'
  injection hsj' with hsj'
  subst hft' hsj'
  rw [matchRFP_inv hv hr hf, hm] at hm'
  rw [findVendorByEmail_inv hv, hven] at hven'
  injection hm' with hm'
  injection hven' with hven'
  refine ⟨hm'.symm, hven'.symm, ?_⟩
  rw [hex', ← hm', ← hven']

theorem rerun_prepare (env : Env) (s s₁ : Store) (m : EmailData) (f : RFP → RFP)
    (p₁ : Plan) (hv : s₁.vendors = s.vendors) (hr : s₁.rfps = s.rfps.map f)
    (hf : MatchInvariant s f) (h₁ : prepare env s m = Except.ok p₁) :
    prepare env s₁ m = Except.ok
      ⟨f p₁.matchedRFP, p₁.vendor,
        findConversation s₁ (f p₁.matchedRFP)._id p₁.vendor._id, p₁.data⟩ := by
  obtain ⟨ft, sj, q, hft, hsj, h1, h2, h3, h4, h5, hm, h6, hven, h7, hq, _, hd⟩ :=
    (prepare_eq_ok_iff env s m p₁).1 h₁
  apply (prepare_eq_ok_iff env s₁ m _).2
  refine ⟨ft, sj, q, hft, hsj, h1, ?_, h3, h4, ?_, ?_, h6, ?_, h7, hq, rfl, hd⟩
  · rw [getVendorEmails_inv hv hr hf]
    exact h2
  · rw [matchingRejects_inv env hv hr hf]
    exact h5
  · rw [matchRFP_inv hv hr hf, hm]
    rfl
  · rw [findVendorByEmail_inv hv]
    exact hven

theorem commit_of_not_sent (env : Env) (s : Store) (p : Plan)
    (hs : p.matchedRFP.status ≠ RFPStatus.sent) :
    ((commit env s p).2 = false → (commit env s p).1 = s) ∧
    (env.dbRejects DbCall.conversationSave = false → (commit env s p).2 = true) := by
  unfold commit
  by_cases h1 : env.dbRejects DbCall.conversationSave = true
  · simp [h1]
  · simp [h1, hs]

/-- C1.  Let the RFP ids of a store be distinct and let it hold at most one
Conversation per (RFP, vendor) pair.  When `processEmail` accepts a message, the
store then holds exactly one Conversation for the pair it resolved to.  A second
run on the resulting store, whatever it awaits from outside, resolves to the same
pair and finds that record; afterwards the store still holds exactly one
Conversation for the pair and at most one for every pair; if the second run
succeeds the record holds the content of the second run, and if it fails the
store is as the first run left it.  With what the first run awaited, the second
run succeeds. -/
theorem processEmail_idempotent (env₁ env₂ : Env) (s : Store) (m : EmailData)
    (hids : (s.rfps.map (fun r => r._id)).Nodup)
    (huniq : ∀ r v, (conversationsFor s r v).length ≤ 1)
    (h₁ : (processEmail env₁ s m).2 = true) :
    ∃ p₁, prepare env₁ s m = Except.ok p₁ ∧
      (conversationsFor (processEmail env₁ s m).1 p₁.matchedRFP._id p₁.vendor._id).length = 1 ∧
      (∀ p₂, prepare env₂ (processEmail env₁ s m).1 m = Except.ok p₂ →
        p₂.matchedRFP._id = p₁.matchedRFP._id ∧ p₂.vendor = p₁.vendor ∧
        ∃ c, p₂.existingConversation = some c ∧
          conversationsFor (processEmail env₁ s m).1 p₁.matchedRFP._id p₁.vendor._id = [c] ∧
          ((processEmail env₂ (processEmail env₁ s m).1 m).2 = true →
            conversationsFor (processEmail env₂ (processEmail env₁ s m).1 m).1
              p₁.matchedRFP._id p₁.vendor._id = [assignData c p₂.data])) ∧
      (conversationsFor (processEmail env₂ (processEmail env₁ s m).1 m).1
        p₁.matchedRFP._id p₁.vendor._id).length = 1 ∧
      (∀ r v, (conversationsFor (processEmail env₂ (processEmail env₁ s m).1 m).1 r v).length
        ≤ 1) ∧
      ((processEmail env₂ (processEmail env₁ s m).1 m).2 = false →
        (processEmail env₂ (processEmail env₁ s m).1 m).1 = (processEmail env₁ s m).1) ∧
      (processEmail env₁ (processEmail env₁ s m).1 m).2 = true := by
  cases hp : prepare env₁ s m with
  | error e =>
    rw [processEmail_of_prepare_error env₁ s m e hp] at h₁
    cases h₁
  | ok p₁ =>
    rw [processEmail_of_prepare_ok env₁ s m p₁ hp] at h₁ ⊢
    obtain ⟨hsave, _, hv, _⟩ := commit_true env₁ s p₁ h₁
    have hr := commit_rfps env₁ s p₁ h₁
    obtain ⟨ft, sj, _, hft, hsj, _, _, _, _, _, hm, _⟩ := (prepare_eq_ok_iff env₁ s m p₁).1 hp
    have hf := savedRFP_matchInvariant env₁ s hids p₁.matchedRFP (matchRFP_mem s _ _ _ hm).1
    obtain ⟨hc1, hcall⟩ := first_run_counts env₁ s m p₁ huniq hp h₁
    generalize (commit env₁ s p₁).1 = s₁ at hv hr hc1 hcall ⊢
    -- what a second run finds
    have hfind : ∀ (env : Env) (p₂ : Plan), prepare env s₁ m = Except.ok p₂ →
        p₂.matchedRFP._id = p₁.matchedRFP._id ∧ p₂.vendor = p₁.vendor ∧
        p₂.matchedRFP.status ≠ RFPStatus.sent ∧
        ∃ c, p₂.existingConversation = some c ∧
          conversationsFor s₁ p₁.matchedRFP._id p₁.vendor._id = [c] := by
      intro env p₂ h₂
      obtain ⟨e1, e2, e3⟩ := second_plan env₁ env s s₁ m _ p₁ p₂ hv hr hf hp h₂
      refine ⟨by rw [e1, savedRFP_id], e2, by rw [e1]; exact savedRFP_status_ne_sent _ _, ?_⟩
      rw [savedRFP_id, findConversation_eq_head] at e3
      obtain ⟨c, hc⟩ := List.length_eq_one.1 hc1
      exact ⟨c, by rw [e3, hc]; rfl, hc⟩
    refine ⟨p₁, rfl, hc1, ?_, ?_, ?_, ?_, ?_⟩
    · intro p₂ h₂
      obtain ⟨e1, e2, _, c, hex, hc⟩ := hfind env₂ p₂ h₂
      refine ⟨e1, e2, c, hex, hc, ?_⟩
      intro ht
      rw [processEmail_of_prepare_ok env₂ s₁ m p₂ h₂] at ht ⊢
      have hconv := (commit_true env₂ s₁ p₂ ht).2.1
      rw [conversationsFor_saved_existing env₂ s₁ _ p₂ c hex hconv, hc]
      simp
    · cases h₂ : prepare env₂ s₁ m with
      | error e => rw [processEmail_of_prepare_error env₂ s₁ m e h₂]; exact hc1
      | ok p₂ =>
        obtain ⟨_, _, _, c, hex, _⟩ := hfind env₂ p₂ h₂
        rw [processEmail_of_prepare_ok env₂ s₁ m p₂ h₂,
          length_conversationsFor_commit_existing env₂ s₁ p₂ c hex]
        exact hc1
    · intro r v
      cases h₂ : prepare env₂ s₁ m with
      | error e => rw [processEmail_of_prepare_error env₂ s₁ m e h₂]; exact hcall r v
      | ok p₂ =>
        obtain ⟨_, _, _, c, hex, _⟩ := hfind env₂ p₂ h₂
        rw [processEmail_of_prepare_ok env₂ s₁ m p₂ h₂,
          length_conversationsFor_commit_existing env₂ s₁ p₂ c hex]
        exact hcall r v
    · cases h₂ : prepare env₂ s₁ m with
      | error e => rw [processEmail_of_prepare_error env₂ s₁ m e h₂]; intro _; rfl
      | ok p₂ =>
        obtain ⟨_, _, hns, _⟩ := hfind env₂ p₂ h₂
        rw [processEmail_of_prepare_ok env₂ s₁ m p₂ h₂]
        exact (commit_of_not_sent env₂ s₁ p₂ hns).1
    · have h₂ := rerun_prepare env₁ s s₁ m _ p₁ hv hr hf hp
      rw [processEmail_of_prepare_ok env₁ s₁ m _ h₂]
      exact (commit_of_not_sent env₁ s₁ _ (savedRFP_status_ne_sent _ _)).2 hsave

/-- C1, witness: the reply without tag, processed twice. -/
theorem processEmail_idempotent_witness :
    ∃ p₁, prepare exEnv exStore (exMail "Re: RFP: IT Equipment") = Except.ok p₁ ∧
      (conversationsFor
        (processEmail exEnv (processEmail exEnv exStore (exMail "Re: RFP: IT Equipment")).1
          (exMail "Re: RFP: IT Equipment")).1 p₁.matchedRFP._id p₁.vendor._id).length = 1 ∧
      (processEmail exEnv (processEmail exEnv exStore (exMail "Re: RFP: IT Equipment")).1
        (exMail "Re: RFP: IT Equipment")).2 = true := by
  obtain ⟨p₁, h1, _, _, h4, _, _, h7⟩ :=
    processEmail_idempotent exEnv exEnv exStore (exMail "Re: RFP: IT Equipment")
      (by decide) (fun _ _ => Nat.zero_le 1) (by decide)
  exact ⟨p₁, h1, h4, h7⟩

/-! ## The retry loop of a scheduled run (C20) -/

theorem scheduledRun_non_network (fetchUnreadEmails : Nat → PollOutcome)
    (e₁ e₂ e₃ : PollError)
    (h₁ : fetchUnreadEmails 1 = PollOutcome.rejected e₁) (hn₁ : isNetworkError e₁ = false)
    (h₂ : fetchUnreadEmails 2 = PollOutcome.rejected e₂) (hn₂ : isNetworkError e₂ = false)
    (h₃ : fetchUnreadEmails 3 = PollOutcome.rejected e₃) (hn₃ : isNetworkError e₃ = false) :
    scheduledRun fetchUnreadEmails =
      [RunEvent.fetch 1, RunEvent.logError, RunEvent.logRetry 2, RunEvent.fetch 2,
        RunEvent.logError, RunEvent.logRetry 3, RunEvent.fetch 3, RunEvent.logError] := by
  simp [scheduledRun, retryLoop, h₁, h₂, h₃, hn₁, hn₂, hn₃]

/-- C20, the code at the failing input.  Every attempt fails with an
authentication error, which is not a network error; the run logs it and, with no
`break` in that branch, goes on to the next iteration: `fetchUnreadEmails` is
called three times, without any wait. -/
theorem scheduled_run_retries_auth_failure :
    isNetworkError ⟨some "AUTHENTICATIONFAILED".toList, some "Invalid credentials".toList⟩
        = false ∧
      scheduledRun exAuthFailure =
        [RunEvent.fetch 1, RunEvent.logError, RunEvent.logRetry 2, RunEvent.fetch 2,
          RunEvent.logError, RunEvent.logRetry 3, RunEvent.fetch 3, RunEvent.logError] ∧
      fetchCalls (scheduledRun exAuthFailure) = 3 := by
  decide

/-! ## The post-processing of the AI's answer (C16, C17, C18, C19) -/

theorem orNum_zero (a : ℚ) : orNum a 0 = a := by
  unfold orNum
  split
  · rename_i h
    exact h.symm
  · rfl

theorem orStr_ne_nil (a : Option Str) (b : Str) (hb : b ≠ []) : orStr a b ≠ [] := by
  unfold orStr
  split
  · simp
  · exact hb

theorem orStr_some_of_ne_nil (x b : Str) (hx : x ≠ []) : orStr (some x) b = x := by
  cases x with
  | nil => exact absurd rfl hx
  | cons c cs => rfl

theorem orStr_some_nil (x : Str) : orStr (some x) [] = x := by
  cases x <;> rfl

theorem foldl_add_eq_sum (f : RawItem → ℚ) (items : List RawItem) (acc : ℚ) :
    items.foldl (fun sum item => sum + f item) acc = acc + (items.map f).sum := by
  induction items generalizing acc with
  | nil => simp
  | cons a l ih =>
    rw [List.foldl_cons, ih, List.map_cons, List.sum_cons, add_assoc]

theorem rawItemTotal_eq (item : RawItem) :
    rawItemTotal item =
      if item.totalPrice.getD 0 ≠ 0 then item.totalPrice.getD 0 else rawProduct item := by
  unfold rawItemTotal
  rw [orNum_zero]
  unfold orNum
  by_cases h : item.totalPrice.getD 0 = 0 <;> simp [h]

theorem normalized_product (item : RawItem) :
    (normalizeItem item).quantity * (normalizeItem item).unitPrice = rawProduct item := by
  unfold normalizeItem rawProduct
  simp only [orNum_zero]
  cases item.quantity <;> cases item.unitPrice <;> simp

/-- C18.  An item normalized by lines 198-204 has a non-empty description (the
AI's description, else the legacy `name`, else 'Unknown Item'), a quantity and a
unit price that default to 0 and a specifications string that defaults to the
empty string; when the AI's item lacks a stated total (`totalPrice` absent or 0)
its `totalPrice` is `quantity * unitPrice`, which is 0 when a factor is absent. -/
theorem item_normalization (item : RawItem) :
    (item.totalPrice.getD 0 = 0 →
      (normalizeItem item).totalPrice =
          (normalizeItem item).quantity * (normalizeItem item).unitPrice ∧
        ((item.quantity = none ∨ item.unitPrice = none) →
          (normalizeItem item).totalPrice = 0)) ∧
    (item.totalPrice.getD 0 ≠ 0 → (normalizeItem item).totalPrice = item.totalPrice.getD 0) ∧
    (normalizeItem item).description ≠ [] ∧
    (normalizeItem item).description =
      orStr item.description (orStr item.name "Unknown Item".toList) ∧
    (normalizeItem item).quantity = item.quantity.getD 0 ∧
    (normalizeItem item).unitPrice = item.unitPrice.getD 0 ∧
    (normalizeItem item).specifications = item.specifications.getD [] := by
  refine ⟨?_, ?_, ?_, rfl, ?_, ?_, ?_⟩
  · intro h
    have ht : (normalizeItem item).totalPrice = rawProduct item := by
      show rawItemTotal item = rawProduct item
      rw [rawItemTotal_eq]
      simp [h]
    refine ⟨by rw [ht, normalized_product], ?_⟩
    intro habs
    rw [ht]
    unfold rawProduct
    rcases habs with hq | hu
    · rw [hq]
    · rw [hu]
      cases item.quantity <;> rfl
  · intro h
    show rawItemTotal item = _
    rw [rawItemTotal_eq]
    simp [h]
  · exact orStr_ne_nil _ _ (orStr_ne_nil _ _ (by decide))
  · show orNum (item.quantity.getD 0) 0 = _
    rw [orNum_zero]
  · show orNum (item.unitPrice.getD 0) 0 = _
    rw [orNum_zero]
  · show orStr item.specifications [] = _
    cases h : item.specifications with
    | none => rfl
    | some x => simp [orStr_some_nil]

/-- C18, witness: an item with a quantity and a unit price and no total. -/
theorem item_normalization_witness :
    (normalizeItem ⟨none, some "Desk".toList, some 3, some 50, none, none⟩).totalPrice =
      (normalizeItem ⟨none, some "Desk".toList, some 3, some 50, none, none⟩).quantity *
        (normalizeItem ⟨none, some "Desk".toList, some 3, some 50, none, none⟩).unitPrice :=
  ((item_normalization ⟨none, some "Desk".toList, some 3, some 50, none, none⟩).1 rfl).1

/-- C17.  For an AI output whose `totalCost` is zero or missing: the `totalCost`
`parseVendorResponse` returns is the regex-recovered value when that value is not
zero, whatever the items are; otherwise it is the sum over all items of the item
total, where the total of an item is its stated `totalPrice` when that is present
and not zero, else `quantity * unitPrice` when both are present, else 0. -/
theorem total_fallback_chain (emailContent : Str) (parsedData : RawQuote)
    (h0 : parsedData.totalCost.getD 0 = 0) :
    (∀ v, regexTotal emailContent = some v → v ≠ 0 →
      (postProcess emailContent parsedData).totalCost = v) ∧
    ((regexTotal emailContent = none ∨ regexTotal emailContent = some 0) →
      (postProcess emailContent parsedData).totalCost =
        ((parsedData.items.getD []).map rawItemTotal).sum) ∧
    (∀ item : RawItem, rawItemTotal item =
      if item.totalPrice.getD 0 ≠ 0 then item.totalPrice.getD 0
      else match item.quantity, item.unitPrice with
        | some quantity, some unitPrice => quantity * unitPrice
        | _, _ => 0) := by
  have htc : (postProcess emailContent parsedData).totalCost =
      afterItemsFallback (parsedData.items.getD []) (afterRegexFallback emailContent 0) := by
    show afterItemsFallback _ (afterRegexFallback emailContent (orNum _ 0)) = _
    rw [orNum_zero, h0]
  refine ⟨?_, ?_, ?_⟩
  · intro v hv hne
    rw [htc]
    simp [afterRegexFallback, afterItemsFallback, hv, hne]
  · intro hr
    rw [htc]
    have h1 : afterRegexFallback emailContent 0 = 0 := by
      rcases hr with hr | hr <;> simp [afterRegexFallback, hr]
    rw [h1]
    unfold afterItemsFallback
    cases hi : parsedData.items.getD [] with
    | nil => simp
    | cons a l =>
      simp only [List.length_cons, Nat.zero_lt_succ, decide_True, Bool.and_true,
        decide_eq_true_eq, if_true]
      rw [foldl_add_eq_sum, zero_add]
  · intro item
    rw [rawItemTotal_eq]
    rfl

/-- C17, witness: no total in the text; the total is the sum of the item totals. -/
theorem total_fallback_chain_witness :
    (postProcess "Two desks and a chair".toList
        ⟨some [⟨some "Desk".toList, none, some 2, some 100, none, none⟩,
          ⟨some "Chair".toList, none, none, none, some 50, none⟩], none, none, none, none,
          none⟩).totalCost =
      (([⟨some "Desk".toList, none, some 2, some 100, none, none⟩,
          ⟨some "Chair".toList, none, none, none, some 50, none⟩] : List RawItem).map
        rawItemTotal).sum :=
  (total_fallback_chain "Two desks and a chair".toList
    ⟨some [⟨some "Desk".toList, none, some 2, some 100, none, none⟩,
      ⟨some "Chair".toList, none, none, none, some 50, none⟩], none, none, none, none, none⟩
    rfl).2.1 (Or.inl (by decide))

theorem rawItemTotal_eq_zero (item : RawItem) (h : rawItemTotal item = 0) :
    rawProduct item = 0 := by
  rw [rawItemTotal_eq] at h
  by_cases ht : item.totalPrice.getD 0 = 0
  · simpa [ht] using h
  · simp [ht] at h

theorem normalizeItem_toRaw (item : RawItem) :
    normalizeItem ⟨some (normalizeItem item).description, none,
        some (normalizeItem item).quantity, some (normalizeItem item).unitPrice,
        some (normalizeItem item).totalPrice, some (normalizeItem item).specifications⟩ =
      normalizeItem item := by
  have hd : (normalizeItem item).description ≠ [] :=
    orStr_ne_nil _ _ (orStr_ne_nil _ _ (by decide))
  have ht : rawItemTotal ⟨some (normalizeItem item).description, none,
        some (normalizeItem item).quantity, some (normalizeItem item).unitPrice,
        some (normalizeItem item).totalPrice, some (normalizeItem item).specifications⟩ =
      (normalizeItem item).totalPrice := by
    rw [rawItemTotal_eq]
    simp only [Option.getD_some, rawProduct]
    by_cases h : (normalizeItem item).totalPrice = 0
    · rw [if_neg (by simpa using h), normalized_product, h]
      exact rawItemTotal_eq_zero item h
    · rw [if_pos h]
  show QuoteItem.mk _ _ _ _ _ = _
  simp only [Option.getD_some, orNum_zero, orStr_some_of_ne_nil _ _ hd, orStr_some_nil, ht]

theorem rawItemTotal_toRaw (item : RawItem) :
    rawItemTotal ⟨some (normalizeItem item).description, none,
        some (normalizeItem item).quantity, some (normalizeItem item).unitPrice,
        some (normalizeItem item).totalPrice, some (normalizeItem item).specifications⟩ =
      rawItemTotal item := by
  have := congrArg QuoteItem.totalPrice (normalizeItem_toRaw item)
  exact this

theorem afterRegexFallback_of_ne (emailContent : Str) (t : ℚ) (h : t ≠ 0) :
    afterRegexFallback emailContent t = t := by
  simp [afterRegexFallback, h]

theorem afterItemsFallback_of_ne (items : List RawItem) (t : ℚ) (h : t ≠ 0) :
    afterItemsFallback items t = t := by
  simp [afterItemsFallback, h]

theorem totalCost_rerun (emailContent : Str) (items : List RawItem) (t : ℚ) :
    afterItemsFallback
        (items.map (fun item => (⟨some (normalizeItem item).description, none,
          some (normalizeItem item).quantity, some (normalizeItem item).unitPrice,
          some (normalizeItem item).totalPrice, some (normalizeItem item).specifications⟩ :
            RawItem)))
        (afterRegexFallback emailContent
          (afterItemsFallback items (afterRegexFallback emailContent t))) =
      afterItemsFallback items (afterRegexFallback emailContent t) := by
  by_cases hT : afterItemsFallback items (afterRegexFallback emailContent t) = 0
  · -- the first run ended with 0: the same fallbacks run again and give 0 again
    have hr : afterRegexFallback emailContent t = 0 := by
      by_contra hne
      rw [afterItemsFallback_of_ne items _ hne] at hT
      exact hne hT
    have ht : t = 0 := by
      by_contra hne
      rw [afterRegexFallback_of_ne emailContent t hne] at hr
      exact hne hr
    subst ht
    rw [hT, hr]
    rw [hr] at hT
    unfold afterItemsFallback at hT ⊢
    simp only [List.length_map]
    by_cases hl : items.length > 0
    · simp only [hl, decide_True, Bool.and_true, decide_eq_true_eq, if_true] at hT ⊢
      rw [foldl_add_eq_sum] at hT ⊢
      rw [List.map_map]
      have : (rawItemTotal ∘ fun item => (⟨some (normalizeItem item).description, none,
          some (normalizeItem item).quantity, some (normalizeItem item).unitPrice,
          some (normalizeItem item).totalPrice, some (normalizeItem item).specifications⟩ :
            RawItem)) = rawItemTotal := by
        funext item
        exact rawItemTotal_toRaw item
      rw [this]
      exact hT
    · simp [hl]
  · rw [afterRegexFallback_of_ne emailContent _ hT, afterItemsFallback_of_ne _ _ hT]

/-- C19.  The post-processing of lines 163-206 is idempotent: applied, for the
same email text, to a value it has returned, it returns that value, with the same
items, `totalCost`, `deliveryTimeline`, `paymentTerms`, `warranty` and
`additionalInfo`. -/
theorem postProcess_idempotent (emailContent : Str) (parsedData : RawQuote) :
    postProcess emailContent (postProcess emailContent parsedData).toRaw =
      postProcess emailContent parsedData := by
  have hns : ("Not specified".toList : Str) ≠ [] := by decide
  unfold postProcess ParsedQuote.toRaw
  simp only [Option.getD_some, orNum_zero, List.map_map,
    orStr_some_of_ne_nil _ _ (orStr_ne_nil _ _ hns), orStr_some_nil]
  congr 1
  · apply List.map_congr_left
    intro item _
    exact normalizeItem_toRaw item
  · have := totalCost_rerun emailContent (parsedData.items.getD [])
      (parsedData.totalCost.getD 0)
    simpa only [List.map_map, Function.comp_def] using this

/-! ## The total the regular expression recovers (C16) -/

theorem amountAt_spec (s g rest : Str) (h : amountAt s = some (g, rest)) :
    s = g ++ rest ∧ amountAt g = some (g, []) ∧ g ≠ [] := by
  unfold amountAt at h
  cases s with
  | nil => simp at h
  | cons c cs =>
    simp only at h
    by_cases hc : isDigit c = true
    swap
    · simp [hc] at h
    rw [if_pos hc] at h
    have hcr : isDigitOrComma c = true := by simp [isDigitOrComma, hc]
    have hsplit := List.takeWhile_append_dropWhile isDigitOrComma (c :: cs)
    have hrunAll : ∀ a ∈ (c :: cs).takeWhile isDigitOrComma, isDigitOrComma a = true :=
      fun a ha => List.mem_takeWhile_imp ha
    have hrun : (c :: cs).takeWhile isDigitOrComma =
        c :: cs.takeWhile isDigitOrComma := by
      rw [List.takeWhile_cons_of_pos hcr]
    -- the amount pattern matches the run alone as a whole
    have hrunOnly : amountAt ((c :: cs).takeWhile isDigitOrComma) =
        some ((c :: cs).takeWhile isDigitOrComma, []) := by
      have h1 : ((c :: cs).takeWhile isDigitOrComma).takeWhile isDigitOrComma =
          (c :: cs).takeWhile isDigitOrComma := List.takeWhile_idem
      have h2 : ((c :: cs).takeWhile isDigitOrComma).dropWhile isDigitOrComma = [] :=
        List.dropWhile_eq_nil_iff.2 hrunAll
      rw [hrun] at h1 h2 ⊢
      unfold amountAt
      simp only [hc, if_true, h1, h2]
    cases hd : (c :: cs).dropWhile isDigitOrComma with
    | nil =>
      rw [hd] at h hsplit
      simp only [Option.some.injEq, Prod.mk.injEq] at h
      obtain ⟨hg, hr⟩ := h
      subst hg hr
      exact ⟨hsplit.symm, hrunOnly, by rw [hrun]; simp⟩
    | cons p ds =>
      cases ds with
      | nil =>
        rw [hd] at h hsplit
        simp only [Option.some.injEq, Prod.mk.injEq] at h
        obtain ⟨hg, hr⟩ := h
        subst hg hr
        exact ⟨hsplit.symm, hrunOnly, by rw [hrun]; simp⟩
      | cons d ds =>
        rw [hd] at h hsplit
        simp only at h
        by_cases hp : (p = '.' && isDigit d) = true
        · rw [if_pos hp] at h
          simp only [Option.some.injEq, Prod.mk.injEq] at h
          obtain ⟨hg, hr⟩ := h
          subst hg hr
          have hp' : p = '.' ∧ isDigit d = true := by simpa using hp
          have hpn : ¬ isDigitOrComma p = true := by
            rw [hp'.1]
            decide
          refine ⟨?_, ?_, by rw [hrun]; simp⟩
          · rw [List.append_assoc, List.cons_append, List.takeWhile_append_dropWhile]
            exact hsplit.symm
          · have h1 : ((c :: cs).takeWhile isDigitOrComma ++
                p :: (d :: ds).takeWhile isDigit).takeWhile isDigitOrComma =
                (c :: cs).takeWhile isDigitOrComma := by
              rw [List.takeWhile_append_of_pos hrunAll, List.takeWhile_cons_of_neg hpn,
                List.append_nil]
            have h2 : ((c :: cs).takeWhile isDigitOrComma ++
                p :: (d :: ds).takeWhile isDigit).dropWhile isDigitOrComma =
                p :: (d :: ds).takeWhile isDigit := by
              rw [List.dropWhile_append_of_pos hrunAll, List.dropWhile_cons_of_neg hpn]
            have h3 : (d :: ds).takeWhile isDigit = d :: ds.takeWhile isDigit :=
              List.takeWhile_cons_of_pos hp'.2
            have h4 : ((d :: ds).takeWhile isDigit).takeWhile isDigit =
                (d :: ds).takeWhile isDigit := List.takeWhile_idem
            have h5 : ((d :: ds).takeWhile isDigit).dropWhile isDigit = [] :=
              List.dropWhile_eq_nil_iff.2 (fun a ha => List.mem_takeWhile_imp ha)
            unfold amountAt
            rw [hrun] at h1 h2 ⊢
            simp only [List.cons_append, hc, if_true] at h1 h2 ⊢
            rw [h1, h2]
            rw [h3] at h4 h5 ⊢
            simp only [hp, if_true, h4, h5]
            rfl
        · rw [if_neg hp] at h
          simp only [Option.some.injEq, Prod.mk.injEq] at h
          obtain ⟨hg, hr⟩ := h
          subst hg hr
          exact ⟨hsplit.symm, hrunOnly, by rw [hrun]; simp⟩

theorem amountAt_none_of_not_digit (c : Char) (cs : Str) (h : isDigit c = false) :
    amountAt (c :: cs) = none := by
  simp [amountAt, h]

theorem amountMatch_append (pre g : Str) (hpre : ∀ c ∈ pre, isDigit c = false) :
    amountMatch (pre ++ g) = amountMatch g := by
  induction pre with
  | nil => rfl
  | cons c cs ih =>
    have hc := hpre c (List.mem_cons_self _ _)
    rw [List.cons_append, amountMatch, amountAt_none_of_not_digit c _ hc]
    exact ih (fun x hx => hpre x (List.mem_cons_of_mem _ hx))

theorem amountMatch_whole (g : Str) (h : amountAt g = some (g, [])) (hne : g ≠ []) :
    amountMatch g = some g := by
  cases g with
  | nil => exact absurd rfl hne
  | cons c cs => simp [amountMatch, h]

theorem toLower_of_isDigit (c : Char) (h : isDigit c = true) : c.toLower = c := by
  simp only [isDigit, Bool.and_eq_true, decide_eq_true_eq] at h
  unfold Char.toLower
  simp only
  rw [if_neg]
  omega

theorem not_isDigit_of_isWhiteSpace (c : Char) (h : isWhiteSpace c = true) :
    isDigit c = false := by
  simp only [isWhiteSpace, isLineTerminator, Bool.or_eq_true, Bool.and_eq_true,
    decide_eq_true_eq] at h
  simp only [isDigit, Bool.and_eq_false_iff, decide_eq_false_iff_not]
  omega

theorem not_isDigit_of_isSpaceOrColon (c : Char) (h : isSpaceOrColon c = true) :
    isDigit c = false := by
  simp only [isSpaceOrColon, Bool.or_eq_true, decide_eq_true_eq] at h
  rcases h with h | h
  · exact not_isDigit_of_isWhiteSpace c h
  · rw [h]
    decide

theorem not_isDigit_of_isCurrency (c : Char) (h : isCurrency c = true) :
    isDigit c = false := by
  simp only [isCurrency, Bool.or_eq_true, decide_eq_true_eq] at h
  simp only [isDigit, Bool.and_eq_false_iff, decide_eq_false_iff_not]
  omega

theorem stripLiteral_spec (literal s rest : Str) (hlit : ∀ c ∈ literal, isDigit c = false)
    (h : stripLiteral literal s = some rest) :
    ∃ pre, s = pre ++ rest ∧ ∀ c ∈ pre, isDigit c = false := by
  unfold stripLiteral at h
  split at h
  · rename_i heq
    injection h with h
    subst h
    refine ⟨s.take literal.length, (List.take_append_drop _ _).symm, ?_⟩
    intro c hc
    cases hd : isDigit c with
    | false => rfl
    | true =>
      have hmem : c.toLower ∈ toLowerCase (s.take literal.length) :=
        List.mem_map_of_mem _ hc
      rw [heq, toLower_of_isDigit c hd] at hmem
      rw [hlit c hmem] at hd
      cases hd
  · cases h

theorem stripTwoLiterals_spec (first second s rest : Str)
    (h1 : ∀ c ∈ first, isDigit c = false) (h2 : ∀ c ∈ second, isDigit c = false)
    (h : stripTwoLiterals first second s = some rest) :
    ∃ pre, s = pre ++ rest ∧ ∀ c ∈ pre, isDigit c = false := by
  unfold stripTwoLiterals at h
  cases hf : stripLiteral first s with
  | none => simp [hf] at h
  | some r1 =>
    simp only [hf] at h
    obtain ⟨p1, hs1, hp1⟩ := stripLiteral_spec first s r1 h1 hf
    obtain ⟨p2, hs2, hp2⟩ := stripLiteral_spec second _ rest h2 h
    refine ⟨p1 ++ r1.takeWhile isWhiteSpace ++ p2, ?_, ?_⟩
    · rw [hs1, List.append_assoc, List.append_assoc, ← hs2,
        List.takeWhile_append_dropWhile]
    · intro c hc
      simp only [List.mem_append] at hc
      rcases hc with (hc | hc) | hc
      · exact hp1 c hc
      · exact not_isDigit_of_isWhiteSpace c (List.mem_takeWhile_imp hc)
      · exact hp2 c hc

theorem totalTailAt_spec (s g rest : Str) (h : totalTailAt s = some (g, rest)) :
    ∃ pre, s = pre ++ g ++ rest ∧ (∀ c ∈ pre, isDigit c = false) ∧
      amountAt g = some (g, []) ∧ g ≠ [] := by
  unfold totalTailAt at h
  have hsplit := List.takeWhile_append_dropWhile isSpaceOrColon s
  have hsep : ∀ c ∈ s.takeWhile isSpaceOrColon, isDigit c = false :=
    fun c hc => not_isDigit_of_isSpaceOrColon c (List.mem_takeWhile_imp hc)
  cases hd : s.dropWhile isSpaceOrColon with
  | nil => simp [hd] at h
  | cons c cs =>
    rw [hd] at h hsplit
    simp only at h
    by_cases hcur : isCurrency c = true
    · rw [if_pos hcur] at h
      obtain ⟨hs, hg, hne⟩ := amountAt_spec _ g rest h
      refine ⟨s.takeWhile isSpaceOrColon ++ c :: cs.takeWhile isWhiteSpace, ?_, ?_, hg, hne⟩
      · have e : cs = cs.takeWhile isWhiteSpace ++ (g ++ rest) := by
          rw [← hs, List.takeWhile_append_dropWhile]
        calc s = s.takeWhile isSpaceOrColon ++ c :: cs := hsplit.symm
          _ = s.takeWhile isSpaceOrColon ++ c :: (cs.takeWhile isWhiteSpace ++ (g ++ rest)) := by
            rw [← e]
          _ = _ := by simp only [List.append_assoc, List.cons_append]
      · intro x hx
        simp only [List.mem_append, List.mem_cons] at hx
        rcases hx with hx | hx | hx
        · exact hsep x hx
        · rw [hx]
          exact not_isDigit_of_isCurrency c hcur
        · exact not_isDigit_of_isWhiteSpace x (List.mem_takeWhile_imp hx)
    · rw [if_neg hcur] at h
      obtain ⟨hs, hg, hne⟩ := amountAt_spec _ g rest h
      refine ⟨s.takeWhile isSpaceOrColon, ?_, hsep, hg, hne⟩
      rw [List.append_assoc, ← hs]
      exact hsplit.symm

theorem keywordAlternatives_spec (s r : Str) (h : some r ∈ keywordAlternatives s) :
    ∃ pre, s = pre ++ r ∧ ∀ c ∈ pre, isDigit c = false := by
  unfold keywordAlternatives at h
  simp only [List.mem_cons, List.mem_singleton, List.not_mem_nil, or_false] at h
  rcases h with h | h | h | h | h
  · exact stripLiteral_spec _ s r (by decide) h.symm
  · exact stripTwoLiterals_spec _ _ s r (by decide) (by decide) h.symm
  · exact stripTwoLiterals_spec _ _ s r (by decide) (by decide) h.symm
  · exact stripTwoLiterals_spec _ _ s r (by decide) (by decide) h.symm
  · exact stripLiteral_spec _ s r (by decide) h.symm

theorem firstTotalMatch_spec (s : Str) (alternatives : List (Option Str))
    (halt : ∀ r, some r ∈ alternatives → ∃ pre, s = pre ++ r ∧ ∀ c ∈ pre, isDigit c = false)
    (g rest : Str) (h : firstTotalMatch alternatives = some (g, rest)) :
    ∃ pre, s = pre ++ g ++ rest ∧ (∀ c ∈ pre, isDigit c = false) ∧
      amountAt g = some (g, []) ∧ g ≠ [] := by
  induction alternatives with
  | nil => simp [firstTotalMatch] at h
  | cons a alternatives ih =>
    have halt' : ∀ r, some r ∈ alternatives →
        ∃ pre, s = pre ++ r ∧ ∀ c ∈ pre, isDigit c = false :=
      fun r hr => halt r (List.mem_cons_of_mem _ hr)
    cases a with
    | none => exact ih halt' (by simpa [firstTotalMatch] using h)
    | some r =>
      unfold firstTotalMatch at h
      cases ht : totalTailAt r with
      | none =>
        rw [ht] at h
        exact ih halt' h
      | some m =>
        rw [ht] at h
        simp only [Option.some.injEq] at h
        subst h
        obtain ⟨p1, hs1, hp1⟩ := halt r (List.mem_cons_self _ _)
        obtain ⟨p2, hs2, hp2, hg, hne⟩ := totalTailAt_spec r g rest ht
        refine ⟨p1 ++ p2, ?_, ?_, hg, hne⟩
        · rw [hs1, hs2]
          simp only [List.append_assoc]
        · intro c hc
          rw [List.mem_append] at hc
          rcases hc with hc | hc
          · exact hp1 c hc
          · exact hp2 c hc

theorem totalMatchAt_spec (s text g : Str) (h : totalMatchAt s = some (text, g)) :
    amountMatch text = some g := by
  unfold totalMatchAt at h
  cases hf : firstTotalMatch (keywordAlternatives s) with
  | none => simp [hf] at h
  | some m =>
    obtain ⟨g', rest⟩ := m
    rw [hf] at h
    simp only [Option.some.injEq, Prod.mk.injEq] at h
    obtain ⟨htext, hg⟩ := h
    subst hg
    obtain ⟨pre, hs, hpre, hamt, hne⟩ :=
      firstTotalMatch_spec s _ (keywordAlternatives_spec s) g' rest hf
    have ht : text = pre ++ g' := by
      rw [← htext]
      have hlen : s.length - rest.length = (pre ++ g').length := by
        rw [hs]
        simp only [List.length_append]
        omega
      rw [hlen, hs]
      exact List.take_left' rfl
    rw [ht, amountMatch_append pre g' hpre]
    exact amountMatch_whole g' hamt hne

theorem totalMatches_spec (s : Str) (skip : Nat) :
    ∀ x ∈ totalMatches s skip, amountMatch x.1 = some x.2 := by
  induction s generalizing skip with
  | nil => simp [totalMatches]
  | cons c cs ih =>
    cases skip with
    | succ k =>
      intro x hx
      rw [totalMatches] at hx
      exact ih k x hx
    | zero =>
      intro x hx
      rw [totalMatches] at hx
      cases hm : totalMatchAt (c :: cs) with
      | none =>
        rw [hm] at hx
        exact ih 0 x hx
      | some m =>
        obtain ⟨text, g⟩ := m
        rw [hm] at hx
        simp only [List.mem_cons] at hx
        rcases hx with hx | hx
        · rw [hx]
          exact totalMatchAt_spec _ text g hm
        · exact ih _ x hx

theorem regexTotal_of_last (emailContent lastMatch group : Str)
    (hlast : (totalMatches emailContent 0).getLast? = some (lastMatch, group)) :
    regexTotal emailContent = some (amountValue group) := by
  have hmem := List.mem_of_getLast?_eq_some hlast
  have := totalMatches_spec emailContent 0 _ hmem
  simp only at this
  unfold regexTotal regexTotalGroup
  rw [hlast]
  simp only [this, Option.map_some']

/-- C16.  For an AI output whose `totalCost` is zero or missing and a text in
which the total pattern occurs, let `group` be the number text of its last
occurrence.  The regular expression recovers the numeric value of `group` with
its commas removed, line 180 sets `totalCost` to that value, and it is the
`totalCost` returned when it is not zero. -/
theorem regex_total_recovery (emailContent : Str) (parsedData : RawQuote)
    (lastMatch group : Str)
    (h0 : parsedData.totalCost.getD 0 = 0)
    (hlast : (totalMatches emailContent 0).getLast? = some (lastMatch, group)) :
    regexTotal emailContent = some (parseFloat (group.filter (fun c => c ≠ ','))) ∧
    afterRegexFallback emailContent (orNum (parsedData.totalCost.getD 0) 0) =
      parseFloat (group.filter (fun c => c ≠ ',')) ∧
    (parseFloat (group.filter (fun c => c ≠ ',')) ≠ 0 →
      (postProcess emailContent parsedData).totalCost =
        parseFloat (group.filter (fun c => c ≠ ','))) := by
  have hr := regexTotal_of_last emailContent lastMatch group hlast
  rw [amountValue] at hr
  have h1 : afterRegexFallback emailContent 0 =
      parseFloat (group.filter (fun c => c ≠ ',')) := by
    unfold afterRegexFallback
    rw [if_pos rfl, hr]
  refine ⟨hr, ?_, ?_⟩
  · rw [orNum_zero, h0, h1]
  · intro hne
    show afterItemsFallback _ (afterRegexFallback emailContent (orNum _ 0)) = _
    rw [orNum_zero, h0, h1, afterItemsFallback_of_ne _ _ hne]

/-- C16, witness: the body "Total: $29,250" with the AI returning 0 gives 29250. -/
theorem regex_total_recovery_witness :
    (postProcess "Total: $29,250".toList
      ⟨none, some 0, none, none, none, none⟩).totalCost = 29250 := by
  have hv : parseFloat ("29,250".toList.filter (fun c => c ≠ ',')) = 29250 := by
    have h2 : parseFloatParts ("29,250".toList.filter (fun c => c ≠ ',')) = (29250, 0) := by
      decide
    rw [parseFloat, h2]
    norm_num
  have h := (regex_total_recovery "Total: $29,250".toList
    ⟨none, some 0, none, none, none, none⟩ "Total: $29,250".toList "29,250".toList
    rfl (by decide)).2.2
  rw [hv] at h
  exact h (by norm_num)

/-! ## The status advance of the first reply (C15) -/

/-- C15.  Let the RFP ids of the store be distinct.  After a run of
`processEmail` that returns true, having persisted a Conversation for the RFP
`R` it matched, the RFP collection is the old one, document by document, with
`R` in status responses_received if it was in status sent and with `R` unchanged
if it was in any other status; every other RFP is unchanged. -/
theorem first_reply_status_advance (env : Env) (s : Store) (m : EmailData) (p : Plan)
    (hids : (s.rfps.map (fun r => r._id)).Nodup)
    (hp : prepare env s m = Except.ok p)
    (ht : (processEmail env s m).2 = true) :
    p.matchedRFP ∈ s.rfps ∧
    (processEmail env s m).1.conversations = saveConversation env s p ∧
    (processEmail env s m).1.rfps = s.rfps.map (savedRFP env p.matchedRFP) ∧
    (p.matchedRFP.status = RFPStatus.sent →
      (savedRFP env p.matchedRFP p.matchedRFP).status = RFPStatus.responses_received) ∧
    (p.matchedRFP.status ≠ RFPStatus.sent →
      savedRFP env p.matchedRFP p.matchedRFP = p.matchedRFP) ∧
    (∀ rfp ∈ s.rfps, rfp ≠ p.matchedRFP → savedRFP env p.matchedRFP rfp = rfp) := by
  obtain ⟨_, _, _, _, _, _, _, _, _, _, hm, _⟩ := (prepare_eq_ok_iff env s m p).1 hp
  have hmem := (matchRFP_mem s _ _ _ hm).1
  rw [processEmail_of_prepare_ok env s m p hp] at ht ⊢
  refine ⟨hmem, (commit_true env s p ht).2.1, commit_rfps env s p ht, ?_, ?_, ?_⟩
  · intro hs
    simp [savedRFP, hs]
  · intro hs
    simp [savedRFP, hs]
  · intro rfp hr hne
    unfold savedRFP
    rw [if_neg]
    intro hc
    exact hne (rfp_eq_of_id s hids rfp p.matchedRFP hr hmem hc.2)

/-- C15, witness: the first reply for B; A keeps status sent. -/
theorem first_reply_status_advance_witness :
    (processEmail exEnv exStore (exMail "Re: RFP: IT Equipment")).1.rfps =
      exStore.rfps.map (savedRFP exEnv exRfpB) :=
  (first_reply_status_advance exEnv exStore (exMail "Re: RFP: IT Equipment")
    ⟨exRfpB, exVendor, none,
      conversationData exEnv "Re: RFP: IT Equipment".toList "Total: 29250".toList (some 3)
        exQuote⟩
    (by decide) rfl (by decide)).2.2.1

/-! ## Accepting a Conversation (C11, C12) -/

theorem acceptAssignments_foldl (conversation : Conversation) (proposal : Proposal) :
    (acceptAssignments conversation).foldl assignProposal proposal =
      { proposal with
        status := ProposalStatus.parsed
        emailContent := some conversation.emailContent
        parsedData := some (acceptParsedData conversation.parsedData)
        receivedAt := some conversation.receivedAt
        parsedAt := conversation.parsedAt } := rfl

/-- C11, the code at the failing input.  The Proposal of the pair carries an AI
evaluation with score 85; the Conversation of the pair is accepted with response
200; the saved Proposal has status parsed and still carries that evaluation,
because lines 69-70 assign `evaluation` and `aiScore`, which are not paths of the
schema, instead of `aiEvaluation`. -/
theorem accept_keeps_stale_evaluation :
    (acceptConversation exRouteEnv exDatabase 50).2 = 200 ∧
      (acceptConversation exRouteEnv exDatabase 50).1.proposals.map
          (fun p => (p.status, p.aiEvaluation)) =
        [(ProposalStatus.parsed,
          some ⟨85, ["Low price".toList], ["Slow delivery".toList], "Accept".toList⟩)] := by
  decide

theorem findProposal_eq_head (db : Database) (r v : ObjectId) :
    findProposal db r v = (proposalsFor db.proposals r v).head? := by
  unfold findProposal proposalsFor
  rw [List.filter_head?]

theorem proposal_eq_of_id (proposals : List Proposal)
    (hids : (proposals.map (fun p => p._id)).Nodup) (p q : Proposal)
    (hp : p ∈ proposals) (hq : q ∈ proposals) (h : p._id = q._id) : p = q :=
  List.inj_on_of_nodup_map hids hp hq h

theorem filter_saveProposal (proposals : List Proposal)
    (hids : (proposals.map (fun p => p._id)).Nodup) (p p' : Proposal) (hp : p ∈ proposals)
    (hid : p'._id = p._id) (P : Proposal → Bool) (hP : P p' = P p) :
    (saveProposal proposals p').filter P =
      (proposals.filter P).map (fun q => if q._id = p'._id then p' else q) := by
  unfold saveProposal
  rw [List.filter_map]
  congr 1
  apply List.filter_congr
  intro q hq
  simp only [Function.comp]
  split
  · rename_i h
    have : q = p := proposal_eq_of_id proposals hids q p hq hp (h.trans hid)
    rw [this, hP]
  · rfl

theorem saveProposal_ids (proposals : List Proposal) (p' : Proposal) :
    (saveProposal proposals p').map (fun q => q._id) = proposals.map (fun q => q._id) := by
  unfold saveProposal
  rw [List.map_map]
  apply List.map_congr_left
  intro q _
  simp only [Function.comp]
  split
  · rename_i h
    exact h.symm
  · rfl

/-- C12.  Let the Proposal ids of a database be distinct and let it hold at most
one Proposal per (RFP, vendor) pair.  After an accept of a Conversation `c` that
responds 200, the database holds exactly one Proposal for the pair of `c`: the
existing one, updated in place with status parsed and the `emailContent`,
`parsedData`, `receivedAt` and `parsedAt` of `c` (its `_id` and the order of the
collection kept), or a new one appended when the pair had none; the Proposals of
every other pair are unchanged. -/
theorem accept_never_duplicates (env : RouteEnv) (db : Database) (conversationId : ObjectId)
    (c : Conversation)
    (hids : (db.proposals.map (fun p => p._id)).Nodup)
    (huniq : ∀ r v, (proposalsFor db.proposals r v).length ≤ 1)
    (hc : db.conversations.find? (fun x => x._id = conversationId) = some c)
    (hok : (acceptConversation env db conversationId).2 = 200) :
    (proposalsFor (acceptConversation env db conversationId).1.proposals
      c.rfpId c.vendorId).length = 1 ∧
    (∀ p, findProposal db c.rfpId c.vendorId = some p →
      proposalsFor (acceptConversation env db conversationId).1.proposals
          c.rfpId c.vendorId =
        [{ p with
            status := ProposalStatus.parsed
            emailContent := some c.emailContent
            parsedData := some (acceptParsedData c.parsedData)
            receivedAt := some c.receivedAt
            parsedAt := c.parsedAt }] ∧
      (acceptConversation env db conversationId).1.proposals.map (fun q => q._id) =
        db.proposals.map (fun q => q._id)) ∧
    (findProposal db c.rfpId c.vendorId = none →
      (acceptConversation env db conversationId).1.proposals =
        db.proposals ++ [newProposal env c]) ∧
    (∀ r v, ¬ (r = c.rfpId ∧ v = c.vendorId) →
      proposalsFor (acceptConversation env db conversationId).1.proposals r v =
        proposalsFor db.proposals r v) := by
  have hacc : c.status ≠ ConversationStatus.accepted := by
    intro h
    simp [acceptConversation, hc, h] at hok
  have hprops : (acceptConversation env db conversationId).1.proposals =
      acceptProposals env db c := by
    simp [acceptConversation, hc, hacc]
  rw [hprops]
  unfold acceptProposals
  cases hf : findProposal db c.rfpId c.vendorId with
  | some p =>
    simp only [acceptAssignments_foldl]
    have hhead := findProposal_eq_head db c.rfpId c.vendorId
    rw [hf] at hhead
    have hlist : proposalsFor db.proposals c.rfpId c.vendorId = [p] := by
      have h1 := huniq c.rfpId c.vendorId
      cases hl : proposalsFor db.proposals c.rfpId c.vendorId with
      | nil => rw [hl] at hhead; cases hhead
      | cons a l =>
        rw [hl] at hhead h1
        cases l with
        | nil =>
          simp only [List.head?_cons, Option.some.injEq] at hhead
          rw [hhead]
        | cons b l' => simp at h1
    have hpmem : p ∈ proposalsFor db.proposals c.rfpId c.vendorId := by
      rw [hlist]
      simp
    have hpin : p ∈ db.proposals := (List.mem_filter.1 hpmem).1
    have hppair : p.rfpId = c.rfpId ∧ p.vendorId = c.vendorId := by
      simpa using (List.mem_filter.1 hpmem).2
    obtain ⟨p', hp'⟩ : ∃ p' : Proposal, p' =
        { p with
          status := ProposalStatus.parsed
          emailContent := some c.emailContent
          parsedData := some (acceptParsedData c.parsedData)
          receivedAt := some c.receivedAt
          parsedAt := c.parsedAt } := ⟨_, rfl⟩
    rw [← hp']
    have hid' : p'._id = p._id := by rw [hp']
    have hfil : ∀ r v, proposalsFor (saveProposal db.proposals p') r v =
        (proposalsFor db.proposals r v).map (fun q => if q._id = p'._id then p' else q) := by
      intro r v
      exact filter_saveProposal db.proposals hids p p' hpin hid' _ (by rw [hp'])
    have hpair : proposalsFor (saveProposal db.proposals p') c.rfpId c.vendorId = [p'] := by
      rw [hfil, hlist]
      simp [hid']
    refine ⟨by rw [hpair]; rfl, ?_, ?_, ?_⟩
    · intro q hq
      injection hq with hq
      subst hq
      rw [← hp']
      exact ⟨hpair, saveProposal_ids db.proposals p'⟩
    · intro h
      cases h
    · intro r v hne
      rw [hfil]
      conv_rhs => rw [← List.map_id (proposalsFor db.proposals r v)]
      apply List.map_congr_left
      intro q hq
      have hqin : q ∈ db.proposals := (List.mem_filter.1 hq).1
      have hqpair : q.rfpId = r ∧ q.vendorId = v := by
        simpa using (List.mem_filter.1 hq).2
      rw [if_neg]
      · rfl
      · intro hid
        have : q = p := proposal_eq_of_id db.proposals hids q p hqin hpin (hid.trans hid')
        subst this
        exact hne ⟨hqpair.1.symm.trans hppair.1, hqpair.2.symm.trans hppair.2⟩
  | none =>
    have hhead := findProposal_eq_head db c.rfpId c.vendorId
    rw [hf] at hhead
    have hnil : proposalsFor db.proposals c.rfpId c.vendorId = [] := by
      cases hl : proposalsFor db.proposals c.rfpId c.vendorId with
      | nil => rfl
      | cons a l => rw [hl] at hhead; cases hhead
    refine ⟨?_, ?_, fun _ => rfl, ?_⟩
    · unfold proposalsFor at hnil ⊢
      rw [List.filter_append, hnil]
      simp [newProposal]
    · intro p hp
      cases hp
    · intro r v hne
      unfold proposalsFor
      rw [List.filter_append]
      have : ([newProposal env c].filter (fun p => p.rfpId = r && p.vendorId = v)) = [] := by
        simp only [List.filter_cons, List.filter_nil, newProposal]
        rw [if_neg]
        intro h
        simp only [Bool.and_eq_true, decide_eq_true_eq] at h
        exact hne ⟨h.1.symm, h.2.symm⟩
      rw [this, List.append_nil]

/-- C12, witness: the revised reply of the spec's scenario is accepted. -/
theorem accept_never_duplicates_witness :
    (proposalsFor (acceptConversation exRouteEnv exDatabase 50).1.proposals
      exConversation.rfpId exConversation.vendorId).length = 1 :=
  (accept_never_duplicates exRouteEnv exDatabase 50 exConversation (by decide)
    (fun r v => by
      unfold proposalsFor exDatabase
      simp only [List.filter_cons, List.filter_nil]
      split <;> simp)
    (by decide) (by decide)).1

/-! ## The status rule of the evaluation (C14) -/

theorem mem_saveProposal_of_ne (proposals : List Proposal) (p' q : Proposal)
    (hq : q ∈ proposals) (hne : q._id ≠ p'._id) : q ∈ saveProposal proposals p' := by
  unfold saveProposal
  rw [List.mem_map]
  exact ⟨q, hq, by rw [if_neg hne]⟩

theorem applyEvaluations_count (rfpId : ObjectId) (found : List Proposal) :
    ∀ (stored : List Proposal) (es : List AIEvaluation),
      (stored.map (fun p => p._id)).Nodup → (found.map (fun p => p._id)).Nodup →
      (∀ q ∈ found, q ∈ stored ∧ q.rfpId = rfpId ∧ isResponded q.status = true) →
      (respondedProposals (applyEvaluations stored found es) rfpId).length =
        (respondedProposals stored rfpId).length := by
  induction found with
  | nil =>
    intro stored es _ _ _
    cases es <;> rfl
  | cons p ps ih =>
    intro stored es hs hf hall
    cases es with
    | nil => rfl
    | cons e es =>
      rw [applyEvaluations]
      have hp := hall p (List.mem_cons_self _ _)
      rw [List.map_cons, List.nodup_cons] at hf
      by_cases hv : validScore e = true
      · rw [if_pos hv]
        rw [ih _ es (by rw [saveProposal_ids]; exact hs) hf.2]
        · unfold respondedProposals
          rw [filter_saveProposal stored hs p
            { p with aiEvaluation := some e, status := ProposalStatus.evaluated } hp.1 rfl
            (fun q => decide (q.rfpId = rfpId) && isResponded q.status)
            (by simp only [hp.2.2]; rfl), List.length_map]
        · intro q hq
          have hq' := hall q (List.mem_cons_of_mem _ hq)
          refine ⟨mem_saveProposal_of_ne stored _ q hq'.1 ?_, hq'.2⟩
          intro hid
          apply hf.1
          rw [List.mem_map]
          exact ⟨q, hq, hid⟩
      · rw [if_neg hv]
        exact ih stored es hs hf.2
          (fun q hq => hall q (List.mem_cons_of_mem _ hq))

theorem findById_saveStatus (now : Nat) (rfps : List RFP) (id : ObjectId)
    (status : RFPStatus) (rfp : RFP) (h : rfps.find? (fun r => r._id = id) = some rfp) :
    (saveStatus now rfps rfp._id status).find? (fun r => r._id = id) =
      some { rfp with status := status, updatedAt := now } := by
  have hid : rfp._id = id := by simpa using List.find?_some h
  unfold saveStatus
  rw [List.find?_map]
  have : ((fun r : RFP => decide (r._id = id)) ∘ fun r : RFP =>
      if r._id = rfp._id then { r with status := status, updatedAt := now } else r) =
      fun r => decide (r._id = id) := by
    funext r
    simp only [Function.comp]
    split <;> rfl
  rw [this, h]
  simp

/-- C14.  Let the Proposal ids of the database be distinct.  For an RFP in status
responses_received, after an evaluation that responds 200 the number `n` of its
Proposals with status parsed or evaluated is what it was before, and it is not 0;
the RFP has status evaluated if `n` is at least the number of its recipients
(`sentTo`), and still has status responses_received otherwise. -/
theorem evaluation_status_rule (env : RouteEnv) (db : Database) (rfpId : ObjectId) (rfp : RFP)
    (hids : (db.proposals.map (fun p => p._id)).Nodup)
    (hfind : findById db.toStore rfpId = some rfp)
    (hst : rfp.status = RFPStatus.responses_received)
    (hok : (evaluateRFP env db rfpId).2 = 200) :
    (respondedProposals (evaluateRFP env db rfpId).1.proposals rfpId).length =
      (respondedProposals db.proposals rfpId).length ∧
    0 < (respondedProposals db.proposals rfpId).length ∧
    ((respondedProposals db.proposals rfpId).length ≥ rfp.sentTo.length →
      findById (evaluateRFP env db rfpId).1.toStore rfpId =
        some { rfp with status := RFPStatus.evaluated, updatedAt := env.now }) ∧
    ((respondedProposals db.proposals rfpId).length < rfp.sentTo.length →
      findById (evaluateRFP env db rfpId).1.toStore rfpId =
        some { rfp with status := RFPStatus.responses_received, updatedAt := env.now }) := by
  unfold evaluateRFP at hok ⊢
  rw [hfind] at hok ⊢
  simp only at hok ⊢
  by_cases hemp : (respondedProposals db.proposals rfpId).isEmpty = true
  · simp [hemp] at hok
  rw [if_neg hemp] at hok ⊢
  cases hev : env.evaluateProposals (respondedProposals db.proposals rfpId) with
  | none => simp [hev] at hok
  | some evaluation =>
    rw [hev] at hok
    simp only at hok ⊢
    by_cases hbad : (decide (evaluation.evaluations.length <
          (respondedProposals db.proposals rfpId).length) ||
        !(evaluation.evaluations.take (respondedProposals db.proposals rfpId).length).all
          validScore) = true
    · rw [if_pos hbad] at hok
      simp at hok
    rw [if_neg hbad]
    have hcount := applyEvaluations_count rfpId (respondedProposals db.proposals rfpId)
      db.proposals evaluation.evaluations hids
      ((List.filter_sublist _).map _ |>.nodup hids)
      (fun q hq => by
        have := List.mem_filter.1 hq
        have h2 : q.rfpId = rfpId ∧ isResponded q.status = true := by simpa using this.2
        exact ⟨this.1, h2⟩)
    have hpos : 0 < (respondedProposals db.proposals rfpId).length := by
      cases hl : respondedProposals db.proposals rfpId with
      | nil => rw [hl] at hemp; simp at hemp
      | cons a l => simp
    refine ⟨hcount, hpos, ?_, ?_⟩
    · intro hge
      simp only [findById]
      rw [hcount, if_pos hge]
      exact findById_saveStatus env.now db.rfps rfpId _ rfp hfind
    · intro hlt
      simp only [findById]
      rw [hcount, if_neg (by omega), hst]
      have := findById_saveStatus env.now db.rfps rfpId RFPStatus.responses_received rfp hfind
      rw [this]

/-- C14, witness: the single recipient of B has responded; B becomes evaluated. -/
theorem evaluation_status_rule_witness :
    findById (evaluateRFP exRouteEnv exDatabase 11).1.toStore 11 =
      some { exRfpB with status := RFPStatus.evaluated, updatedAt := 9 } :=
  (evaluation_status_rule exRouteEnv exDatabase 11
    { exRfpB with status := RFPStatus.responses_received }
    (by decide) (by decide) rfl (by decide)).2.2.1 (by decide)

/-! ## The direction of the RFP status (C13) -/

theorem statusForward_map (l : List RFP) (f : RFP → RFP)
    (h : ∀ r ∈ l, (f r)._id = r._id ∧ statusRank r.status ≤ statusRank (f r).status) :
    statusForward l (l.map f) = true := by
  unfold statusForward
  rw [List.length_map, Bool.and_eq_true]
  refine ⟨by simp, ?_⟩
  induction l with
  | nil => rfl
  | cons a l ih =>
    rw [List.map_cons, List.zip_cons_cons, List.all_cons, Bool.and_eq_true]
    refine ⟨?_, ih (fun r hr => h r (List.mem_cons_of_mem _ hr))⟩
    have := h a (List.mem_cons_self _ _)
    simp [this.1, this.2]

theorem statusForward_refl (l : List RFP) : statusForward l l = true := by
  have := statusForward_map l id (fun r _ => ⟨rfl, Nat.le_refl _⟩)
  rwa [List.map_id] at this

theorem statusForward_saveStatus (now : Nat) (rfps : List RFP)
    (hids : (rfps.map (fun r => r._id)).Nodup) (rfp : RFP) (hmem : rfp ∈ rfps)
    (status : RFPStatus) (hle : statusRank rfp.status ≤ statusRank status) :
    statusForward rfps (saveStatus now rfps rfp._id status) = true := by
  unfold saveStatus
  apply statusForward_map
  intro r hr
  split
  · rename_i hid
    have : r = rfp := List.inj_on_of_nodup_map hids hr hmem hid
    subst this
    exact ⟨rfl, hle⟩
  · exact ⟨rfl, Nat.le_refl _⟩

theorem commit_rfps_cases (env : Env) (s : Store) (p : Plan) :
    (commit env s p).1.rfps = s.rfps ∨
      (p.matchedRFP.status = RFPStatus.sent ∧
        (commit env s p).1.rfps =
          saveStatus env.now s.rfps p.matchedRFP._id RFPStatus.responses_received) := by
  unfold commit
  by_cases h1 : env.dbRejects DbCall.conversationSave = true
  · simp [h1]
  · by_cases h2 : p.matchedRFP.status = RFPStatus.sent
    · by_cases h3 : env.dbRejects DbCall.rfpSave = true
      · simp [h1, h2, h3]
      · right
        simp [h1, h2, h3, saveRFPStatus, saveStatus]
    · simp [h1, h2]

theorem processEmail_statusForward (env : Env) (s : Store) (m : EmailData)
    (hids : (s.rfps.map (fun r => r._id)).Nodup) :
    statusForward s.rfps (processEmail env s m).1.rfps = true := by
  cases hp : prepare env s m with
  | error e =>
    rw [processEmail_of_prepare_error env s m e hp]
    exact statusForward_refl _
  | ok p =>
    rw [processEmail_of_prepare_ok env s m p hp]
    obtain ⟨_, _, _, _, _, _, _, _, _, _, hm, _⟩ := (prepare_eq_ok_iff env s m p).1 hp
    rcases commit_rfps_cases env s p with h | ⟨hs, h⟩
    · rw [h]
      exact statusForward_refl _
    · rw [h]
      apply statusForward_saveStatus env.now s.rfps hids p.matchedRFP (matchRFP_mem s _ _ _ hm).1
      rw [hs]
      decide

theorem recordResponse_statusForward (env : RouteEnv) (db : Database)
    (hids : (db.rfps.map (fun r => r._id)).Nodup) (proposal : Proposal) (rfp : RFP)
    (hmem : rfp ∈ db.rfps) (content : Str) (parsedData : ParsedQuote) :
    statusForward db.rfps (recordResponse env db proposal rfp content parsedData).rfps
      = true := by
  unfold recordResponse
  simp only
  split
  · rename_i hs
    apply statusForward_saveStatus env.now db.rfps hids rfp hmem
    rw [hs]
    decide
  · exact statusForward_refl _

theorem inboundWebhook_statusForward (env : RouteEnv) (db : Database)
    (hids : (db.rfps.map (fun r => r._id)).Nodup) (body : InboundEmail) :
    statusForward db.rfps (inboundWebhook env db body).1.rfps = true := by
  unfold inboundWebhook
  simp only
  split
  · exact statusForward_refl _
  · split
    · exact statusForward_refl _
    · split
      · exact statusForward_refl _
      · rename_i rfp hr
        split
        · exact statusForward_refl _
        · exact recordResponse_statusForward env db hids _ rfp
            (List.mem_of_find?_eq_some hr) _ _

theorem simulateResponse_statusForward (env : RouteEnv) (db : Database)
    (hids : (db.rfps.map (fun r => r._id)).Nodup) (proposalId : Option ObjectId)
    (emailContent : Option Str) :
    statusForward db.rfps (simulateResponse env db proposalId emailContent).1.rfps = true := by
  unfold simulateResponse
  split
  · split
    · exact statusForward_refl _
    · split
      · exact statusForward_refl _
      · rename_i rfp hr
        split
        · exact statusForward_refl _
        · exact recordResponse_statusForward env db hids _ rfp
            (List.mem_of_find?_eq_some hr) _ _
  · exact statusForward_refl _

theorem evaluateRFP_statusForward (env : RouteEnv) (db : Database)
    (hids : (db.rfps.map (fun r => r._id)).Nodup) (rfpId : ObjectId) :
    statusForward db.rfps (evaluateRFP env db rfpId).1.rfps = true := by
  unfold evaluateRFP
  split
  · exact statusForward_refl _
  · rename_i rfp hr
    simp only
    split
    · exact statusForward_refl _
    · split
      · exact statusForward_refl _
      · split
        · exact statusForward_refl _
        · apply statusForward_saveStatus env.now db.rfps hids rfp
            (List.mem_of_find?_eq_some hr)
          split
          · cases rfp.status <;> decide
          · exact Nat.le_refl _

theorem sendRFP_ok (env : RouteEnv) (db : Database) (id : ObjectId)
    (vendorIds : Option (List ObjectId)) (rfp : RFP)
    (hfind : findById db.toStore id = some rfp)
    (hok : (sendRFP env db id vendorIds).2 = 200) :
    ∃ ids, vendorIds = some ids ∧
      findById (sendRFP env db id vendorIds).1.toStore id =
        some { rfp with status := RFPStatus.sent, sentTo := ids, updatedAt := env.now } := by
  unfold sendRFP at hok ⊢
  cases vendorIds with
  | none => simp at hok
  | some ids =>
    cases ids with
    | nil => simp at hok
    | cons v vs =>
      refine ⟨v :: vs, rfl, ?_⟩
      simp only [hfind] at hok ⊢
      split
      · rename_i hemp
        rw [if_pos hemp] at hok
        simp at hok
      · have hid : rfp._id = id := by
          have := List.find?_some hfind
          simpa using this
        simp only [findById]
        rw [List.find?_map]
        have : ((fun r : RFP => decide (r._id = id)) ∘ fun r : RFP =>
            if r._id = rfp._id then
              { r with status := RFPStatus.sent, sentTo := v :: vs, updatedAt := env.now }
            else r) = fun r => decide (r._id = id) := by
          funext r
          simp only [Function.comp]
          split <;> rfl
        rw [this]
        unfold findById at hfind
        rw [hfind]
        simp

/-- C13, the code at the failing input.  RFP B has status responses_received.
Sending it to a further vendor responds 200 and leaves it in status sent, an
earlier state.  Sending it again to its recipient, who has a Proposal, responds
500, the unique index refusing the placeholder, after the save that moved the
RFP back to sent. -/
theorem send_moves_status_back :
    exDatabase2.rfps.map (fun r => (r._id, r.status)) =
        [(10, RFPStatus.sent), (11, RFPStatus.responses_received)] ∧
      (sendRFP exRouteEnv exDatabase2 11 (some [2])).2 = 200 ∧
      (sendRFP exRouteEnv exDatabase2 11 (some [2])).1.rfps.map (fun r => (r._id, r.status)) =
        [(10, RFPStatus.sent), (11, RFPStatus.sent)] ∧
      statusForward exDatabase2.rfps (sendRFP exRouteEnv exDatabase2 11 (some [2])).1.rfps
        = false ∧
      (sendRFP exRouteEnv exDatabase2 11 (some [1])).2 = 500 ∧
      (sendRFP exRouteEnv exDatabase2 11 (some [1])).1.rfps.map (fun r => (r._id, r.status)) =
        [(10, RFPStatus.sent), (11, RFPStatus.sent)] ∧
      statusForward exDatabase2.rfps (sendRFP exRouteEnv exDatabase2 11 (some [1])).1.rfps
        = false := by
  decide

/-- The status writers of the system, one by one.  Order the states draft <
sent < responses_received < evaluated, the legacy completed standing with
evaluated.  In a database whose RFP ids are distinct, ingesting an email, the
inbound webhook, simulate-response and the evaluation never change the status of
an RFP to an earlier state: the first three advance it from sent only, and the
evaluation sets evaluated or keeps the status.  The send route assigns sent
unconditionally: a send that responds 200 leaves the RFP in status sent whatever
it was. -/
theorem status_forward_except_send (db : Database)
    (hids : (db.rfps.map (fun r => r._id)).Nodup) :
    (∀ env emailData, statusForward db.rfps (ingestEmail env db emailData).1.rfps = true) ∧
    (∀ env body, statusForward db.rfps (inboundWebhook env db body).1.rfps = true) ∧
    (∀ env proposalId emailContent,
      statusForward db.rfps (simulateResponse env db proposalId emailContent).1.rfps = true) ∧
    (∀ env rfpId, statusForward db.rfps (evaluateRFP env db rfpId).1.rfps = true) ∧
    (∀ env id vendorIds rfp, findById db.toStore id = some rfp →
      (sendRFP env db id vendorIds).2 = 200 →
      ∃ ids, vendorIds = some ids ∧
        findById (sendRFP env db id vendorIds).1.toStore id =
          some { rfp with status := RFPStatus.sent, sentTo := ids, updatedAt := env.now }) :=
  ⟨fun env emailData => processEmail_statusForward env db.toStore emailData hids,
    fun env body => inboundWebhook_statusForward env db hids body,
    fun env proposalId emailContent =>
      simulateResponse_statusForward env db hids proposalId emailContent,
    fun env rfpId => evaluateRFP_statusForward env db hids rfpId,
    fun env id vendorIds rfp hfind hok => sendRFP_ok env db id vendorIds rfp hfind hok⟩

/-- The evaluation of B moves it forward. -/
theorem status_forward_except_send_witness :
    statusForward exDatabase.rfps (evaluateRFP exRouteEnv exDatabase 11).1.rfps = true :=
  (status_forward_except_send exDatabase (by decide)).2.2.2.1 exRouteEnv 11

/-! ## Failed lookups and the backoff of a scheduled run (C21, C22) -/

theorem includes_cons_of_ne (c : Char) (cs : Str) (p : Char) (ps : Str) (h : c ≠ p) :
    includes (c :: cs) (p :: ps) = includes cs (p :: ps) := by
  have : (p == c) = false := by
    simp only [beq_eq_false_iff_ne, ne_eq]
    exact fun e => h e.symm
  simp [includes, List.isPrefixOf, this]

theorem includes_dnsLookupFailed (message : Str) :
    includes ("DNS lookup failed for imap.gmail.com: ".toList ++ message) "timeout".toList =
      includes message "timeout".toList := by
  show includes ('D' :: _) ('t' :: _) = includes message ('t' :: _)
  repeat rw [includes_cons_of_ne _ _ _ _ (by decide)]
  rfl

/-- C21, the code on failed lookups.  Whatever error the lookup of the mail host
rejects with, unless its message happens to contain the word timeout: the error
`fetchUnreadEmails` throws in its place has no `code`, so the retry loop does
not take it for a network error, and a scheduled run in which every lookup
fails calls `fetchUnreadEmails` three times without waiting. -/
theorem dns_failure_not_network (dnsError : PollError) (session : Nat → PollOutcome)
    (h : includes (dnsError.message.getD "undefined".toList) "timeout".toList = false) :
    isNetworkError (dnsLookupFailed dnsError) = false ∧
      scheduledRun (fun attempt => fetchUnreadEmails (some dnsError) (session attempt)) =
        [RunEvent.fetch 1, RunEvent.logError, RunEvent.logRetry 2, RunEvent.fetch 2,
          RunEvent.logError, RunEvent.logRetry 3, RunEvent.fetch 3, RunEvent.logError] := by
  have hn : isNetworkError (dnsLookupFailed dnsError) = false := by
    unfold isNetworkError dnsLookupFailed
    simp only [includes_dnsLookupFailed, h]
    simp
  exact ⟨hn, scheduledRun_non_network _ _ _ _ rfl hn rfl hn rfl hn⟩

/-- C21, witness: the lookup fails with `ENOTFOUND`. -/
theorem dns_failure_not_network_witness :
    isNetworkError exDnsError = true ∧
      isNetworkError (dnsLookupFailed exDnsError) = false ∧
      scheduledRun (fun _ => fetchUnreadEmails (some exDnsError) (PollOutcome.resolved 0)) =
        [RunEvent.fetch 1, RunEvent.logError, RunEvent.logRetry 2, RunEvent.fetch 2,
          RunEvent.logError, RunEvent.logRetry 3, RunEvent.fetch 3, RunEvent.logError] :=
  ⟨by decide, dns_failure_not_network exDnsError (fun _ => PollOutcome.resolved 0) (by decide)⟩

theorem fetchCalls_cons (e : RunEvent) (events : List RunEvent) :
    fetchCalls (e :: events) =
      (match e with
        | RunEvent.fetch _ => 1
        | _ => 0) + fetchCalls events := by
  unfold fetchCalls
  cases e <;> simp [List.filter_cons, Nat.add_comm]

theorem fetchCalls_append (xs ys : List RunEvent) :
    fetchCalls (xs ++ ys) = fetchCalls xs + fetchCalls ys := by
  unfold fetchCalls
  rw [List.filter_append, List.length_append]

theorem retryLoop_succ (f : Nat → PollOutcome) (retries remaining attempt delay : Nat) :
    ∃ pre rest, retryLoop f retries (remaining + 1) attempt delay =
        pre ++ RunEvent.fetch attempt :: rest ∧
      (∀ j, RunEvent.fetch j ∉ pre) ∧ fetchCalls pre = 0 ∧
      ((∃ count, f attempt = PollOutcome.resolved count) ∧ rest = [] ∨
        (∃ error, f attempt = PollOutcome.rejected error) ∧
          ∃ log delay2, fetchCalls log = 0 ∧ (∀ j, RunEvent.fetch j ∉ log) ∧
            rest = log ++ retryLoop f retries remaining (attempt + 1) delay2) := by
  have hpre1 : ∀ j, RunEvent.fetch j ∉
      (if attempt > 1 then [RunEvent.logRetry attempt] else []) := by
    intro j
    split <;> simp
  have hpre2 : fetchCalls (if attempt > 1 then [RunEvent.logRetry attempt] else []) = 0 := by
    split <;> simp [fetchCalls]
  cases hf : f attempt with
  | resolved count =>
    refine ⟨_, [], ?_, hpre1, hpre2, Or.inl ⟨⟨count, rfl⟩, rfl⟩⟩
    rw [retryLoop, hf]
  | rejected error =>
    by_cases h1 : (isNetworkError error && decide (attempt < retries)) = true
    · refine ⟨_, _, ?_, hpre1, hpre2, Or.inr ⟨⟨error, rfl⟩,
        [RunEvent.logNetworkIssue attempt, RunEvent.wait delay], delay * 2, ?_, ?_, rfl⟩⟩
      · rw [retryLoop, hf]
        simp only [h1, if_true]
        rfl
      · simp [fetchCalls]
      · simp
    · by_cases h2 : (isNetworkError error && decide (attempt = retries)) = true
      · refine ⟨_, _, ?_, hpre1, hpre2, Or.inr ⟨⟨error, rfl⟩,
          [RunEvent.logAllFailed], delay, ?_, ?_, rfl⟩⟩
        · rw [retryLoop, hf]
          simp only [h1, h2, if_true]
          rfl
        · simp [fetchCalls]
        · simp
      · refine ⟨_, _, ?_, hpre1, hpre2, Or.inr ⟨⟨error, rfl⟩,
          [RunEvent.logError], delay, ?_, ?_, rfl⟩⟩
        · rw [retryLoop, hf]
          simp only [h1, h2]
          rfl
        · simp [fetchCalls]
        · simp

theorem fetchCalls_retryLoop (f : Nat → PollOutcome) (retries remaining : Nat) :
    ∀ attempt delay, fetchCalls (retryLoop f retries remaining attempt delay) ≤ remaining := by
  induction remaining with
  | zero =>
    intro attempt delay
    simp [retryLoop, fetchCalls]
  | succ n ih =>
    intro attempt delay
    obtain ⟨pre, rest, heq, _, hpre, hrest⟩ := retryLoop_succ f retries n attempt delay
    rw [heq, fetchCalls_append, fetchCalls_cons, hpre]
    rcases hrest with ⟨_, hr⟩ | ⟨_, log, delay2, hlog, _, hr⟩
    · rw [hr]
      simp [fetchCalls]
    · rw [hr, fetchCalls_append, hlog]
      have := ih (attempt + 1) delay2
      simp only
      omega

theorem fetch_mem_retryLoop (f : Nat → PollOutcome) (retries remaining : Nat) :
    ∀ attempt delay k, RunEvent.fetch k ∈ retryLoop f retries remaining attempt delay →
      attempt ≤ k := by
  induction remaining with
  | zero =>
    intro attempt delay k h
    simp [retryLoop] at h
  | succ n ih =>
    intro attempt delay k h
    obtain ⟨pre, rest, heq, hpre, _, hrest⟩ := retryLoop_succ f retries n attempt delay
    rw [heq, List.mem_append, List.mem_cons] at h
    rcases h with h | h | h
    · exact absurd h (hpre k)
    · injection h with h
      omega
    · rcases hrest with ⟨_, hr⟩ | ⟨_, log, delay2, _, hlog, hr⟩
      · rw [hr] at h
        cases h
      · rw [hr, List.mem_append] at h
        rcases h with h | h
        · exact absurd h (hlog k)
        · have := ih (attempt + 1) delay2 k h
          omega

theorem retryLoop_stops (f : Nat → PollOutcome) (retries remaining : Nat) :
    ∀ attempt delay k count, f k = PollOutcome.resolved count →
      RunEvent.fetch k ∈ retryLoop f retries remaining attempt delay →
      (retryLoop f retries remaining attempt delay).getLast? = some (RunEvent.fetch k) ∧
        ∀ j, k < j → RunEvent.fetch j ∉ retryLoop f retries remaining attempt delay := by
  induction remaining with
  | zero =>
    intro attempt delay k count _ h
    simp [retryLoop] at h
  | succ n ih =>
    intro attempt delay k count hk h
    obtain ⟨pre, rest, heq, hpre, _, hrest⟩ := retryLoop_succ f retries n attempt delay
    rw [heq]
    rw [heq, List.mem_append, List.mem_cons] at h
    rcases hrest with ⟨_, hr⟩ | ⟨⟨error, he⟩, log, delay2, _, hlog, hr⟩
    · subst hr
      have hka : k = attempt := by
        rcases h with h | h | h
        · exact absurd h (hpre k)
        · injection h
        · cases h
      subst hka
      refine ⟨by simp, ?_⟩
      intro j hj hmem
      rw [List.mem_append, List.mem_cons] at hmem
      rcases hmem with hmem | hmem | hmem
      · exact hpre j hmem
      · injection hmem with hmem
        omega
      · cases hmem
    · have hsub : RunEvent.fetch k ∈ retryLoop f retries n (attempt + 1) delay2 := by
        rcases h with h | h | h
        · exact absurd h (hpre k)
        · injection h with h
          subst h
          rw [hk] at he
          cases he
        · rw [hr, List.mem_append] at h
          rcases h with h | h
          · exact absurd h (hlog k)
          · exact h
      obtain ⟨hlast, hno⟩ := ih (attempt + 1) delay2 k count hk hsub
      have hle := fetch_mem_retryLoop f retries n (attempt + 1) delay2 k hsub
      constructor
      · rw [hr, ← List.cons_append, ← List.append_assoc,
          List.getLast?_append_of_ne_nil _ (List.ne_nil_of_mem hsub), hlast]
      · intro j hj hmem
        rw [List.mem_append, List.mem_cons, hr, List.mem_append] at hmem
        rcases hmem with hmem | hmem | hmem | hmem
        · exact hpre j hmem
        · injection hmem with hmem
          omega
        · exact hlog j hmem
        · exact hno j hj hmem

/-- C22.  In a scheduled run, whatever the calls of `fetchUnreadEmails` do: there
are at most three calls; a call that resolves is the last event of the run, and
no call of a later attempt is made; and when every call rejects with a
network-class error, the run is call, wait 5000 ms, call, wait 10000 ms, call,
with nothing but the log line after the third call. -/
theorem bounded_backoff (f : Nat → PollOutcome) :
    fetchCalls (scheduledRun f) ≤ 3 ∧
    (∀ k count, f k = PollOutcome.resolved count → RunEvent.fetch k ∈ scheduledRun f →
      (scheduledRun f).getLast? = some (RunEvent.fetch k) ∧
        ∀ j, k < j → RunEvent.fetch j ∉ scheduledRun f) ∧
    ((∀ attempt, ∃ error, f attempt = PollOutcome.rejected error ∧
        isNetworkError error = true) →
      scheduledRun f =
        [RunEvent.fetch 1, RunEvent.logNetworkIssue 1, RunEvent.wait 5000,
          RunEvent.logRetry 2, RunEvent.fetch 2, RunEvent.logNetworkIssue 2,
          RunEvent.wait 10000, RunEvent.logRetry 3, RunEvent.fetch 3,
          RunEvent.logAllFailed]) := by
  refine ⟨fetchCalls_retryLoop f 3 3 1 5000, ?_, ?_⟩
  · intro k count hk hmem
    exact retryLoop_stops f 3 3 1 5000 k count hk hmem
  · intro h
    obtain ⟨e1, h1, n1⟩ := h 1
    obtain ⟨e2, h2, n2⟩ := h 2
    obtain ⟨e3, h3, n3⟩ := h 3
    simp [scheduledRun, retryLoop, h1, h2, h3, n1, n2, n3]

/-- C22, witness: the connection times out at every attempt. -/
theorem bounded_backoff_witness :
    fetchCalls (scheduledRun exNetworkDown) ≤ 3 ∧
      scheduledRun exNetworkDown =
        [RunEvent.fetch 1, RunEvent.logNetworkIssue 1, RunEvent.wait 5000,
          RunEvent.logRetry 2, RunEvent.fetch 2, RunEvent.logNetworkIssue 2,
          RunEvent.wait 10000, RunEvent.logRetry 3, RunEvent.fetch 3,
          RunEvent.logAllFailed] :=
  ⟨(bounded_backoff exNetworkDown).1,
    (bounded_backoff exNetworkDown).2.2 (fun _ => ⟨_, rfl, by decide⟩)⟩

/-! ## The messages of one poll (C23) -/

theorem slice_neg_ten {α : Type} (xs : List α) : slice xs (-10) = xs.drop (xs.length - 10) := by
  unfold slice
  have h : ((if (-10 : Int) < 0 then max ((xs.length : Int) + -10) 0
      else min (-10) (xs.length : Int))).toNat = xs.length - 10 := by
    rw [if_pos (by decide)]
    omega
  simp only [h]

theorem emailsToProcess_eq (results : List Nat) :
    emailsToProcess (some results) = results.drop (results.length - min results.length 10) := by
  cases results with
  | nil => rfl
  | cons r rs =>
    show slice (r :: rs) (-10) = _
    rw [slice_neg_ten]
    congr 1
    omega

/-- C23.  For the ids `results` the search for unseen messages returns, `n` of
them: the ids handed to `imap.fetch` with `markSeen` are `min n 10` in number,
they are the last `min n 10` ids of `results` in their order, `results` is the
`n - min n 10` ids left alone followed by them, and, the ids of a search being
distinct, no id left alone is among them. -/
theorem per_poll_bound (results : List Nat) :
    (emailsToProcess (some results)).length = min results.length 10 ∧
    emailsToProcess (some results) =
      results.drop (results.length - min results.length 10) ∧
    results = results.take (results.length - min results.length 10) ++
      emailsToProcess (some results) ∧
    (results.Nodup →
      ∀ id ∈ results.take (results.length - min results.length 10),
        id ∉ emailsToProcess (some results)) := by
  have he := emailsToProcess_eq results
  refine ⟨?_, he, ?_, ?_⟩
  · rw [he, List.length_drop]
    omega
  · rw [he, List.take_append_drop]
  · intro hnd id hid hmem
    rw [he] at hmem
    have hsplit := List.take_append_drop (results.length - min results.length 10) results
    rw [← hsplit] at hnd
    exact (List.disjoint_of_nodup_append hnd) hid hmem

/-- C23, witness: twelve unseen messages, of which the last ten are fetched. -/
theorem per_poll_bound_witness :
    emailsToProcess (some [1, 2, 3, 4, 5, 6, 7, 8, 9, 10, 11, 12]) =
        [3, 4, 5, 6, 7, 8, 9, 10, 11, 12] ∧
      ∀ id ∈ [1, 2], id ∉ emailsToProcess (some [1, 2, 3, 4, 5, 6, 7, 8, 9, 10, 11, 12]) :=
  ⟨by decide,
    (per_poll_bound [1, 2, 3, 4, 5, 6, 7, 8, 9, 10, 11, 12]).2.2.2 (by decide)⟩

/-! ## The attachments of a message (C24, C25) -/

theorem attachmentBlock_eq (env : Env) (attachment : Attachment) :
    attachmentBlock env attachment =
      match extractedContent env attachment with
      | some (c :: cs) => contentBlock attachment (c :: cs)
      | _ => [] := by
  unfold attachmentBlock extractedContent attachmentExtractor selectExtractor contentBlock
  cases attachment.content with
  | none => rfl
  | some content =>
    cases content with
    | nil => rfl
    | cons b bs =>
      simp only []
      split_ifs <;> rfl

/-- C24, the claim at a Word document named `quote.pdf`: the content type names
the Word branch and no other, and the branch taken is the PDF one; with a PDF
extractor that fails on it the attachment adds nothing. -/
theorem c24_counterexample :
    includes "application/msword".toList "msword".toList = true ∧
      includes "application/msword".toList "pdf".toList = false ∧
      attachmentExtractor
          ⟨some "quote.pdf".toList, some "application/msword".toList, some [80, 75]⟩ =
        some Extractor.pdf ∧
      attachmentBlock
          { exEnv with
            extractTextFromPDF := fun _ => none
            extractTextFromWord := fun _ => some "Total: 100".toList }
          ⟨some "quote.pdf".toList, some "application/msword".toList, some [80, 75]⟩ = [] := by
  decide

/-- C24, amended.  The branches are tried in the order PDF, Word, spreadsheet,
image, and a branch is taken when the content type contains one of its markers
or the lower-cased filename has one of its extensions.  So a content type with
the PDF marker always selects the PDF branch, and a content type with the
marker of a later branch selects that branch when the content type has no
marker and the filename no extension of an earlier branch; a content type
without any marker leaves the choice to the extension.  The text an attachment adds is the text the
selected function extracts, under the header with the filename. -/
theorem attachment_dispatch (contentType filenameLower : Str) :
    (includes contentType "pdf".toList = true →
      selectExtractor contentType filenameLower = some Extractor.pdf) ∧
    (includes contentType "wordprocessingml".toList = true ∨
        includes contentType "msword".toList = true →
      includes contentType "pdf".toList = false →
      endsWith filenameLower ".pdf".toList = false →
      selectExtractor contentType filenameLower = some Extractor.word) ∧
    (includes contentType "spreadsheetml".toList = true ∨
        includes contentType "ms-excel".toList = true →
      includes contentType "pdf".toList = false →
      endsWith filenameLower ".pdf".toList = false →
      includes contentType "wordprocessingml".toList = false →
      includes contentType "msword".toList = false →
      endsWith filenameLower ".docx".toList = false →
      endsWith filenameLower ".doc".toList = false →
      selectExtractor contentType filenameLower = some Extractor.excel) ∧
    (includes contentType "image/".toList = true →
      includes contentType "pdf".toList = false →
      endsWith filenameLower ".pdf".toList = false →
      includes contentType "wordprocessingml".toList = false →
      includes contentType "msword".toList = false →
      endsWith filenameLower ".docx".toList = false →
      endsWith filenameLower ".doc".toList = false →
      includes contentType "spreadsheetml".toList = false →
      includes contentType "ms-excel".toList = false →
      endsWith filenameLower ".xlsx".toList = false →
      endsWith filenameLower ".xls".toList = false →
      selectExtractor contentType filenameLower = some Extractor.image) ∧
    (includes contentType "pdf".toList = false →
      includes contentType "wordprocessingml".toList = false →
      includes contentType "msword".toList = false →
      includes contentType "spreadsheetml".toList = false →
      includes contentType "ms-excel".toList = false →
      includes contentType "image/".toList = false →
      selectExtractor contentType filenameLower = selectExtractor [] filenameLower) ∧
    ∀ (env : Env) (attachment : Attachment),
      attachmentBlock env attachment =
        match extractedContent env attachment with
        | some (c :: cs) => contentBlock attachment (c :: cs)
        | _ => [] := by
  refine ⟨?_, ?_, ?_, ?_, ?_, attachmentBlock_eq⟩
  · intro h
    unfold selectExtractor
    rw [if_pos (by simp only [h, Bool.true_or])]
  · intro h hp he
    unfold selectExtractor
    rw [if_neg (by simp only [hp, he]; decide)]
    rcases h with h | h
    · rw [if_pos (by simp only [h, Bool.true_or])]
    · rw [if_pos (by simp only [h, Bool.true_or, Bool.or_true])]
  · intro h p1 p2 w1 w2 w3 w4
    unfold selectExtractor
    rw [if_neg (by simp only [p1, p2]; decide),
      if_neg (by simp only [w1, w2, w3, w4]; decide)]
    rcases h with h | h
    · rw [if_pos (by simp only [h, Bool.true_or])]
    · rw [if_pos (by simp only [h, Bool.true_or, Bool.or_true])]
  · intro h p1 p2 w1 w2 w3 w4 x1 x2 x3 x4
    unfold selectExtractor
    rw [if_neg (by simp only [p1, p2]; decide),
      if_neg (by simp only [w1, w2, w3, w4]; decide),
      if_neg (by simp only [x1, x2, x3, x4]; decide),
      if_pos (by simp only [h, Bool.true_or])]
  · intro h1 h2 h3 h4 h5 h6
    have e1 : includes [] "pdf".toList = false := by decide
    have e2 : includes [] "wordprocessingml".toList = false := by decide
    have e3 : includes [] "msword".toList = false := by decide
    have e4 : includes [] "spreadsheetml".toList = false := by decide
    have e5 : includes [] "ms-excel".toList = false := by decide
    have e6 : includes [] "image/".toList = false := by decide
    unfold selectExtractor
    simp only [h1, h2, h3, h4, h5, h6, e1, e2, e3, e4, e5, e6]

/-- C24, witness: a Word document whose filename has no extension, and a file
without a declared type that is dispatched by its extension. -/
theorem attachment_dispatch_witness :
    selectExtractor "application/msword".toList "quote".toList = some Extractor.word ∧
      selectExtractor "application/octet-stream".toList "quote.xlsx".toList =
        selectExtractor [] "quote.xlsx".toList :=
  ⟨(attachment_dispatch "application/msword".toList "quote".toList).2.1
      (Or.inr (by decide)) (by decide) (by decide),
    (attachment_dispatch "application/octet-stream".toList "quote.xlsx".toList).2.2.2.2.1
      (by decide) (by decide) (by decide) (by decide) (by decide) (by decide)⟩

theorem attachmentBlock_of_not_contributes (env : Env) (attachment : Attachment)
    (h : contributes env attachment = false) : attachmentBlock env attachment = [] := by
  rw [attachmentBlock_eq]
  unfold contributes at h
  cases hx : extractedContent env attachment with
  | none => rfl
  | some text =>
    cases text with
    | nil => rfl
    | cons c cs =>
      rw [hx] at h
      cases h

theorem attachmentBlock_of_contributes (env : Env) (attachment : Attachment)
    (h : contributes env attachment = true) :
    ∃ text, text ≠ [] ∧ extractedContent env attachment = some text ∧
      attachmentBlock env attachment = contentBlock attachment text := by
  rw [attachmentBlock_eq]
  unfold contributes at h
  cases hx : extractedContent env attachment with
  | none =>
    rw [hx] at h
    cases h
  | some text =>
    cases text with
    | nil =>
      rw [hx] at h
      cases h
    | cons c cs => exact ⟨c :: cs, by simp, rfl, rfl⟩

theorem blocks_filter (env : Env) (attachments : List Attachment) :
    ((attachments.filter (contributes env)).map (attachmentBlock env)).flatten =
      (attachments.map (attachmentBlock env)).flatten := by
  induction attachments with
  | nil => rfl
  | cons a l ih =>
    by_cases h : contributes env a = true
    · rw [List.filter_cons_of_pos h, List.map_cons, List.flatten_cons, ih, List.map_cons,
        List.flatten_cons]
    · rw [List.filter_cons_of_neg h, ih, List.map_cons, List.flatten_cons,
        attachmentBlock_of_not_contributes env a (by simpa using h), List.nil_append]

theorem processAttachments_eq (env : Env) (attachments : List Attachment) :
    processAttachments env (some attachments) =
      nonEmptyText (trim ((attachments.map (attachmentBlock env)).flatten)) := by
  cases attachments with
  | nil => rfl
  | cons a l =>
    unfold processAttachments nonEmptyText
    rfl

/-- C25.  The text `processAttachments` returns for a list of attachments is the
text it returns for the list without the attachments that have no content
buffer, an unsupported type, or an extraction that gives nothing; it is the
trimmed concatenation, in list order, of the blocks of the others, each the
header with the filename followed by the extracted text; an attachment that
adds nothing adds the empty text.  In `processEmail` the content handed on is
the body followed, when there is attachment text, by an empty line and that
text. -/
theorem attachment_failure_isolation (env : Env) (attachments : List Attachment)
    (m : EmailData) :
    processAttachments env (some attachments) =
        processAttachments env (some (attachments.filter (contributes env))) ∧
    processAttachments env (some attachments) =
        nonEmptyText (trim
          (((attachments.filter (contributes env)).map (attachmentBlock env)).flatten)) ∧
    (∀ a, contributes env a = true →
      ∃ text, text ≠ [] ∧ extractedContent env a = some text ∧
        attachmentBlock env a =
          "\n\n=== Content from ".toList ++ orStr a.filename "unknown".toList ++
            " ===\n".toList ++ text ++ "\n".toList) ∧
    (∀ a, contributes env a = false → attachmentBlock env a = []) ∧
    (∀ attachmentText, processAttachments env m.attachments = some attachmentText →
      buildEmailContent env m =
        orStr m.text (orStr m.html []) ++ "\n\n".toList ++ attachmentText) ∧
    (processAttachments env m.attachments = none →
      buildEmailContent env m = orStr m.text (orStr m.html [])) ∧
    orStr m.text (orStr m.html []) <+: buildEmailContent env m := by
  refine ⟨?_, ?_, ?_, attachmentBlock_of_not_contributes env, ?_, ?_, ?_⟩
  · rw [processAttachments_eq, processAttachments_eq, blocks_filter]
  · rw [processAttachments_eq, blocks_filter]
  · intro a h
    exact attachmentBlock_of_contributes env a h
  · intro attachmentText h
    unfold buildEmailContent
    simp only [h]
  · intro h
    unfold buildEmailContent
    simp only [h]
  · unfold buildEmailContent
    cases processAttachments env m.attachments with
    | none => exact List.prefix_refl _
    | some attachmentText =>
      simp only [List.append_assoc]
      exact List.prefix_append _ _

/-- C25, witness: a PDF whose extraction fails, then a Word document. -/
theorem attachment_failure_isolation_witness :
    processAttachments exExtractEnv (some [exCorruptPdf, exWordQuote]) =
        some "=== Content from quote.docx ===\nTotal: 100".toList ∧
      processAttachments exExtractEnv (some [exCorruptPdf, exWordQuote]) =
        processAttachments exExtractEnv
          (some ([exCorruptPdf, exWordQuote].filter (contributes exExtractEnv))) ∧
      ∃ text, text ≠ [] ∧ extractedContent exExtractEnv exWordQuote = some text ∧
        attachmentBlock exExtractEnv exWordQuote =
          "\n\n=== Content from ".toList ++ orStr exWordQuote.filename "unknown".toList ++
            " ===\n".toList ++ text ++ "\n".toList :=
  ⟨by decide,
    (attachment_failure_isolation exExtractEnv [exCorruptPdf, exWordQuote]
      (exMail "Re: RFP: IT Equipment")).1,
    (attachment_failure_isolation exExtractEnv [exCorruptPdf, exWordQuote]
      (exMail "Re: RFP: IT Equipment")).2.2.1 exWordQuote (by decide)⟩

/-! ## The subject of a reply and the ID tag (C26) -/

theorem idTagAt_cons_of_ne (c : Char) (cs : Str) (h : c ≠ '[') : idTagAt (c :: cs) = none := by
  rcases cs with _ | ⟨i, _ | ⟨d, _ | ⟨e, rest⟩⟩⟩ <;> simp [idTagAt, h]

theorem rfpIdMatch_cons_of_ne (c : Char) (cs : Str) (h : c ≠ '[') :
    rfpIdMatch (c :: cs) = rfpIdMatch cs := by
  rw [rfpIdMatch, idTagAt_cons_of_ne c cs h]

theorem not_isWhiteSpace_of_isHexDigit (c : Char) (h : isHexDigit c = true) :
    isWhiteSpace c = false := by
  unfold isHexDigit at h
  unfold isWhiteSpace isLineTerminator
  simp only [Bool.or_eq_true, Bool.and_eq_true, decide_eq_true_eq] at h
  simp only [Bool.or_eq_false_iff, Bool.and_eq_false_iff, decide_eq_false_iff_not]
  omega

/-- The condition of `idTagAt` on the text after the white space: 24 characters,
all hexadecimal digits, then the closing bracket. -/
theorem hexRun_of_append (tail : Str) :
    ∀ (n : Nat) (r : Str),
      ((r ++ ' ' :: tail).take n).length = n ∧
          (∀ c ∈ (r ++ ' ' :: tail).take n, isHexDigit c = true) ∧
          ((r ++ ' ' :: tail).drop n).head? = some ']' →
        (r.take n).length = n ∧ (∀ c ∈ r.take n, isHexDigit c = true) ∧
          (r.drop n).head? = some ']' := by
  intro n
  induction n with
  | zero =>
    intro r h
    cases r with
    | nil =>
      obtain ⟨_, _, h3⟩ := h
      simp at h3
    | cons x r => simpa using h
  | succ n ih =>
    intro r h
    cases r with
    | nil =>
      obtain ⟨_, h2, _⟩ := h
      have := h2 ' ' (by simp)
      exact absurd this (by decide)
    | cons x r =>
      obtain ⟨h1, h2, h3⟩ := h
      simp only [List.cons_append, List.take_succ_cons, List.length_cons, add_left_inj,
        List.mem_cons, List.drop_succ_cons] at h1 h2 h3
      obtain ⟨i1, i2, i3⟩ := ih r ⟨h1, fun c hc => h2 c (Or.inr hc), h3⟩
      refine ⟨by simp [i1], ?_, by simpa using i3⟩
      intro c hc
      simp only [List.take_succ_cons, List.mem_cons] at hc
      rcases hc with hc | hc
      · exact h2 c (Or.inl hc)
      · exact i2 c hc

theorem idTagAt_eq_some_iff (b i d c : Char) (rest hex : Str) :
    idTagAt (b :: i :: d :: c :: rest) = some hex ↔
      (b = '[' ∧ (i = 'I' ∨ i = 'i') ∧ (d = 'D' ∨ d = 'd') ∧ c = ':') ∧
        (((rest.dropWhile isWhiteSpace).take 24).length = 24 ∧
          (∀ x ∈ (rest.dropWhile isWhiteSpace).take 24, isHexDigit x = true) ∧
          ((rest.dropWhile isWhiteSpace).drop 24).head? = some ']') ∧
        hex = (rest.dropWhile isWhiteSpace).take 24 := by
  unfold idTagAt
  simp only [Bool.and_eq_true, Bool.or_eq_true, decide_eq_true_eq, List.all_eq_true]
  constructor
  · intro h
    split_ifs at h with h1 h2
    · exact ⟨⟨h1.1.1.1, h1.1.1.2, h1.1.2, h1.2⟩, ⟨h2.1.1, h2.1.2, h2.2⟩,
        (Option.some.inj h).symm⟩
  · rintro ⟨⟨a1, a2, a3, a4⟩, ⟨b1, b2, b3⟩, rfl⟩
    rw [if_pos ⟨⟨⟨a1, a2⟩, a3⟩, a4⟩, if_pos ⟨⟨b1, b2⟩, b3⟩]

theorem idTagAt_append (s tail : Str) (h : idTagAt s = none) :
    idTagAt (s ++ ' ' :: '[' :: tail) = none := by
  rcases s with _ | ⟨b, _ | ⟨i, _ | ⟨d, _ | ⟨c, rest⟩⟩⟩⟩
  · exact idTagAt_cons_of_ne _ _ (by decide)
  · cases tail <;> simp [idTagAt]
  · simp [idTagAt]
  · simp [idTagAt]
  · cases hres : idTagAt ((b :: i :: d :: c :: rest) ++ ' ' :: '[' :: tail) with
    | none => rfl
    | some hex =>
      exfalso
      rw [List.cons_append, List.cons_append, List.cons_append, List.cons_append,
        idTagAt_eq_some_iff] at hres
      obtain ⟨hhead, hrun, _⟩ := hres
      rw [List.dropWhile_append] at hrun
      by_cases he : (rest.dropWhile isWhiteSpace).isEmpty = true
      · rw [if_pos he] at hrun
        have hd : (' ' :: '[' :: tail).dropWhile isWhiteSpace = '[' :: tail := by
          rw [List.dropWhile_cons_of_pos (by decide), List.dropWhile_cons_of_neg (by decide)]
        rw [hd] at hrun
        have := hrun.2.1 '[' (by simp)
        exact absurd this (by decide)
      · rw [if_neg he] at hrun
        have hrun0 := hexRun_of_append ('[' :: tail) 24 _ hrun
        have : idTagAt (b :: i :: d :: c :: rest) =
            some ((rest.dropWhile isWhiteSpace).take 24) :=
          (idTagAt_eq_some_iff b i d c rest _).2 ⟨hhead, hrun0, rfl⟩
        rw [h] at this
        cases this

theorem rfpIdMatch_eq_none (c : Char) (cs : Str) (h : rfpIdMatch (c :: cs) = none) :
    idTagAt (c :: cs) = none ∧ rfpIdMatch cs = none := by
  rw [rfpIdMatch] at h
  cases ht : idTagAt (c :: cs) with
  | none =>
    rw [ht] at h
    exact ⟨rfl, h⟩
  | some hex =>
    rw [ht] at h
    cases h

theorem rfpIdMatch_append (s tail : Str) (h : rfpIdMatch s = none) :
    rfpIdMatch (s ++ ' ' :: '[' :: tail) = rfpIdMatch (' ' :: '[' :: tail) := by
  induction s with
  | nil => rfl
  | cons c cs ih =>
    obtain ⟨h1, h2⟩ := rfpIdMatch_eq_none c cs h
    have := idTagAt_append (c :: cs) tail h1
    rw [List.cons_append] at this ⊢
    rw [rfpIdMatch, this]
    exact ih h2

theorem idTagAt_tag (id : Str) (hlen : id.length = 24) (hhex : id.all isHexDigit = true) :
    idTagAt ("[ID: ".toList ++ id ++ "]".toList) = some id := by
  show idTagAt ('[' :: 'I' :: 'D' :: ':' :: (' ' :: (id ++ [']']))) = some id
  rw [idTagAt_eq_some_iff]
  have hdrop : (' ' :: (id ++ [']'])).dropWhile isWhiteSpace = id ++ [']'] := by
    rw [List.dropWhile_cons_of_pos (by decide)]
    cases id with
    | nil => cases hlen
    | cons x xs =>
      rw [List.all_cons, Bool.and_eq_true] at hhex
      rw [List.cons_append, List.dropWhile_cons_of_neg]
      rw [not_isWhiteSpace_of_isHexDigit x hhex.1]
      decide
  rw [hdrop, List.take_left' hlen, List.drop_left' hlen]
  refine ⟨by decide, ⟨hlen, ?_, rfl⟩, rfl⟩
  intro x hx
  exact List.all_eq_true.1 hhex x hx

/-- C26, the claim at a title that itself holds an ID tag: the reply passes the
subject filter, and the matcher extracts the id quoted in the title, which is
not the id of the RFP sent. -/
theorem c26_counterexample :
    isRfpReply (some (replySubject (rfpSubject exTaggedTitle
        "bbbbbbbbbbbbbbbbbbbbbbbb".toList))) = true ∧
      rfpIdMatch (replySubject (rfpSubject exTaggedTitle "bbbbbbbbbbbbbbbbbbbbbbbb".toList)) =
        some "aaaaaaaaaaaaaaaaaaaaaaaa".toList ∧
      rfpIdMatch (replySubject (rfpSubject exTaggedTitle "bbbbbbbbbbbbbbbbbbbbbbbb".toList)) ≠
        some "bbbbbbbbbbbbbbbbbbbbbbbb".toList := by
  decide

theorem isRfpReply_replySubject (title id : Str) :
    isRfpReply (some (replySubject (rfpSubject title id))) = true := by
  have h1 : includes (toLowerCase (replySubject (rfpSubject title id))) "re:".toList = true := by
    show includes ('r' :: 'e' :: ':' :: _) ['r', 'e', ':'] = true
    simp [includes, List.isPrefixOf]
  have h2 : includes (toLowerCase (replySubject (rfpSubject title id))) "rfp".toList = true := by
    show includes ('r' :: 'e' :: ':' :: ' ' :: 'r' :: 'f' :: 'p' :: _) ['r', 'f', 'p'] = true
    simp [includes, List.isPrefixOf]
  unfold isRfpReply
  simp only [h1, h2]
  rfl

/-- C26, amended.  For every RFP title in which the ID-tag pattern has no match
and every id of 24 hexadecimal digits: the subject `sendRFPToVendor` builds,
with `Re: ` before it, passes the reply-to-RFP test of `processEmail`, and the
ID-tag matcher extracts exactly that id from it.  The subject test is passed
for every title. -/
theorem subject_round_trip (title id : Str) (htitle : rfpIdMatch title = none)
    (hlen : id.length = 24) (hhex : id.all isHexDigit = true) :
    isRfpReply (some (replySubject (rfpSubject title id))) = true ∧
      rfpIdMatch (replySubject (rfpSubject title id)) = some id := by
  refine ⟨isRfpReply_replySubject title id, ?_⟩
  have hshape : replySubject (rfpSubject title id) =
      'R' :: 'e' :: ':' :: ' ' :: 'R' :: 'F' :: 'P' :: ':' :: ' ' ::
        (title ++ ' ' :: '[' :: ("ID: ".toList ++ id ++ "]".toList)) := by
    simp [replySubject, rfpSubject]
  rw [hshape]
  repeat rw [rfpIdMatch_cons_of_ne _ _ (by decide)]
  rw [rfpIdMatch_append title _ htitle, rfpIdMatch_cons_of_ne _ _ (by decide), rfpIdMatch]
  have htag := idTagAt_tag id hlen hhex
  have hform : ('[' :: ("ID: ".toList ++ id ++ "]".toList)) =
      "[ID: ".toList ++ id ++ "]".toList := rfl
  rw [hform, htag]

/-- C26, witness: the title of RFP B and an id as MongoDB writes it. -/
theorem subject_round_trip_witness :
    isRfpReply (some (replySubject (rfpSubject "IT Equipment".toList
        "65f1c0ffee0123456789abcd".toList))) = true ∧
      rfpIdMatch (replySubject (rfpSubject "IT Equipment".toList
        "65f1c0ffee0123456789abcd".toList)) = some "65f1c0ffee0123456789abcd".toList :=
  subject_round_trip "IT Equipment".toList "65f1c0ffee0123456789abcd".toList (by decide)
    (by decide) (by decide)

/-! ## The manual trigger and the scheduler (C27, C28) -/

/-- C27.  The manual trigger always resolves with a result object.  It calls
`fetchUnreadEmails` once and never waits or retries; when the call resolves
with `n` the result is `{success: true, count: n}`, and when it rejects the
result is `{success: false, error}` with the message of the error. -/
theorem manual_trigger_result (f : Nat → PollOutcome) :
    fetchCalls (checkEmailsNow f).1 = 1 ∧
    (checkEmailsNow f).1.head? = some (RunEvent.fetch 1) ∧
    (∀ ms, RunEvent.wait ms ∉ (checkEmailsNow f).1) ∧
    (∀ attempt, RunEvent.logRetry attempt ∉ (checkEmailsNow f).1) ∧
    (∀ n, f 1 = PollOutcome.resolved n → (checkEmailsNow f).2 = ⟨true, some n, none⟩) ∧
    (∀ error, f 1 = PollOutcome.rejected error →
      (checkEmailsNow f).2 = ⟨false, none, error.message⟩) := by
  unfold checkEmailsNow
  cases h : f 1 with
  | resolved count =>
    refine ⟨by simp [fetchCalls], rfl, by simp, by simp, ?_, ?_⟩
    · intro n hn
      cases hn
      rfl
    · intro error he
      cases he
  | rejected error =>
    refine ⟨by simp [fetchCalls], rfl, by simp, by simp, ?_, ?_⟩
    · intro n hn
      cases hn
    · intro error2 he
      cases he
      rfl

/-- C27, witness: the lookup of the mail host fails, and the mailbox holds two
replies. -/
theorem manual_trigger_result_witness :
    (checkEmailsNow (fun _ => fetchUnreadEmails (some exDnsError) (PollOutcome.resolved 0))).2 =
        ⟨false, none, (dnsLookupFailed exDnsError).message⟩ ∧
      (checkEmailsNow (fun _ => PollOutcome.resolved 2)).2 = ⟨true, some 2, none⟩ :=
  ⟨(manual_trigger_result
      (fun _ => fetchUnreadEmails (some exDnsError) (PollOutcome.resolved 0))).2.2.2.2.2
      (dnsLookupFailed exDnsError) rfl,
    (manual_trigger_result (fun _ => PollOutcome.resolved 2)).2.2.2.2.1 2 rfl⟩

theorem monitor_invariant_stop (m : Monitor)
    (h : m.timers = m.emailMonitorInterval.toList ∧
      (m.isMonitoring = true ↔ m.emailMonitorInterval.isSome = true)) :
    (stopEmailMonitoring m).timers = (stopEmailMonitoring m).emailMonitorInterval.toList ∧
      ((stopEmailMonitoring m).isMonitoring = true ↔
        (stopEmailMonitoring m).emailMonitorInterval.isSome = true) := by
  obtain ⟨ht, hm⟩ := h
  unfold stopEmailMonitoring
  cases hi : m.emailMonitorInterval with
  | none =>
    simp only []
    rw [hi] at ht hm
    exact ⟨by rw [ht, hi], by rw [hi]; exact hm⟩
  | some timer =>
    rw [hi] at ht
    simp [ht]

theorem monitor_invariant_start (credentials : Bool) (m : Monitor)
    (h : m.timers = m.emailMonitorInterval.toList ∧
      (m.isMonitoring = true ↔ m.emailMonitorInterval.isSome = true)) :
    (startEmailMonitoring credentials m).timers =
        (startEmailMonitoring credentials m).emailMonitorInterval.toList ∧
      ((startEmailMonitoring credentials m).isMonitoring = true ↔
        (startEmailMonitoring credentials m).emailMonitorInterval.isSome = true) := by
  obtain ⟨ht, hm⟩ := h
  unfold startEmailMonitoring
  by_cases h1 : m.isMonitoring = true
  · simp only [if_pos h1]
    exact ⟨ht, hm⟩
  · simp only [if_neg h1]
    by_cases h2 : (!credentials) = true
    · simp only [if_pos h2]
      exact ⟨ht, hm⟩
    · simp only [if_neg h2]
      have hnone : m.emailMonitorInterval = none := by
        cases hi : m.emailMonitorInterval with
        | none => rfl
        | some t =>
          rw [hi] at hm
          exact absurd (hm.2 rfl) h1
      rw [hnone] at ht
      simp [ht]

theorem monitor_invariant_apply (m : Monitor) (call : MonitorCall)
    (h : m.timers = m.emailMonitorInterval.toList ∧
      (m.isMonitoring = true ↔ m.emailMonitorInterval.isSome = true)) :
    (call.apply m).timers = (call.apply m).emailMonitorInterval.toList ∧
      ((call.apply m).isMonitoring = true ↔
        (call.apply m).emailMonitorInterval.isSome = true) := by
  cases call with
  | checkNow => exact h
  | stop => exact monitor_invariant_stop m h
  | start credentials => exact monitor_invariant_start credentials m h

theorem monitor_invariant (calls : List MonitorCall) :
    ∀ m : Monitor,
      (m.timers = m.emailMonitorInterval.toList ∧
        (m.isMonitoring = true ↔ m.emailMonitorInterval.isSome = true)) →
      (runCalls m calls).timers = (runCalls m calls).emailMonitorInterval.toList ∧
        ((runCalls m calls).isMonitoring = true ↔
          (runCalls m calls).emailMonitorInterval.isSome = true) := by
  induction calls with
  | nil =>
    intro m h
    exact h
  | cons call rest ih =>
    intro m h
    exact ih (call.apply m) (monitor_invariant_apply m call h)

/-- C28.  After every sequence of calls of `startEmailMonitoring` (with or
without credentials), `stopEmailMonitoring` and `checkEmailsNow` from the load
of the module: at most one interval timer is active, and it is the one held in
`emailMonitorInterval`; `isMonitoring` is true exactly when
`emailMonitorInterval` is set; a further `startEmailMonitoring` while
monitoring changes nothing, so it creates no timer; and `checkEmailsNow`
changes neither variable nor any timer. -/
theorem single_scheduler (calls : List MonitorCall) :
    (runCalls Monitor.initial calls).timers.length ≤ 1 ∧
    (runCalls Monitor.initial calls).timers =
      (runCalls Monitor.initial calls).emailMonitorInterval.toList ∧
    ((runCalls Monitor.initial calls).isMonitoring = true ↔
      (runCalls Monitor.initial calls).emailMonitorInterval.isSome = true) ∧
    ((runCalls Monitor.initial calls).isMonitoring = true →
      ∀ credentials,
        runCalls Monitor.initial (calls ++ [MonitorCall.start credentials]) =
          runCalls Monitor.initial calls) ∧
    runCalls Monitor.initial (calls ++ [MonitorCall.checkNow]) =
      runCalls Monitor.initial calls := by
  obtain ⟨ht, hm⟩ := monitor_invariant calls Monitor.initial ⟨rfl, by decide⟩
  refine ⟨?_, ht, hm, ?_, ?_⟩
  · rw [ht]
    cases (runCalls Monitor.initial calls).emailMonitorInterval <;> simp
  · intro h credentials
    unfold runCalls at h ⊢
    rw [List.foldl_append]
    show startEmailMonitoring credentials _ = _
    unfold startEmailMonitoring
    rw [if_pos h]
  · unfold runCalls
    rw [List.foldl_append]
    rfl

/-- C28, witness: monitoring is started twice, then the mailbox is checked by
hand; one timer is active. -/
theorem single_scheduler_witness :
    (runCalls Monitor.initial
        [MonitorCall.start true, MonitorCall.start true, MonitorCall.checkNow]).timers = [0] ∧
      runCalls Monitor.initial
          ([MonitorCall.start true] ++ [MonitorCall.start true]) =
        runCalls Monitor.initial [MonitorCall.start true] :=
  ⟨by decide, (single_scheduler [MonitorCall.start true]).2.2.2.1 (by decide) true⟩

/-! ## The total stored with a Conversation (C29) -/

theorem itemTotal_normalizeItem (item : RawItem) :
    itemTotal (normalizeItem item) = rawItemTotal item := by
  unfold itemTotal
  rw [orNum_zero, normalized_product]
  show orNum (rawItemTotal item) (rawProduct item) = rawItemTotal item
  unfold orNum
  by_cases h : rawItemTotal item = 0
  · rw [if_pos h, rawItemTotal_eq_zero item h, h]
  · rw [if_neg h]

theorem foldl_itemTotal_normalized (items : List RawItem) (acc : ℚ) :
    (items.map normalizeItem).foldl (fun sum item => sum + itemTotal item) acc =
      items.foldl (fun sum item => sum + rawItemTotal item) acc := by
  induction items generalizing acc with
  | nil => rfl
  | cons a l ih =>
    rw [List.map_cons, List.foldl_cons, List.foldl_cons, itemTotal_normalizeItem, ih]

/-- C29.  For every value the post-processing of `parseVendorResponse` returns,
the `totalAmount` that lines 359-368 of `processEmail` compute from it, which is
the one stored in the Conversation, is its `totalCost`: recomputing the sum of
the item totals from the normalized items gives the sum the post-processing
already took. -/
theorem second_safety_net (env : Env) (subject emailContent : Str) (date : Option Nat)
    (parsedData : RawQuote) :
    totalAmount (postProcess emailContent parsedData) =
        (postProcess emailContent parsedData).totalCost ∧
      (conversationData env subject emailContent date
          (postProcess emailContent parsedData)).parsedData.totalAmount =
        (postProcess emailContent parsedData).totalCost := by
  have key : totalAmount (postProcess emailContent parsedData) =
      (postProcess emailContent parsedData).totalCost := by
    unfold totalAmount
    simp only [orNum_zero]
    by_cases h : ((postProcess emailContent parsedData).totalCost = 0 &&
        decide ((postProcess emailContent parsedData).items.length > 0)) = true
    · rw [if_pos h]
      rw [Bool.and_eq_true, decide_eq_true_eq, decide_eq_true_eq] at h
      obtain ⟨hz, hl⟩ := h
      unfold postProcess at hz hl ⊢
      simp only [List.length_map] at hl
      simp only [foldl_itemTotal_normalized]
      simp only [] at hz
      unfold afterItemsFallback at hz ⊢
      by_cases ht : afterRegexFallback emailContent
          (orNum (parsedData.totalCost.getD 0) 0) = 0
      · have hc : (afterRegexFallback emailContent (orNum (parsedData.totalCost.getD 0) 0) = 0 &&
            decide ((parsedData.items.getD []).length > 0)) = true := by
          rw [Bool.and_eq_true, decide_eq_true_eq, decide_eq_true_eq]
          exact ⟨ht, hl⟩
        rw [if_pos hc]
      · have hc : ¬ (afterRegexFallback emailContent (orNum (parsedData.totalCost.getD 0) 0) = 0 &&
            decide ((parsedData.items.getD []).length > 0)) = true := by
          rw [Bool.and_eq_true, decide_eq_true_eq, decide_eq_true_eq]
          exact fun hh => ht hh.1
        rw [if_neg hc] at hz
        exact absurd hz ht
    · rw [if_neg h]
  exact ⟨key, key⟩

/-! ## What the overwrite of a Conversation leaves alone (C30) -/

theorem acceptConversation_reviewed (env : RouteEnv) (db db2 : Database) (id : ObjectId)
    (h : acceptConversation env db id = (db2, 200)) (c : Conversation)
    (hc : c ∈ db2.conversations) (hid : c._id = id) :
    c.status = ConversationStatus.accepted ∧ c.reviewedAt = some env.now := by
  unfold acceptConversation at h
  cases hf : db.conversations.find? (fun c => c._id = id) with
  | none =>
    rw [hf] at h
    simp at h
  | some conversation =>
    rw [hf] at h
    have hcid : conversation._id = id := by simpa using List.find?_some hf
    by_cases hs : conversation.status = ConversationStatus.accepted
    · simp [hs] at h
    · simp only [if_neg hs, Prod.mk.injEq, and_true] at h
      subst h
      simp only [List.mem_map] at hc
      obtain ⟨d, _, hd⟩ := hc
      by_cases hdi : d._id = conversation._id
      · rw [if_pos hdi] at hd
        subst hd
        exact ⟨rfl, rfl⟩
      · rw [if_neg hdi] at hd
        subst hd
        rw [hcid] at hdi
        exact absurd hid hdi

theorem rejectConversation_reviewed (env : RouteEnv) (db db2 : Database) (id : ObjectId)
    (reason : Option Str) (h : rejectConversation env db id reason = (db2, 200))
    (c : Conversation) (hc : c ∈ db2.conversations) (hid : c._id = id) :
    c.status = ConversationStatus.rejected ∧ c.reviewedAt = some env.now := by
  unfold rejectConversation at h
  cases hf : db.conversations.find? (fun c => c._id = id) with
  | none =>
    rw [hf] at h
    simp at h
  | some conversation =>
    rw [hf] at h
    have hcid : conversation._id = id := by simpa using List.find?_some hf
    simp only [Prod.mk.injEq, and_true] at h
    subst h
    simp only [List.mem_map] at hc
    obtain ⟨d, _, hd⟩ := hc
    by_cases hdi : d._id = conversation._id
    · rw [if_pos hdi] at hd
      subst hd
      exact ⟨rfl, rfl⟩
    · rw [if_neg hdi] at hd
      subst hd
      rw [hcid] at hdi
      exact absurd hid hdi

/-- C30.  Let a run of `processEmail` that returns true find the existing
Conversation `c` for its pair.  The Conversation collection afterwards is the
old one with the new data assigned to the document of `c`; the assignment
leaves `_id`, `rfpId`, `vendorId`, `reviewedAt` and `reviewedBy` of a document
as they were and sets `status` to pending_review.  So when the store is the one
an accept or a reject of `c` left, `c` is back in pending_review and still
carries the `reviewedAt` of that review. -/
theorem overwrite_frame (env : Env) (s : Store) (m : EmailData) (p : Plan) (c : Conversation)
    (hp : prepare env s m = Except.ok p) (hex : p.existingConversation = some c)
    (ht : (processEmail env s m).2 = true) :
    c ∈ s.conversations ∧
    (processEmail env s m).1.conversations =
      s.conversations.map (fun d => if d._id = c._id then assignData d p.data else d) ∧
    assignData c p.data ∈ (processEmail env s m).1.conversations ∧
    (∀ d : Conversation,
      (assignData d p.data)._id = d._id ∧ (assignData d p.data).rfpId = d.rfpId ∧
        (assignData d p.data).vendorId = d.vendorId ∧
        (assignData d p.data).reviewedAt = d.reviewedAt ∧
        (assignData d p.data).reviewedBy = d.reviewedBy ∧
        (assignData d p.data).status = ConversationStatus.pending_review) ∧
    (∀ (routeEnv : RouteEnv) (db db2 : Database),
      acceptConversation routeEnv db c._id = (db2, 200) → db2.toStore = s →
        c.status = ConversationStatus.accepted ∧
          (assignData c p.data).status = ConversationStatus.pending_review ∧
          (assignData c p.data).reviewedAt = some routeEnv.now) ∧
    (∀ (routeEnv : RouteEnv) (db db2 : Database) (reason : Option Str),
      rejectConversation routeEnv db c._id reason = (db2, 200) → db2.toStore = s →
        c.status = ConversationStatus.rejected ∧
          (assignData c p.data).status = ConversationStatus.pending_review ∧
          (assignData c p.data).reviewedAt = some routeEnv.now) := by
  obtain ⟨fromText, subject, parsedData, _, _, _, _, _, _, _, _, _, _, _, _, hfind, hdata⟩ :=
    (prepare_eq_ok_iff env s m p).1 hp
  rw [hex] at hfind
  have hc : c ∈ s.conversations := by
    unfold findConversation at hfind
    exact List.mem_of_find?_eq_some hfind.symm
  have hstatus : p.data.status = ConversationStatus.pending_review := by
    rw [hdata]
    rfl
  rw [processEmail_of_prepare_ok env s m p hp] at ht ⊢
  obtain ⟨_, hconv, _, _⟩ := commit_true env s p ht
  have hsave : saveConversation env s p =
      s.conversations.map (fun d => if d._id = c._id then assignData d p.data else d) := by
    unfold saveConversation
    rw [hex]
  rw [hsave] at hconv
  refine ⟨hc, hconv, ?_, ?_, ?_, ?_⟩
  · rw [hconv, List.mem_map]
    exact ⟨c, hc, by simp⟩
  · intro d
    exact ⟨rfl, rfl, rfl, rfl, rfl, hstatus⟩
  · intro routeEnv db db2 hacc hs
    have hc2 : c ∈ db2.conversations := by
      rw [← hs] at hc
      exact hc
    obtain ⟨h1, h2⟩ := acceptConversation_reviewed routeEnv db db2 c._id hacc c hc2 rfl
    exact ⟨h1, hstatus, h2⟩
  · intro routeEnv db db2 reason hrej hs
    have hc2 : c ∈ db2.conversations := by
      rw [← hs] at hc
      exact hc
    obtain ⟨h1, h2⟩ := rejectConversation_reviewed routeEnv db db2 c._id reason hrej c hc2 rfl
    exact ⟨h1, hstatus, h2⟩

/-- C30, witness: the reviewer rejects the first reply at time 4, and the revised
reply puts the Conversation back in pending_review with `reviewedAt` still 4. -/
theorem overwrite_frame_witness :
    assignData exConversation exPlan.data ∈
        (processEmail exEnv exStoreReplied (exMail "Re: RFP: IT Equipment")).1.conversations ∧
      exConversation.status = ConversationStatus.rejected ∧
      (assignData exConversation exPlan.data).status = ConversationStatus.pending_review ∧
      (assignData exConversation exPlan.data).reviewedAt = some 4 :=
  ⟨(overwrite_frame exEnv exStoreReplied (exMail "Re: RFP: IT Equipment") exPlan
      exConversation rfl rfl (by decide)).2.2.1,
    (overwrite_frame exEnv exStoreReplied (exMail "Re: RFP: IT Equipment") exPlan
      exConversation rfl rfl (by decide)).2.2.2.2.2
      { exRouteEnv with now := 4 } exPendingDatabase exDatabase (some "Too expensive".toList)
      (by decide) rfl⟩

end RFPSystem
